import Mathlib

/-!
Verification development for the packages `workerqueue`, `ip`, `cache` and `models`.

Shallow embedding of the bounded-concurrency job-execution package
(`task.go`, `taskqueue.go`, `worker.go`, `dispatcher.go`) in the namespace
`Workerqueue`, and of `ip/ip.go`, `cache/cache.go` (`MultiClient.Get`) and
`models/bufferwriter.go` in the namespaces `Ip`, `Cache` and `Models`, where the
library calls (`net.ParseIP`, the JSON decoder, the outcome of `InsertMany`) are
parameters.

Every goroutine of the package is a small state machine whose states are the
program points at which it can be suspended; one action of the interleaving
semantics executes the statement at that point.  A step function returns
`none` when the statement is blocked (or the action names no goroutine at that
point), and a state with `crashed = true` when the statement panics: an
unrecovered panic terminates the whole Go process, so a crashed state has no
further steps.
-/

namespace Workerqueue


/-! ## Go values -/

/-- Identity of a non-nil value of the interface type `Job`; a reference that may be
absent (nil) is an `Option Job`. -/
abbrev Job := Nat

/-- A Go `error`: `none` is nil, `some msg` is `errors.New(msg)`. -/
abbrev GoError := Option String

/-- A Go channel created by `make(chan α, cap)`. -/
structure Chan (α : Type) where
  cap : Nat
  buf : List α
  closed : Bool
deriving DecidableEq, Repr

/-- Result of `make(chan α, n)`. -/
def Chan.make (α : Type) (n : Nat) : Chan α := ⟨n, [], false⟩

/-- Outcome of a send statement `c <- v` that has no receiver waiting. -/
inductive SendOutcome (α : Type) where
  | sent (c : Chan α)
  | blocked
  | fault
deriving DecidableEq, Repr

/-- Send statement `c <- v`: panics on a closed channel, completes when the buffer has
room, blocks otherwise. -/
def Chan.send {α : Type} (c : Chan α) (v : α) : SendOutcome α :=
  if c.closed then .fault
  else if c.buf.length < c.cap then .sent { c with buf := c.buf ++ [v] }
  else .blocked

/-- Outcome of a receive expression `<-c`. -/
inductive RecvOutcome (α : Type) where
  | got (v : α) (c : Chan α)
  | zero
  | blocked
deriving DecidableEq, Repr

/-- Receive expression `<-c`: takes the oldest buffered value, yields the zero value on a
closed and drained channel, blocks otherwise. -/
def Chan.recv {α : Type} (c : Chan α) : RecvOutcome α :=
  match c.buf with
  | v :: rest => .got v { c with buf := rest }
  | [] => if c.closed then .zero else .blocked

/-- Statement `close(c)`: `none` is the panic "close of closed channel". -/
def Chan.close {α : Type} (c : Chan α) : Option (Chan α) :=
  if c.closed then none else some { c with closed := true }

/-- Runs a schedule (a list of actions) of an interleaving semantics from a state; `none` when
some action of the schedule is not enabled. -/
def runActions {S A : Type} (step : A → S → Option S) : List A → S → Option S
  | [], s => some s
  | a :: rest, s =>
    match step a s with
    | some s' => runActions step rest s'
    | none => none

/-- Runs a schedule like `runActions`, and requires `ok` of every state the schedule passes
through, the first and the last included. -/
def runActionsWhile {S A : Type} (ok : S → Bool) (step : A → S → Option S) :
    List A → S → Option S
  | [], s => if ok s then some s else none
  | a :: rest, s =>
    if ok s then
      match step a s with
      | some s' => runActionsWhile ok step rest s'
      | none => none
    else none


/-! ## `task.go` -/

/-- Program points of the goroutine launched by `Task.Run`. -/
inductive TaskUnit where
  /-- Goroutine created, `defer t.wg.Done()` registered, `job.Process()` not yet called. -/
  | spawned (job : Option Job)
  /-- Inside `job.Process()`. -/
  | running (job : Job)
  /-- Process is over (it returned, or it panicked when `panicking`); the deferred
  `t.wg.Done()` runs next. -/
  | unwinding (panicking : Bool)
  /-- The deferred `t.wg.Done()` has run and the goroutine is gone. -/
  | exited
deriving DecidableEq, Repr

/-- A unit that still holds its share of the counter. -/
def TaskUnit.live : TaskUnit → Bool
  | .exited => false
  | _ => true

/-- Program points of the goroutine `go func() { t.wg.Wait(); close(ch) }()` of
`Task.Shutdown`. -/
inductive TaskWaiter where
  /-- Launched; the call `t.wg.Wait()` is next. -/
  | waiting
  /-- Inside `t.wg.Wait()`, which found the counter non-zero: parked until a `Done` brings
  the counter to zero. -/
  | parked
  /-- Inside `t.wg.Wait()`, released by the `Done` that brought the counter to zero; the
  goroutine has yet to resume. -/
  | released
  /-- Wait has returned; `close(ch)` is next. -/
  | closing
  | finished
deriving DecidableEq, Repr

/-- One call of `Task.Shutdown`: its waiter goroutine, its channel `ch`, whether `ctx.Done()`
is closed, and the value returned (`none` while the caller is still in the select). -/
structure TaskShutdown where
  waiter : TaskWaiter
  chClosed : Bool
  ctxDone : Bool
  result : Option GoError
deriving DecidableEq, Repr

/-- What the `Done` that brings the counter to zero does to the waiter of a call: a waiter
parked in Wait is released. -/
def TaskShutdown.release (sc : TaskShutdown) : TaskShutdown :=
  match sc.waiter with
  | .parked => { sc with waiter := .released }
  | _ => sc

/-- The waiters after a `Done` that left the counter at `counter`: at zero, `Done` releases
every waiter parked in Wait. -/
def TaskShutdown.releaseAll (counter : Nat) (scs : List TaskShutdown) : List TaskShutdown :=
  if counter = 0 then scs.map TaskShutdown.release else scs

/-- A `Task` (the counter of its `sync.WaitGroup`) together with the goroutines working
on it. -/
structure Task where
  wg : Nat
  units : List TaskUnit
  shutdowns : List TaskShutdown
  crashed : Bool
deriving DecidableEq, Repr

/-- The zero value `Task{}`. -/
def Task.zero : Task := ⟨0, [], [], false⟩

/-- `Task.Run(job)`: `t.wg.Add(1)`, then the `go` statement; Run returns at once. `Add` only
raises the counter: waiters parked in Wait stay parked, and a waiter already released will find
the counter non-zero when it resumes. -/
def Task.Run (t : Task) (job : Option Job) : Task :=
  { t with wg := t.wg + 1, units := t.units ++ [.spawned job] }

/-- Entry of `Task.Shutdown(ctx)`: `ch` is made, the waiter goroutine is launched and the
caller reaches the select. `ctxDone` tells whether `ctx.Done()` is already closed. -/
def Task.Shutdown (t : Task) (ctxDone : Bool) : Task :=
  { t with shutdowns := t.shutdowns ++ [⟨.waiting, false, ctxDone, none⟩] }

/-- Index of the Shutdown call that `Task.Shutdown` adds. -/
def Task.nextCall (t : Task) : Nat := t.shutdowns.length

/-- The value a Shutdown call has returned, `none` if it has not returned (or does not exist). -/
def Task.resultOf (t : Task) (k : Nat) : Option GoError :=
  match t.shutdowns[k]? with
  | some sc => sc.result
  | none => none

inductive TaskAction where
  /-- Some goroutine calls `t.Run(job)`. -/
  | run (job : Option Job)
  /-- Unit `u` calls `job.Process()`. -/
  | invoke (u : Nat)
  /-- `job.Process()` of unit `u` returns. -/
  | procReturn (u : Nat)
  /-- `job.Process()` of unit `u` panics. -/
  | procAbort (u : Nat)
  /-- The deferred `t.wg.Done()` of unit `u` runs. -/
  | deferDone (u : Nat)
  /-- Some goroutine calls `t.Shutdown(ctx)`. -/
  | shutdown (ctxDone : Bool)
  /-- The context of call `k` reaches its deadline or is cancelled. -/
  | ctxExpire (k : Nat)
  /-- The waiter goroutine of call `k` executes its next statement. -/
  | waiterStep (k : Nat)
  /-- The select of call `k` takes `case <-ch`. -/
  | selectCh (k : Nat)
  /-- The select of call `k` takes `case <-ctx.Done()`. -/
  | selectCtx (k : Nat)
deriving DecidableEq, Repr

/-- Unit `u` calls `job.Process()`; calling a method on a nil interface panics. -/
def Task.invoke (u : Nat) (t : Task) : Option Task :=
  match t.units[u]? with
  | some (.spawned (some j)) => some { t with units := t.units.set u (.running j) }
  | some (.spawned none) => some { t with units := t.units.set u (.unwinding true) }
  | _ => none

/-- Process of unit `u` ends, by a return or by a panic. -/
def Task.procEnd (panicking : Bool) (u : Nat) (t : Task) : Option Task :=
  match t.units[u]? with
  | some (.running _) => some { t with units := t.units.set u (.unwinding panicking) }
  | _ => none

/-- The deferred `t.wg.Done()` of unit `u`; a panicking goroutine crashes the process once its
deferred calls have run. `Done` on a zero counter panics; the `Done` that brings the counter
to zero releases the waiters parked in `t.wg.Wait()`. -/
def Task.deferDone (u : Nat) (t : Task) : Option Task :=
  match t.units[u]? with
  | some (.unwinding p) =>
    match t.wg with
    | 0 => some { t with crashed := true }
    | n + 1 =>
      some { t with wg := n, units := t.units.set u .exited,
                    shutdowns := TaskShutdown.releaseAll n t.shutdowns, crashed := p }
  | _ => none

/-- The context of call `k` becomes done. -/
def Task.ctxExpire (k : Nat) (t : Task) : Option Task :=
  match t.shutdowns[k]? with
  | some sc => some { t with shutdowns := t.shutdowns.set k { sc with ctxDone := true } }
  | none => none

/-- Next statement of the waiter of call `k`. `t.wg.Wait()` returns at once when it finds the
counter at zero and parks the goroutine otherwise; a parked waiter has no step until a `Done`
releases it; a released waiter that resumes returns from Wait when the counter is still
zero, and panics ("WaitGroup is reused before previous Wait has returned") when an `Add` has
raised the counter in between. After Wait comes `close(ch)`. -/
def Task.waiterStep (k : Nat) (t : Task) : Option Task :=
  match t.shutdowns[k]? with
  | some sc =>
    match sc.waiter with
    | .waiting =>
      if t.wg = 0 then
        some { t with shutdowns := t.shutdowns.set k { sc with waiter := .closing } }
      else some { t with shutdowns := t.shutdowns.set k { sc with waiter := .parked } }
    | .parked => none
    | .released =>
      if t.wg = 0 then
        some { t with shutdowns := t.shutdowns.set k { sc with waiter := .closing } }
      else some { t with crashed := true }
    | .closing =>
      some { t with shutdowns := t.shutdowns.set k { sc with waiter := .finished, chClosed := true } }
    | .finished => none
  | none => none

/-- `case <-ch: return nil`: ready once `ch` is closed. -/
def Task.selectCh (k : Nat) (t : Task) : Option Task :=
  match t.shutdowns[k]? with
  | some sc =>
    if sc.result.isNone && sc.chClosed then
      some { t with shutdowns := t.shutdowns.set k { sc with result := some none } }
    else none
  | none => none

/-- `case <-ctx.Done(): return errors.New("timeout")`: ready once the context is done. -/
def Task.selectCtx (k : Nat) (t : Task) : Option Task :=
  match t.shutdowns[k]? with
  | some sc =>
    if sc.result.isNone && sc.ctxDone then
      some { t with shutdowns := t.shutdowns.set k { sc with result := some (some "timeout") } }
    else none
  | none => none

/-- One step of the interleaving semantics of a Task. -/
def Task.step (a : TaskAction) (t : Task) : Option Task :=
  if t.crashed then none
  else
    match a with
    | .run job => some (t.Run job)
    | .invoke u => t.invoke u
    | .procReturn u => t.procEnd false u
    | .procAbort u => t.procEnd true u
    | .deferDone u => t.deferDone u
    | .shutdown d => some (t.Shutdown d)
    | .ctxExpire k => t.ctxExpire k
    | .waiterStep k => t.waiterStep k
    | .selectCh k => t.selectCh k
    | .selectCtx k => t.selectCtx k

/-- States a Task can reach from its zero value. -/
def Task.Reachable (t : Task) : Prop :=
  ∃ acts, runActions Task.step acts Task.zero = some t

/-- Actions that belong to a Shutdown call (the call itself, its waiter, its select, its
context). -/
def TaskAction.ofShutdown : TaskAction → Bool
  | .shutdown _ => true
  | .ctxExpire _ => true
  | .waiterStep _ => true
  | .selectCh _ => true
  | .selectCtx _ => true
  | _ => false


/-! ### Properties of Task states -/

/-- The counter of the WaitGroup equals the number of launched units whose deferred Done has
not run. -/
def Task.Balanced (t : Task) : Prop := t.wg = t.units.countP TaskUnit.live

/-- The ways one step can change the record of a Shutdown call, given the counter before
(`wg`) and after (`wg'`) the step. -/
def TaskShutdown.Moves (wg wg' : Nat) (sc sc' : TaskShutdown) : Prop :=
  sc' = { sc with ctxDone := true } ∨
  (sc.waiter = .waiting ∧ wg = 0 ∧ sc' = { sc with waiter := .closing }) ∨
  (sc.waiter = .closing ∧ sc' = { sc with waiter := .finished, chClosed := true }) ∨
  (sc.result = none ∧ sc.chClosed = true ∧ sc' = { sc with result := some none }) ∨
  (sc.result = none ∧ sc.ctxDone = true ∧
    sc' = { sc with result := some (some "timeout") }) ∨
  (sc.waiter = .waiting ∧ wg ≠ 0 ∧ sc' = { sc with waiter := .parked }) ∨
  (sc.waiter = .released ∧ wg = 0 ∧ sc' = { sc with waiter := .closing }) ∨
  (sc.waiter = .parked ∧ wg' = 0 ∧ sc' = { sc with waiter := .released })

/-- The Shutdown call `k` was made with an expired context, its waiter is still blocked at
`t.wg.Wait()` (about to call it, or parked in it), and the call has either not returned or
returned the timeout error. -/
def Task.PendingExpired (k : Nat) (t : Task) : Prop :=
  ∃ sc, t.shutdowns[k]? = some sc ∧ (sc.waiter = .waiting ∨ sc.waiter = .parked) ∧
    sc.chClosed = false ∧ sc.ctxDone = true ∧
    (sc.result = none ∨ sc.result = some (some "timeout"))

/-- The values a Shutdown call can hold as its result: not returned, nil, or the timeout
error with a context that is done. -/
def TaskShutdown.Justified (sc : TaskShutdown) : Prop :=
  sc.result = none ∨ sc.result = some none ∨
    (sc.result = some (some "timeout") ∧ sc.ctxDone = true)

/-- Every Shutdown call of the Task holds a justified result. -/
def Task.AllJustified (t : Task) : Prop := ∀ sc ∈ t.shutdowns, sc.Justified

/-- A Task on which one job is inside Process. -/
def Task.sampleBusy : Task := ⟨1, [.running 1], [], false⟩

/-- A Task on which one job ran and finished. -/
def Task.sampleIdle : Task := ⟨0, [.exited], [], false⟩

/-! ## `taskqueue.go` -/

/-- Program points of a consumer goroutine launched by `TaskQueue.Start`. -/
inductive Consumer where
  /-- At the select over `t.queue` and `t.quitChan`. -/
  | idle
  /-- Inside `job.Process()` for the job submitted by AddJob call `ticket`. -/
  | running (ticket : Nat) (job : Job)
  /-- Process has returned; `t.wg.Done()` is next. -/
  | finishing
  /-- Returned after receiving from `t.quitChan`. -/
  | exited
deriving DecidableEq, Repr

def Consumer.isRunning : Consumer → Bool
  | .running _ _ => true
  | _ => false

def Consumer.isExited : Consumer → Bool
  | .exited => true
  | _ => false

/-- Program points of an `AddJob` call after its `t.wg.Add(1)`. -/
inductive Adder where
  /-- At the send `t.queue <- job`. -/
  | sending (job : Option Job)
  /-- The send completed and AddJob returned. -/
  | returned
deriving DecidableEq, Repr

/-- Program points of the waiter goroutine of `TaskQueue.Shutdown`. -/
inductive QueueWaiter where
  /-- Launched; the call `t.wg.Wait()` is next. -/
  | waiting
  /-- Inside `t.wg.Wait()`, which found the counter non-zero: parked until a `Done` brings
  the counter to zero. -/
  | parked
  /-- Inside `t.wg.Wait()`, released by the `Done` that brought the counter to zero; the
  goroutine has yet to resume. -/
  | released
  /-- Wait has returned; `close(t.queue)` is next. -/
  | closing
  /-- In the loop `for i := 0; i < t.qlen; i++` with loop variable `i`: the send
  `t.quitChan <- true` is next while `i < t.qlen`, the send `ch <- struct{}{}` after it. -/
  | quitting (i : Nat)
  /-- The signal is in `ch`; `close(ch)` is next. -/
  | closingCh
  | finished
deriving DecidableEq, Repr

/-- The waiter has executed `close(t.queue)`. -/
def QueueWaiter.past : QueueWaiter → Bool
  | .waiting => false
  | .parked => false
  | .released => false
  | .closing => false
  | _ => true

/-- The waiter is at `t.wg.Wait()`: about to call it, or inside it. -/
def QueueWaiter.atWait : QueueWaiter → Bool
  | .waiting => true
  | .parked => true
  | .released => true
  | _ => false

/-- Number of sends on `t.quitChan` the waiter has completed, for a queue of size `l`. -/
def QueueWaiter.sent (l : Nat) : QueueWaiter → Nat
  | .waiting => 0
  | .parked => 0
  | .released => 0
  | .closing => 0
  | .quitting i => i
  | .closingCh => l
  | .finished => l

/-- The waiter has sent its signal on `ch`. -/
def QueueWaiter.signalled : QueueWaiter → Bool
  | .closingCh => true
  | .finished => true
  | _ => false

/-- One call of `TaskQueue.Shutdown`: its waiter, its channel `ch := make(chan struct{}, 1)`,
whether `ctx.Done()` is closed, and the value returned (`none` while in the select). -/
structure QueueShutdown where
  waiter : QueueWaiter
  ch : Chan Unit
  ctxDone : Bool
  result : Option GoError
deriving DecidableEq, Repr

/-- The record of a Shutdown call at its entry. -/
def QueueShutdown.fresh (ctxDone : Bool) : QueueShutdown :=
  ⟨.waiting, Chan.make Unit 1, ctxDone, none⟩

/-- What the `Done` that brings the counter to zero does to the waiter of a call: a waiter
parked in Wait is released. -/
def QueueShutdown.release (sc : QueueShutdown) : QueueShutdown :=
  match sc.waiter with
  | .parked => { sc with waiter := .released }
  | _ => sc

/-- The waiters after a `Done` that left the counter at `counter`: at zero, `Done` releases
every waiter parked in Wait. -/
def QueueShutdown.releaseAll (counter : Nat) (scs : List QueueShutdown) : List QueueShutdown :=
  if counter = 0 then scs.map QueueShutdown.release else scs

/-- A `TaskQueue` with the goroutines working on it. The values in `queue` carry, next to the
job, the number of the AddJob call that sent them; `processed` records every call of
`job.Process()` as (consumer, number of the AddJob call). Neither is read by the program. -/
structure TaskQueue where
  queue : Chan (Nat × Option Job)
  quitChan : Chan Bool
  qlen : Nat
  wg : Nat
  consumers : List Consumer
  adders : List Adder
  shutdowns : List QueueShutdown
  processed : List (Nat × Nat)
  crashed : Bool
deriving DecidableEq, Repr

/-- `NewTaskQueue(l)`. -/
def NewTaskQueue (l : Nat) : TaskQueue :=
  { queue := Chan.make (Nat × Option Job) l, quitChan := Chan.make Bool l, qlen := l, wg := 0,
    consumers := [], adders := [], shutdowns := [], processed := [], crashed := false }

/-- `TaskQueue.Start()`: launches `t.qlen` consumer goroutines. -/
def TaskQueue.Start (t : TaskQueue) : TaskQueue :=
  { t with consumers := t.consumers ++ List.replicate t.qlen .idle }

/-- Entry of `TaskQueue.Shutdown(ctx)`. -/
def TaskQueue.Shutdown (t : TaskQueue) (ctxDone : Bool) : TaskQueue :=
  { t with shutdowns := t.shutdowns ++ [QueueShutdown.fresh ctxDone] }

/-- Index of the Shutdown call that `TaskQueue.Shutdown` adds. -/
def TaskQueue.nextCall (t : TaskQueue) : Nat := t.shutdowns.length

/-- The value a Shutdown call has returned, `none` if it has not returned. -/
def TaskQueue.resultOf (t : TaskQueue) (k : Nat) : Option GoError :=
  match t.shutdowns[k]? with
  | some sc => sc.result
  | none => none

/-- Number of jobs inside Process. -/
def TaskQueue.executing (t : TaskQueue) : Nat := t.consumers.countP Consumer.isRunning

/-- Number of quit signals sent so far: those still in `quitChan` and those received. -/
def TaskQueue.quitSent (t : TaskQueue) : Nat :=
  t.quitChan.buf.length + t.consumers.countP Consumer.isExited

inductive QueueAction where
  /-- Some goroutine calls `t.AddJob(job)` and executes `t.wg.Add(1)`. -/
  | addBegin (job : Option Job)
  /-- The send `t.queue <- job` of AddJob call `a`. -/
  | addSend (a : Nat)
  /-- The select of consumer `c` takes `case job := <-t.queue`. -/
  | recv (c : Nat)
  /-- The select of consumer `c` takes `case <-t.quitChan`. -/
  | quit (c : Nat)
  /-- `job.Process()` of consumer `c` returns. -/
  | procReturn (c : Nat)
  /-- `job.Process()` of consumer `c` panics. -/
  | procPanic (c : Nat)
  /-- Consumer `c` executes `t.wg.Done()`. -/
  | wgDone (c : Nat)
  /-- Some goroutine calls `t.Shutdown(ctx)`. -/
  | shutdown (ctxDone : Bool)
  /-- The context of call `k` reaches its deadline or is cancelled. -/
  | ctxExpire (k : Nat)
  /-- The waiter goroutine of call `k` executes its next statement. -/
  | waiterStep (k : Nat)
  /-- The select of call `k` takes `case <-ch`. -/
  | selectCh (k : Nat)
  /-- The select of call `k` takes `case <-ctx.Done()`. -/
  | selectCtx (k : Nat)
deriving DecidableEq, Repr

/-- First statement of `AddJob`: `t.wg.Add(1)`; the call then stands at the send. `Add` only
raises the counter: waiters parked in Wait stay parked, and a waiter already released will find
the counter non-zero when it resumes. -/
def TaskQueue.addBegin (job : Option Job) (t : TaskQueue) : TaskQueue :=
  { t with wg := t.wg + 1, adders := t.adders ++ [.sending job] }

/-- Second statement of `AddJob`: `t.queue <- job`. -/
def TaskQueue.addSend (a : Nat) (t : TaskQueue) : Option TaskQueue :=
  match t.adders[a]? with
  | some (.sending job) =>
    match t.queue.send (a, job) with
    | .sent q => some { t with queue := q, adders := t.adders.set a .returned }
    | .blocked => none
    | .fault => some { t with crashed := true }
  | _ => none

/-- `case job := <-t.queue`: a present job is processed, an absent one is skipped. -/
def TaskQueue.recv (c : Nat) (t : TaskQueue) : Option TaskQueue :=
  match t.consumers[c]? with
  | some .idle =>
    match t.queue.recv with
    | .got (ticket, some job) q =>
      some { t with queue := q, consumers := t.consumers.set c (.running ticket job),
                    processed := t.processed ++ [(c, ticket)] }
    | .got (_, none) q => some { t with queue := q }
    | .zero => some t
    | .blocked => none
  | _ => none

/-- `case <-t.quitChan: return`. -/
def TaskQueue.quit (c : Nat) (t : TaskQueue) : Option TaskQueue :=
  match t.consumers[c]? with
  | some .idle =>
    match t.quitChan.recv with
    | .got _ q => some { t with quitChan := q, consumers := t.consumers.set c .exited }
    | .zero => some { t with consumers := t.consumers.set c .exited }
    | .blocked => none
  | _ => none

/-- `job.Process()` of consumer `c` returns. -/
def TaskQueue.procReturn (c : Nat) (t : TaskQueue) : Option TaskQueue :=
  match t.consumers[c]? with
  | some (.running _ _) => some { t with consumers := t.consumers.set c .finishing }
  | _ => none

/-- `job.Process()` of consumer `c` panics; nothing recovers it. -/
def TaskQueue.procPanic (c : Nat) (t : TaskQueue) : Option TaskQueue :=
  match t.consumers[c]? with
  | some (.running _ _) => some { t with crashed := true }
  | _ => none

/-- `t.wg.Done()` of consumer `c`, which then loops back to the select. `Done` on a zero
counter panics; the `Done` that brings the counter to zero releases the waiters parked in
`t.wg.Wait()`. -/
def TaskQueue.wgDone (c : Nat) (t : TaskQueue) : Option TaskQueue :=
  match t.consumers[c]? with
  | some .finishing =>
    match t.wg with
    | 0 => some { t with crashed := true }
    | n + 1 =>
      some { t with wg := n, consumers := t.consumers.set c .idle,
                    shutdowns := QueueShutdown.releaseAll n t.shutdowns }
  | _ => none

/-- The context of call `k` becomes done. -/
def TaskQueue.ctxExpire (k : Nat) (t : TaskQueue) : Option TaskQueue :=
  match t.shutdowns[k]? with
  | some sc => some { t with shutdowns := t.shutdowns.set k { sc with ctxDone := true } }
  | none => none

/-- Next statement of the waiter of call `k`. `t.wg.Wait()` returns at once when it finds the
counter at zero and parks the goroutine otherwise; a parked waiter has no step until a `Done`
releases it; a released waiter that resumes returns from Wait when the counter is still
zero, and panics ("WaitGroup is reused before previous Wait has returned") when an `Add` has
raised the counter in between. -/
def TaskQueue.waiterStep (k : Nat) (t : TaskQueue) : Option TaskQueue :=
  match t.shutdowns[k]? with
  | some sc =>
    match sc.waiter with
    | .waiting =>
      if t.wg = 0 then
        some { t with shutdowns := t.shutdowns.set k { sc with waiter := .closing } }
      else some { t with shutdowns := t.shutdowns.set k { sc with waiter := .parked } }
    | .parked => none
    | .released =>
      if t.wg = 0 then
        some { t with shutdowns := t.shutdowns.set k { sc with waiter := .closing } }
      else some { t with crashed := true }
    | .closing =>
      match t.queue.close with
      | some q =>
        some { t with queue := q,
                      shutdowns := t.shutdowns.set k { sc with waiter := .quitting 0 } }
      | none => some { t with crashed := true }
    | .quitting i =>
      if i < t.qlen then
        match t.quitChan.send true with
        | .sent q =>
          some { t with quitChan := q,
                        shutdowns := t.shutdowns.set k { sc with waiter := .quitting (i + 1) } }
        | .blocked => none
        | .fault => some { t with crashed := true }
      else
        match sc.ch.send () with
        | .sent ch =>
          some { t with shutdowns := t.shutdowns.set k { sc with waiter := .closingCh, ch := ch } }
        | .blocked => none
        | .fault => some { t with crashed := true }
    | .closingCh =>
      match sc.ch.close with
      | some ch =>
        some { t with shutdowns := t.shutdowns.set k { sc with waiter := .finished, ch := ch } }
      | none => some { t with crashed := true }
    | .finished => none
  | none => none

/-- `case <-ch: return nil`. -/
def TaskQueue.selectCh (k : Nat) (t : TaskQueue) : Option TaskQueue :=
  match t.shutdowns[k]? with
  | some sc =>
    if sc.result.isNone then
      match sc.ch.recv with
      | .got _ ch =>
        some { t with shutdowns := t.shutdowns.set k { sc with ch := ch, result := some none } }
      | .zero => some { t with shutdowns := t.shutdowns.set k { sc with result := some none } }
      | .blocked => none
    else none
  | none => none

/-- `case <-ctx.Done(): return errors.New("timeout")`. -/
def TaskQueue.selectCtx (k : Nat) (t : TaskQueue) : Option TaskQueue :=
  match t.shutdowns[k]? with
  | some sc =>
    if sc.result.isNone && sc.ctxDone then
      some { t with shutdowns := t.shutdowns.set k { sc with result := some (some "timeout") } }
    else none
  | none => none

/-- One step of the interleaving semantics of a TaskQueue. -/
def TaskQueue.step (a : QueueAction) (t : TaskQueue) : Option TaskQueue :=
  if t.crashed then none
  else
    match a with
    | .addBegin job => some (t.addBegin job)
    | .addSend i => t.addSend i
    | .recv c => t.recv c
    | .quit c => t.quit c
    | .procReturn c => t.procReturn c
    | .procPanic c => t.procPanic c
    | .wgDone c => t.wgDone c
    | .shutdown d => some (t.Shutdown d)
    | .ctxExpire k => t.ctxExpire k
    | .waiterStep k => t.waiterStep k
    | .selectCh k => t.selectCh k
    | .selectCtx k => t.selectCtx k

/-- States reachable from a queue made by `NewTaskQueue(l)` on which `Start` was called once. -/
def TaskQueue.Reachable (l : Nat) (t : TaskQueue) : Prop :=
  ∃ acts, runActions TaskQueue.step acts (NewTaskQueue l).Start = some t

/-- Actions of a Shutdown call. -/
def QueueAction.ofShutdown : QueueAction → Bool
  | .shutdown _ => true
  | .ctxExpire _ => true
  | .waiterStep _ => true
  | .selectCh _ => true
  | .selectCtx _ => true
  | _ => false

/-! ### Properties of TaskQueue states -/

/-- The ways one step can change the record of a Shutdown call without touching the rest of
the queue, given the counter and the size of the queue. -/
inductive QueueShutdown.Moves (wg qlen : Nat) (sc : QueueShutdown) : QueueShutdown → Prop where
  | expire : QueueShutdown.Moves wg qlen sc { sc with ctxDone := true }
  | wake : sc.waiter = .waiting → wg = 0 →
      QueueShutdown.Moves wg qlen sc { sc with waiter := .closing }
  | park : sc.waiter = .waiting → wg ≠ 0 →
      QueueShutdown.Moves wg qlen sc { sc with waiter := .parked }
  | resume : sc.waiter = .released → wg = 0 →
      QueueShutdown.Moves wg qlen sc { sc with waiter := .closing }
  | signal (i : Nat) : sc.waiter = .quitting i → ¬ i < qlen → sc.ch.closed = false →
      sc.ch.buf.length < sc.ch.cap →
      QueueShutdown.Moves wg qlen sc
        { sc with waiter := .closingCh, ch := { sc.ch with buf := sc.ch.buf ++ [()] } }
  | closeCh : sc.waiter = .closingCh → sc.ch.closed = false →
      QueueShutdown.Moves wg qlen sc
        { sc with waiter := .finished, ch := { sc.ch with closed := true } }
  | retNilGot (v : Unit) (rest : List Unit) : sc.result = none → sc.ch.buf = v :: rest →
      QueueShutdown.Moves wg qlen sc
        { sc with ch := { sc.ch with buf := rest }, result := some none }
  | retNilZero : sc.result = none → sc.ch.buf = [] → sc.ch.closed = true →
      QueueShutdown.Moves wg qlen sc { sc with result := some none }
  | retTimeout : sc.result = none → sc.ctxDone = true →
      QueueShutdown.Moves wg qlen sc { sc with result := some (some "timeout") }

/-- The state changes one step of a TaskQueue can make, with the action that makes them. -/
inductive TaskQueue.Moves (t : TaskQueue) : QueueAction → TaskQueue → Prop where
  | addBegin (job : Option Job) : TaskQueue.Moves t (.addBegin job) (t.addBegin job)
  | addSend (a : Nat) (job : Option Job) : t.adders[a]? = some (.sending job) →
      t.queue.closed = false → t.queue.buf.length < t.queue.cap →
      TaskQueue.Moves t (.addSend a)
        { t with queue := { t.queue with buf := t.queue.buf ++ [(a, job)] },
                 adders := t.adders.set a .returned }
  | crash (a : QueueAction) : TaskQueue.Moves t a { t with crashed := true }
  | recvJob (c ticket : Nat) (job : Job) (rest : List (Nat × Option Job)) :
      t.consumers[c]? = some .idle → t.queue.buf = (ticket, some job) :: rest →
      TaskQueue.Moves t (.recv c)
        { t with queue := { t.queue with buf := rest },
                 consumers := t.consumers.set c (.running ticket job),
                 processed := t.processed ++ [(c, ticket)] }
  | recvNil (c ticket : Nat) (rest : List (Nat × Option Job)) :
      t.consumers[c]? = some .idle → t.queue.buf = (ticket, none) :: rest →
      TaskQueue.Moves t (.recv c) { t with queue := { t.queue with buf := rest } }
  | recvZero (c : Nat) : t.consumers[c]? = some .idle → t.queue.buf = [] →
      t.queue.closed = true → TaskQueue.Moves t (.recv c) t
  | quit (c : Nat) (v : Bool) (rest : List Bool) : t.consumers[c]? = some .idle →
      t.quitChan.buf = v :: rest →
      TaskQueue.Moves t (.quit c)
        { t with quitChan := { t.quitChan with buf := rest },
                 consumers := t.consumers.set c .exited }
  | quitZero (c : Nat) : t.consumers[c]? = some .idle → t.quitChan.buf = [] →
      t.quitChan.closed = true →
      TaskQueue.Moves t (.quit c) { t with consumers := t.consumers.set c .exited }
  | procReturn (c ticket : Nat) (job : Job) : t.consumers[c]? = some (.running ticket job) →
      TaskQueue.Moves t (.procReturn c) { t with consumers := t.consumers.set c .finishing }
  | wgDone (c n : Nat) : t.consumers[c]? = some .finishing → t.wg = n + 1 →
      TaskQueue.Moves t (.wgDone c)
        { t with wg := n, consumers := t.consumers.set c .idle,
                 shutdowns := QueueShutdown.releaseAll n t.shutdowns }
  | shutdown (d : Bool) : TaskQueue.Moves t (.shutdown d) (t.Shutdown d)
  | record (a : QueueAction) (k : Nat) (sc sc' : QueueShutdown) : a.ofShutdown = true →
      t.shutdowns[k]? = some sc → QueueShutdown.Moves t.wg t.qlen sc sc' →
      TaskQueue.Moves t a { t with shutdowns := t.shutdowns.set k sc' }
  | closeQueue (k : Nat) (sc : QueueShutdown) : t.shutdowns[k]? = some sc →
      sc.waiter = .closing → t.queue.closed = false →
      TaskQueue.Moves t (.waiterStep k)
        { t with queue := { t.queue with closed := true },
                 shutdowns := t.shutdowns.set k { sc with waiter := .quitting 0 } }
  | sendQuit (k : Nat) (sc : QueueShutdown) (i : Nat) : t.shutdowns[k]? = some sc →
      sc.waiter = .quitting i → i < t.qlen → t.quitChan.closed = false →
      t.quitChan.buf.length < t.quitChan.cap →
      TaskQueue.Moves t (.waiterStep k)
        { t with quitChan := { t.quitChan with buf := t.quitChan.buf ++ [true] },
                 shutdowns := t.shutdowns.set k { sc with waiter := .quitting (i + 1) } }

/-- Sizes fixed by `NewTaskQueue(l)` and `Start`. -/
structure TaskQueue.Sized (l : Nat) (t : TaskQueue) : Prop where
  qlen : t.qlen = l
  consumers : t.consumers.length = l
  queueCap : t.queue.cap = l
  queueLen : t.queue.buf.length ≤ l
  quitCap : t.quitChan.cap = l
  quitOpen : t.quitChan.closed = false
  procBound : ∀ e ∈ t.processed, e.1 < l

/-- The queue buffer is full and AddJob call `a` stands at its send. -/
def TaskQueue.BlockedSend (a : Nat) (t : TaskQueue) : Prop :=
  t.queue.buf.length = t.queue.cap ∧ ∃ job, t.adders[a]? = some (.sending job)

/-- Every consumer goroutine is inside Process. -/
def TaskQueue.AllRunning (t : TaskQueue) : Prop :=
  ∀ x ∈ t.consumers, x.isRunning = true

/-- A queue of size 1 whose consumer is inside Process for a first job while a second AddJob
call stands at its send: one job is in flight and none has completed. -/
def TaskQueue.sampleOneRunning : TaskQueue :=
  { queue := ⟨1, [], false⟩, quitChan := ⟨1, [], false⟩, qlen := 1, wg := 2,
    consumers := [.running 0 7], adders := [.returned, .sending (some 8)], shutdowns := [],
    processed := [(0, 0)], crashed := false }

/-- A queue of size 1 with one job inside Process, one job in the buffer and a third AddJob
call standing at its send. -/
def TaskQueue.sampleFull : TaskQueue :=
  { queue := ⟨1, [(1, some 8)], false⟩, quitChan := ⟨1, [], false⟩, qlen := 1, wg := 3,
    consumers := [.running 0 7], adders := [.returned, .returned, .sending (some 9)],
    shutdowns := [], processed := [(0, 0)], crashed := false }

/-- What the record of a Shutdown call guarantees by itself: until the waiter has sent its
signal, `ch` is as it was made; a call that returned nil has a waiter that sent the signal. -/
def QueueShutdown.Coherent (sc : QueueShutdown) : Prop :=
  (sc.waiter.signalled = false → sc.ch = Chan.make Unit 1) ∧
  (sc.result = some none → sc.waiter.signalled = true) ∧
  (sc.result = some (some "timeout") → sc.ctxDone = true) ∧
  (sc.result = none ∨ sc.result = some none ∨ sc.result = some (some "timeout"))

/-- Accounting of the quit signals: only a waiter that closed the queue sends them, there is
at most one such waiter, and the number it has sent is the number that are in `quitChan` or
were received by a consumer. -/
structure TaskQueue.Accounted (t : TaskQueue) : Prop where
  pastOk : ∀ (k : Nat) (sc : QueueShutdown), t.shutdowns[k]? = some sc →
    sc.waiter.past = true →
    t.queue.closed = true ∧ sc.waiter.sent t.qlen = t.quitSent ∧ t.quitSent ≤ t.qlen
  pastUnique : ∀ (k k' : Nat) (sc sc' : QueueShutdown), t.shutdowns[k]? = some sc →
    t.shutdowns[k']? = some sc' → sc.waiter.past = true → sc'.waiter.past = true → k = k'
  quiet : (∀ (k : Nat) (sc : QueueShutdown), t.shutdowns[k]? = some sc →
      sc.waiter.past = false) → t.queue.closed = false ∧ t.quitSent = 0
  coherent : ∀ (k : Nat) (sc : QueueShutdown), t.shutdowns[k]? = some sc → sc.Coherent

/-- Every Shutdown call made so far has its waiter still blocked at `t.wg.Wait()`: about to
call it, or parked in it. -/
def TaskQueue.WaitersBlocked (t : TaskQueue) : Prop :=
  ∀ (k : Nat) (sc : QueueShutdown), t.shutdowns[k]? = some sc →
    sc.waiter = .waiting ∨ sc.waiter = .parked

/-- A waiter is parked in `t.wg.Wait()` only while the counter is not zero. -/
def TaskQueue.ParkedPositive (t : TaskQueue) : Prop :=
  ∀ (k : Nat) (sc : QueueShutdown), t.shutdowns[k]? = some sc → sc.waiter = .parked →
    t.wg ≠ 0

/-- A queue of size 1 whose consumer is inside Process for the only job submitted. -/
def TaskQueue.sampleBusy : TaskQueue :=
  { queue := ⟨1, [], false⟩, quitChan := ⟨1, [], false⟩, qlen := 1, wg := 1,
    consumers := [.running 0 7], adders := [.returned], shutdowns := [],
    processed := [(0, 0)], crashed := false }

/-- The queue `sampleBusy` after a Shutdown call whose context expired and which returned the
timeout error. -/
def TaskQueue.sampleTimedOut : TaskQueue :=
  { TaskQueue.sampleBusy with
      shutdowns := [⟨.waiting, Chan.make Unit 1, true, some (some "timeout")⟩] }

/-- The queue `sampleBusy` after Shutdown was called with a live context and the job then
finished: the counter has reached zero and the context is not done. -/
def TaskQueue.sampleDrained : TaskQueue :=
  { TaskQueue.sampleBusy with
      wg := 0, consumers := [.idle], shutdowns := [QueueShutdown.fresh false] }

/-- The schedule that takes the waiter of call `k` from `t.wg.Wait()` to its signal on `ch`
on a queue of size `l`, followed by the select taking `ch`. -/
def TaskQueue.drainSchedule (l k : Nat) : List QueueAction :=
  .waiterStep k :: .waiterStep k ::
    (List.replicate l (.waiterStep k) ++ [.waiterStep k, .selectCh k])

/-! ## `worker.go` and `dispatcher.go` -/

/-- Program points of `Worker.startWorker`. -/
inductive WorkerState where
  /-- At `w.WorkerPool <- w.JobChannel`. -/
  | registering
  /-- At the select over `w.JobChannel` and `w.QuitChan`. -/
  | waiting
  /-- Inside `work.Process()` for the job taken from the inbound channel as number `ticket`. -/
  | busy (ticket : Nat) (job : Job)
  /-- Returned after receiving from `w.QuitChan`. -/
  | stopped
deriving DecidableEq, Repr

def WorkerState.isBusy : WorkerState → Bool
  | .busy _ _ => true
  | _ => false

/-- `case work := <-w.JobChannel: work.Process()`: the worker calls Process on what it
received; on a nil interface the call panics (`none`). -/
def Worker.onJob (ticket : Nat) (work : Option Job) : Option WorkerState :=
  match work with
  | some job => some (.busy ticket job)
  | none => none

/-- Program points of a goroutine `go d.sendJobToWorker(job)`. -/
inductive Forwarder where
  /-- At `if job == nil`. -/
  | checking (job : Option Job)
  /-- At `worker := <-d.workerPool`. -/
  | pulling (job : Option Job)
  /-- At `worker <- job`; `worker` is the channel of a worker, or the nil channel (`none`). -/
  | sending (worker : Option Nat) (job : Option Job)
  /-- Returned. -/
  | finished
deriving DecidableEq, Repr

/-- A `Dispatcher` with the goroutines working on it. The channel `JobChannel` of a worker is
identified with the position of the worker in `workers`. `dispatchers` counts the running
`d.dispatch` loops. The lists `forwards` (number of the job, worker whose channel it was sent
on) and `processed` (worker, number of the job) record the completed sends `worker <- job`
and the calls of `work.Process()`; the program does not read them. The number of a job is the
position of its `sendJobToWorker` goroutine in `forwarders`. -/
structure Dispatcher where
  maxWorkers : Nat
  workers : List WorkerState
  workerPool : Chan Nat
  dispatchers : Nat
  forwarders : List Forwarder
  quitters : List Nat
  forwards : List (Nat × Nat)
  processed : List (Nat × Nat)
  crashed : Bool
deriving DecidableEq, Repr

/-- `NewDispatcher(maxWorkers)`. -/
def NewDispatcher (maxWorkers : Nat) : Dispatcher :=
  { maxWorkers := maxWorkers, workers := [], workerPool := Chan.make Nat maxWorkers,
    dispatchers := 0, forwarders := [], quitters := [], forwards := [], processed := [],
    crashed := false }

/-- `Dispatcher.Run(jobPool)`: creates and starts `maxWorkers` workers and launches the
dispatch loop. -/
def Dispatcher.Run (d : Dispatcher) : Dispatcher :=
  { d with workers := d.workers ++ List.replicate d.maxWorkers .registering,
           dispatchers := d.dispatchers + 1 }

/-- Number of jobs inside Process. -/
def Dispatcher.executing (d : Dispatcher) : Nat := d.workers.countP WorkerState.isBusy

inductive DispatcherAction where
  /-- The dispatch loop receives `job` from the inbound channel and executes
  `go d.sendJobToWorker(job)`. -/
  | dispatch (job : Option Job)
  /-- The goroutine `sendJobToWorker` number `f` executes its next statement short of the
  final send. -/
  | forward (f : Nat)
  /-- The send `worker <- job` of goroutine `f` meets the receive of the worker. -/
  | deliver (f : Nat)
  /-- Worker `w` executes `w.WorkerPool <- w.JobChannel`. -/
  | register (w : Nat)
  /-- `work.Process()` of worker `w` returns. -/
  | procReturn (w : Nat)
  /-- `work.Process()` of worker `w` panics. -/
  | procPanic (w : Nat)
  /-- Some goroutine calls `d.Stop()`. -/
  | stop
  /-- A pending send `w.QuitChan <- true` meets the select of worker `w`. -/
  | quit (w : Nat)
deriving DecidableEq, Repr

/-- Body of the dispatch loop for one received job: `go d.sendJobToWorker(job)`. -/
def Dispatcher.dispatch (job : Option Job) (d : Dispatcher) : Option Dispatcher :=
  if 0 < d.dispatchers then some { d with forwarders := d.forwarders ++ [.checking job] }
  else none

/-- `Dispatcher.sendJobToWorker(job)`, one statement at a time, for goroutine `f`: the nil
check, then the receive from the worker pool. The final send is `Dispatcher.deliver`. -/
def Dispatcher.sendJobToWorker (f : Nat) (d : Dispatcher) : Option Dispatcher :=
  match d.forwarders[f]? with
  | some (.checking none) => some { d with forwarders := d.forwarders.set f .finished }
  | some (.checking (some job)) =>
    some { d with forwarders := d.forwarders.set f (.pulling (some job)) }
  | some (.pulling job) =>
    match d.workerPool.recv with
    | .got w pool =>
      some { d with workerPool := pool, forwarders := d.forwarders.set f (.sending (some w) job) }
    | .zero => some { d with forwarders := d.forwarders.set f (.sending none job) }
    | .blocked => none
  | _ => none

/-- The send `worker <- job` of goroutine `f` completes when the worker stands at its select
and takes the job case; the worker then calls `work.Process()`. A send on the nil channel
never completes. -/
def Dispatcher.deliver (f : Nat) (d : Dispatcher) : Option Dispatcher :=
  match d.forwarders[f]? with
  | some (.sending (some w) job) =>
    match d.workers[w]? with
    | some .waiting =>
      match Worker.onJob f job with
      | some st =>
        some { d with workers := d.workers.set w st,
                      forwarders := d.forwarders.set f .finished,
                      forwards := d.forwards ++ [(f, w)],
                      processed := d.processed ++ [(w, f)] }
      | none => some { d with crashed := true }
    | _ => none
  | _ => none

/-- `w.WorkerPool <- w.JobChannel` of worker `w`. -/
def Dispatcher.register (w : Nat) (d : Dispatcher) : Option Dispatcher :=
  match d.workers[w]? with
  | some .registering =>
    match d.workerPool.send w with
    | .sent pool => some { d with workerPool := pool, workers := d.workers.set w .waiting }
    | .blocked => none
    | .fault => some { d with crashed := true }
  | _ => none

/-- `work.Process()` of worker `w` returns and the worker loops. -/
def Dispatcher.procReturn (w : Nat) (d : Dispatcher) : Option Dispatcher :=
  match d.workers[w]? with
  | some (.busy _ _) => some { d with workers := d.workers.set w .registering }
  | _ => none

/-- `work.Process()` of worker `w` panics; nothing recovers it. -/
def Dispatcher.procPanic (w : Nat) (d : Dispatcher) : Option Dispatcher :=
  match d.workers[w]? with
  | some (.busy _ _) => some { d with crashed := true }
  | _ => none

/-- `Dispatcher.Stop()`: `w.Stop()` for every worker launches a goroutine that sends on
`w.QuitChan`; then `close(d.workerPool)`, which panics on a closed channel. -/
def Dispatcher.Stop (d : Dispatcher) : Dispatcher :=
  match d.workerPool.close with
  | some pool =>
    { d with quitters := d.quitters ++ List.range d.workers.length, workerPool := pool }
  | none => { d with quitters := d.quitters ++ List.range d.workers.length, crashed := true }

/-- `case <-w.QuitChan: return` of worker `w`, meeting a pending send on `w.QuitChan`. -/
def Dispatcher.quit (w : Nat) (d : Dispatcher) : Option Dispatcher :=
  match d.workers[w]? with
  | some .waiting =>
    if w ∈ d.quitters then
      some { d with workers := d.workers.set w .stopped, quitters := d.quitters.erase w }
    else none
  | _ => none

/-- One step of the interleaving semantics of a Dispatcher. -/
def Dispatcher.step (a : DispatcherAction) (d : Dispatcher) : Option Dispatcher :=
  if d.crashed then none
  else
    match a with
    | .dispatch job => d.dispatch job
    | .forward f => d.sendJobToWorker f
    | .deliver f => d.deliver f
    | .register w => d.register w
    | .procReturn w => d.procReturn w
    | .procPanic w => d.procPanic w
    | .stop => some d.Stop
    | .quit w => d.quit w

/-- States reachable from a dispatcher built by `NewDispatcher(n)` on which `Run` was called
once. -/
def Dispatcher.Reachable (n : Nat) (d : Dispatcher) : Prop :=
  ∃ acts, runActions Dispatcher.step acts (NewDispatcher n).Run = some d

/-! ### Properties of Dispatcher states -/

/-- Sizes fixed by `NewDispatcher(n)` and `Run`. -/
structure Dispatcher.Sized (n : Nat) (d : Dispatcher) : Prop where
  maxWorkers : d.maxWorkers = n
  workers : d.workers.length = n
  procBound : ∀ e ∈ d.processed, e.1 < n
  fwdBound : ∀ e ∈ d.forwards, e.2 < n

/-- Every job number occurs at most once among the completed sends, the calls of Process
mirror the completed sends, and a goroutine whose send completed has returned. -/
structure Dispatcher.Ticketed (d : Dispatcher) : Prop where
  nodup : (d.forwards.map Prod.fst).Nodup
  mirror : d.processed = d.forwards.map Prod.swap
  done : ∀ e ∈ d.forwards, d.forwarders[e.1]? = some .finished

/-- Every job number occurs at most once among the values in the queue buffer and the calls
of Process, and the AddJob call of each of them has returned. -/
structure TaskQueue.Ticketed (t : TaskQueue) : Prop where
  nodup : (t.queue.buf.map Prod.fst ++ t.processed.map Prod.snd).Nodup
  sent : ∀ n ∈ t.queue.buf.map Prod.fst ++ t.processed.map Prod.snd,
    t.adders[n]? = some .returned

/-- A dispatcher with two workers: worker 0 is inside Process for job number 0, worker 1 is
idle and registered, and the goroutine for job number 1 stands at its send to worker 1. -/
def Dispatcher.sampleHalfBusy : Dispatcher :=
  { maxWorkers := 2, workers := [.busy 0 5, .waiting], workerPool := ⟨2, [], false⟩,
    dispatchers := 1, forwarders := [.finished, .sending (some 1) (some 6)], quitters := [],
    forwards := [(0, 0)], processed := [(0, 0)], crashed := false }

/-- The dispatcher `sampleHalfBusy` after an absent job was taken from the inbound channel. -/
def Dispatcher.sampleNilJob : Dispatcher :=
  { Dispatcher.sampleHalfBusy with
      forwarders := [.finished, .sending (some 1) (some 6), .checking none] }

/-- A queue of size 1 whose consumer is idle while one job sits in the buffer. -/
def TaskQueue.sampleBuffered : TaskQueue :=
  { queue := ⟨1, [(0, some 7)], false⟩, quitChan := ⟨1, [], false⟩, qlen := 1, wg := 1,
    consumers := [.idle], adders := [.returned], shutdowns := [], processed := [],
    crashed := false }

/-! ### Further sample states -/

/-- A started queue of size 1 after `AddJob(nil)` returned and the consumer received and
skipped the absent job: nothing is buffered, nothing is executing. -/
def TaskQueue.sampleNilSkipped : TaskQueue :=
  { queue := ⟨1, [], false⟩, quitChan := ⟨1, [], false⟩, qlen := 1, wg := 1,
    consumers := [.idle], adders := [.returned], shutdowns := [], processed := [],
    crashed := false }

/-! ### The idle-pool registry -/

/-- Worker `w` stands at its select, or has stopped. -/
def Dispatcher.Parked (d : Dispatcher) (w : Nat) : Prop :=
  d.workers[w]? = some .waiting ∨ d.workers[w]? = some .stopped

/-- The channel of a worker is in at most one place: once in the registry, or in the hands of
one `sendJobToWorker` goroutine that pulled it; and only while the worker is parked. -/
structure Dispatcher.Registered (n : Nat) (d : Dispatcher) : Prop where
  cap : d.workerPool.cap = n
  nodup : d.workerPool.buf.Nodup
  member : ∀ w ∈ d.workerPool.buf, w < n ∧ d.Parked w
  held : ∀ (f w : Nat) (job : Option Job),
    d.forwarders[f]? = some (.sending (some w) job) → w ∉ d.workerPool.buf ∧ d.Parked w
  heldUnique : ∀ (f f' w : Nat) (job job' : Option Job),
    d.forwarders[f]? = some (.sending (some w) job) →
    d.forwarders[f']? = some (.sending (some w) job') → f = f'

/-- A dispatcher with two workers: worker 0 has registered and waits, worker 1 stands at its
registration. -/
def Dispatcher.sampleRegistering : Dispatcher :=
  { maxWorkers := 2, workers := [.waiting, .registering], workerPool := ⟨2, [0], false⟩,
    dispatchers := 1, forwarders := [], quitters := [], forwards := [], processed := [],
    crashed := false }

/-! ### Shutdown called again -/

/-- The queue is closed and the waiter of Shutdown call `k` has not yet executed
`close(t.queue)`: it is at Wait, or Wait has returned and the close is next. -/
def TaskQueue.LateCall (k : Nat) (t : TaskQueue) : Prop :=
  t.queue.closed = true ∧
    ∃ sc, t.shutdowns[k]? = some sc ∧ sc.waiter.past = false

/-- A queue of size 1 on which a first Shutdown call has succeeded: the counter is zero, the
queue is closed, the quit signal is in `quitChan` and the call returned nil. -/
def TaskQueue.sampleShutDown : TaskQueue :=
  { queue := ⟨1, [], true⟩, quitChan := ⟨1, [true], false⟩, qlen := 1, wg := 0,
    consumers := [.idle], adders := [],
    shutdowns := [⟨.closingCh, ⟨1, [], false⟩, false, some none⟩],
    processed := [], crashed := false }

/-! ### `NewWorker`, and dispatch goroutines after `Stop` -/

/-- A `Worker`; the field `WorkerPool` is the registry of the dispatcher. -/
structure Worker where
  ID : Nat
  JobChannel : Chan (Option Job)
  WorkerPool : Chan Nat
  QuitChan : Chan Bool
deriving DecidableEq, Repr

/-- `NewWorker(id, workerPool)`: both channels of the worker are made by `make(chan T)`,
without a buffer size. -/
def NewWorker (id : Nat) (workerPool : Chan Nat) : Worker :=
  { ID := id, JobChannel := Chan.make (Option Job) 0, WorkerPool := workerPool,
    QuitChan := Chan.make Bool 0 }

/-- A dispatcher with one worker that has stopped while the goroutine for job number 0 holds
its channel and stands at the send `worker <- job`. -/
def Dispatcher.sampleStoppedWorker : Dispatcher :=
  { maxWorkers := 1, workers := [.stopped], workerPool := ⟨1, [], true⟩,
    dispatchers := 1, forwarders := [.sending (some 0) (some 6)], quitters := [],
    forwards := [], processed := [], crashed := false }

/-- The registry is closed and empty, and the goroutine `sendJobToWorker(job)` number `f`
has not passed its send `worker <- job`, where `worker` can only be the nil channel. -/
def Dispatcher.Orphaned (f : Nat) (job : Job) (d : Dispatcher) : Prop :=
  d.workerPool.closed = true ∧ d.workerPool.buf = [] ∧
  (d.forwarders[f]? = some (.checking (some job)) ∨
   d.forwarders[f]? = some (.pulling (some job)) ∨
   d.forwarders[f]? = some (.sending none (some job)))

/-- A dispatcher with one worker after `Stop()`, before the worker registered, and with a
job taken from the inbound channel afterwards. -/
def Dispatcher.sampleStopped : Dispatcher :=
  { maxWorkers := 1, workers := [.registering], workerPool := ⟨1, [], true⟩,
    dispatchers := 1, forwarders := [.checking (some 7)], quitters := [0],
    forwards := [], processed := [], crashed := false }

/-! ### Schedules of AddJob calls -/

/-- The AddJob calls for `jobs`, made one after the other when `first` calls were made before:
each call executes `t.wg.Add(1)` and then its send. -/
def TaskQueue.submitSchedule (first : Nat) : List (Option Job) → List QueueAction
  | [] => []
  | job :: rest =>
    .addBegin job :: .addSend first :: TaskQueue.submitSchedule (first + 1) rest

/-- The first `k` AddJob calls on a fresh queue, each followed by the receive of consumer
number `k`: call number `i` submits the job `i`. -/
def TaskQueue.occupySchedule : Nat → List QueueAction
  | 0 => []
  | k + 1 => TaskQueue.occupySchedule k ++ [.addBegin (some k), .addSend k, .recv k]

/-- A queue of size `l` whose first `k` consumers are inside Process, consumer `i` for the job
`i` submitted by AddJob call `i`; nothing is buffered. -/
def TaskQueue.occupied (l k : Nat) : TaskQueue :=
  { queue := ⟨l, [], false⟩, quitChan := ⟨l, [], false⟩, qlen := l, wg := k,
    consumers := (List.range k).map (fun i => Consumer.running i i) ++
      List.replicate (l - k) .idle,
    adders := List.replicate k .returned, shutdowns := [],
    processed := (List.range k).map (fun i => (i, i)), crashed := false }

/-! ### A Shutdown call that returned the timeout error -/

/-- Shutdown call `k` has returned the timeout error. -/
def TaskQueue.TimedOut (k : Nat) (t : TaskQueue) : Prop :=
  ∃ sc, t.shutdowns[k]? = some sc ∧ sc.result = some (some "timeout")

/-- The schedule of the waiter of call `k` on a queue of size `l` from `t.wg.Wait()` to the
end of its loop: Wait returns, `close(t.queue)`, and `l` sends on `t.quitChan`. -/
def TaskQueue.waiterSchedule (l k : Nat) : List QueueAction :=
  .waiterStep k :: .waiterStep k :: List.replicate l (.waiterStep k)

/-- In a live process the queue is closed, `l` quit signals have been sent, Shutdown call `k`
has returned the timeout error, and an AddJob call made now faults at its send. -/
def TaskQueue.ClosedAfterTimeout (l k : Nat) (job : Option Job) (t : TaskQueue) : Prop :=
  t.crashed = false ∧ t.queue.closed = true ∧ t.quitSent = l ∧
  t.resultOf k = some (some "timeout") ∧
  ∃ t3, runActions TaskQueue.step [.addBegin job, .addSend t.adders.length] t = some t3 ∧
    t3.crashed = true

/-- A queue of size 1 whose Shutdown call parked its waiter in Wait and returned "timeout"
while the only job was inside Process; Process has returned since and the consumer stands
at its `t.wg.Done()`. -/
def TaskQueue.sampleTimedOutParked : TaskQueue :=
  { queue := ⟨1, [], false⟩, quitChan := ⟨1, [], false⟩, qlen := 1, wg := 1,
    consumers := [.finishing], adders := [.returned],
    shutdowns := [⟨.parked, Chan.make Unit 1, true, some (some "timeout")⟩],
    processed := [(0, 0)], crashed := false }

/-! ### Steps of a Dispatcher, and workers after `Stop` -/

/-- The state changes one step of a Dispatcher can make, with the action that makes them. -/
inductive Dispatcher.Moves (d : Dispatcher) : DispatcherAction → Dispatcher → Prop where
  | dispatch (job : Option Job) : 0 < d.dispatchers →
      Dispatcher.Moves d (.dispatch job) { d with forwarders := d.forwarders ++ [.checking job] }
  | crash (a : DispatcherAction) : Dispatcher.Moves d a { d with crashed := true }
  | crashStop : d.workerPool.closed = true →
      Dispatcher.Moves d .stop
        { d with quitters := d.quitters ++ List.range d.workers.length, crashed := true }
  | checkNil (f : Nat) : d.forwarders[f]? = some (.checking none) →
      Dispatcher.Moves d (.forward f) { d with forwarders := d.forwarders.set f .finished }
  | checkJob (f : Nat) (job : Job) : d.forwarders[f]? = some (.checking (some job)) →
      Dispatcher.Moves d (.forward f)
        { d with forwarders := d.forwarders.set f (.pulling (some job)) }
  | pull (f : Nat) (job : Option Job) (w : Nat) (rest : List Nat) :
      d.forwarders[f]? = some (.pulling job) → d.workerPool.buf = w :: rest →
      Dispatcher.Moves d (.forward f)
        { d with workerPool := { d.workerPool with buf := rest },
                 forwarders := d.forwarders.set f (.sending (some w) job) }
  | pullZero (f : Nat) (job : Option Job) : d.forwarders[f]? = some (.pulling job) →
      d.workerPool.buf = [] → d.workerPool.closed = true →
      Dispatcher.Moves d (.forward f)
        { d with forwarders := d.forwarders.set f (.sending none job) }
  | deliver (f w : Nat) (job : Job) : d.forwarders[f]? = some (.sending (some w) (some job)) →
      d.workers[w]? = some .waiting →
      Dispatcher.Moves d (.deliver f)
        { d with workers := d.workers.set w (.busy f job),
                 forwarders := d.forwarders.set f .finished,
                 forwards := d.forwards ++ [(f, w)],
                 processed := d.processed ++ [(w, f)] }
  | register (w : Nat) : d.workers[w]? = some .registering → d.workerPool.closed = false →
      d.workerPool.buf.length < d.workerPool.cap →
      Dispatcher.Moves d (.register w)
        { d with workerPool := { d.workerPool with buf := d.workerPool.buf ++ [w] },
                 workers := d.workers.set w .waiting }
  | procReturn (w ticket : Nat) (job : Job) : d.workers[w]? = some (.busy ticket job) →
      Dispatcher.Moves d (.procReturn w) { d with workers := d.workers.set w .registering }
  | stop : d.workerPool.closed = false →
      Dispatcher.Moves d .stop
        { d with quitters := d.quitters ++ List.range d.workers.length,
                 workerPool := { d.workerPool with closed := true } }
  | quit (w : Nat) : d.workers[w]? = some .waiting → w ∈ d.quitters →
      Dispatcher.Moves d (.quit w)
        { d with workers := d.workers.set w .stopped, quitters := d.quitters.erase w }

/-- The registry is closed and worker `w` is inside Process or at its registration. -/
def Dispatcher.Doomed (w : Nat) (d : Dispatcher) : Prop :=
  d.workerPool.closed = true ∧
  ((∃ ticket job, d.workers[w]? = some (.busy ticket job)) ∨
    d.workers[w]? = some .registering)

/-- However the program goes on from `d`, the registry stays closed and worker `w` neither
stands at its select again nor stops: the quit signal sent to it is never received, and when
it stands at its registration in a live process, the registration terminates the process. -/
def Dispatcher.NeverStops (w : Nat) (d : Dispatcher) : Prop :=
  ∀ acts d', runActions Dispatcher.step acts d = some d' →
    d'.workerPool.closed = true ∧ d'.workers[w]? ≠ some .stopped ∧
    d'.workers[w]? ≠ some .waiting ∧ d'.step (.quit w) = none ∧
    (d'.workers[w]? = some .registering → d'.crashed = false →
      d'.step (.register w) = some { d' with crashed := true })

/-- Worker `w` has stopped and has called Process only for the entries of `p`. -/
def Dispatcher.Retired (w : Nat) (p : List (Nat × Nat)) (d : Dispatcher) : Prop :=
  d.workers[w]? = some .stopped ∧ ∀ e ∈ d.processed, e.1 = w → e ∈ p

/-- Worker `w` has stopped and goroutine `f` stands at its send of `job` on the channel of
worker `w`. -/
def Dispatcher.Stranded (f w : Nat) (job : Option Job) (d : Dispatcher) : Prop :=
  d.workers[w]? = some .stopped ∧ d.forwarders[f]? = some (.sending (some w) job)

/-- The channel of every worker standing at its select is in the registry or in the hands of
a `sendJobToWorker` goroutine that pulled it. -/
def Dispatcher.Listed (d : Dispatcher) : Prop :=
  ∀ w, d.workers[w]? = some .waiting →
    w ∈ d.workerPool.buf ∨
      ∃ (f : Nat) (job : Option Job), d.forwarders[f]? = some (.sending (some w) job)

/-- A dispatcher with one worker after `Stop()`: the worker stands at its select with its
channel in the closed registry, its quit signal is pending, and a job was taken from the
inbound channel. -/
def Dispatcher.sampleQuitPending : Dispatcher :=
  { maxWorkers := 1, workers := [.waiting], workerPool := ⟨1, [0], true⟩,
    dispatchers := 1, forwarders := [.checking (some 7)], quitters := [0],
    forwards := [], processed := [], crashed := false }

/-! ### A started worker on its own -/

/-- A worker started by `Worker.Start()`, with the goroutines working on it: the program point
of its `startWorker` loop, the number of pending sends `w.QuitChan <- true` launched by
`Stop()`, the jobs it has called Process for, and whether a panic has terminated the process.
The channels of a worker are those made by `NewWorker`: a send on `JobChannel` or `QuitChan`
completes only together with the worker's receive. -/
structure StartedWorker where
  worker : Worker
  loop : WorkerState
  quitters : Nat
  processed : List Job
  crashed : Bool
deriving DecidableEq, Repr

/-- `Worker.Start()`: `go w.startWorker()`. -/
def Worker.Start (w : Worker) : StartedWorker :=
  { worker := w, loop := .registering, quitters := 0, processed := [], crashed := false }

/-- `Worker.Stop()`: launches a goroutine that sends on `w.QuitChan`. -/
def StartedWorker.Stop (s : StartedWorker) : StartedWorker :=
  { s with quitters := s.quitters + 1 }

inductive WorkerAction where
  /-- The worker executes `w.WorkerPool <- w.JobChannel`. -/
  | register
  /-- Some goroutine receives the oldest channel from the worker pool. -/
  | pull
  /-- A send `w.JobChannel <- job` of some goroutine meets the receive of the worker. -/
  | hand (job : Option Job)
  /-- `work.Process()` returns. -/
  | procReturn
  /-- `work.Process()` panics. -/
  | procPanic
  /-- Some goroutine calls `w.Stop()`. -/
  | stop
  /-- A pending send `w.QuitChan <- true` meets the select of the worker. -/
  | quit
deriving DecidableEq, Repr

/-- `Worker.startWorker()`, one statement at a time, with the goroutines that use the
channels of the worker. -/
def StartedWorker.startWorker (a : WorkerAction) (s : StartedWorker) : Option StartedWorker :=
  match a with
  | .register =>
    match s.loop with
    | .registering =>
      match s.worker.WorkerPool.send s.worker.ID with
      | .sent pool =>
        some { s with worker := { s.worker with WorkerPool := pool }, loop := .waiting }
      | .blocked => none
      | .fault => some { s with crashed := true }
    | _ => none
  | .pull =>
    match s.worker.WorkerPool.recv with
    | .got _ pool => some { s with worker := { s.worker with WorkerPool := pool } }
    | _ => none
  | .hand job =>
    match s.loop with
    | .waiting =>
      match Worker.onJob s.processed.length job with
      | some st =>
        some { s with loop := st, processed := s.processed ++ job.toList }
      | none => some { s with crashed := true }
    | _ => none
  | .procReturn =>
    match s.loop with
    | .busy _ _ => some { s with loop := .registering }
    | _ => none
  | .procPanic =>
    match s.loop with
    | .busy _ _ => some { s with crashed := true }
    | _ => none
  | .stop => some s.Stop
  | .quit =>
    match s.loop with
    | .waiting =>
      if 0 < s.quitters then some { s with loop := .stopped, quitters := s.quitters - 1 }
      else none
    | _ => none

/-- One step of the interleaving semantics of a started worker. -/
def StartedWorker.step (a : WorkerAction) (s : StartedWorker) : Option StartedWorker :=
  if s.crashed then none else s.startWorker a

/-- No `sendJobToWorker` goroutine of the dispatcher has passed its nil check with an absent
job. -/
def Dispatcher.Guarded (d : Dispatcher) : Prop :=
  ∀ (f : Nat) (x : Forwarder), d.forwarders[f]? = some x →
    x ≠ .pulling none ∧ ∀ w, x ≠ .sending w none

/-- The worker made by `NewWorker(0, pool)` with a pool of capacity 1, started, after it
registered: it stands at its select. -/
def StartedWorker.sampleWaiting : StartedWorker :=
  { worker := { NewWorker 0 (Chan.make Nat 1) with WorkerPool := ⟨1, [0], false⟩ },
    loop := .waiting, quitters := 0, processed := [], crashed := false }

end Workerqueue

/-! ## `ip/ip.go` -/

namespace Ip

/-- What `MaskIP` and `IsInternalIP` observe of `net.ParseIP(s)`: nil (`invalid`); an address
that has a 4-byte form (`To4()` is not nil) with its four bytes; or an address that has only
the 16-byte form. -/
inductive ParsedIP where
  | invalid
  | v4 (a b c d : Nat)
  | v6
deriving DecidableEq, Repr

/-- `strings.Split(s, sep)` for a separator of one character, on a string given by its
characters. -/
def split (sep : Char) : List Char → List (List Char)
  | [] => [[]]
  | c :: cs =>
    if c = sep then [] :: split sep cs
    else
      match split sep cs with
      | [] => [[c]]
      | p :: ps => (c :: p) :: ps

/-- `strings.Join(parts, sep)` for a separator of one character. -/
def join (sep : Char) : List (List Char) → List Char
  | [] => []
  | [p] => p
  | p :: q :: rest => p ++ sep :: join sep (q :: rest)

/-- `parts[len(parts)-1] = v` (the slice returned by `strings.Split` is never empty). -/
def setLast (parts : List (List Char)) (v : List Char) : List (List Char) :=
  parts.set (parts.length - 1) v

/-- `MaskIP(ip)`, with `net.ParseIP` as a parameter. -/
def MaskIP (parseIP : List Char → ParsedIP) (ip : List Char) : List Char :=
  match parseIP ip with
  | .v4 _ _ _ _ => join '.' (setLast (split '.' ip) ['0'])
  | .v6 => join ':' (setLast (split ':' ip) ['0', '0', '0', '0'])
  | .invalid => ip

/-- A `net.IPNet` of an IPv4 network: network number and mask, four bytes each. -/
structure IPNet where
  ip : List Nat
  mask : List Nat
deriving DecidableEq, Repr

/-- Network of `net.ParseCIDR("10.0.0.0/8")`. -/
def private24BitBlock : IPNet := ⟨[10, 0, 0, 0], [255, 0, 0, 0]⟩

/-- Network of `net.ParseCIDR("172.16.0.0/12")`. -/
def private20BitBlock : IPNet := ⟨[172, 16, 0, 0], [255, 240, 0, 0]⟩

/-- Network of `net.ParseCIDR("192.168.0.0/16")`. -/
def private16BitBlock : IPNet := ⟨[192, 168, 0, 0], [255, 255, 0, 0]⟩

/-- `IPNet.Contains(ip)`: the address is taken in its 4-byte form when it has one; an address
whose length differs from that of the network number (nil, or 16 bytes) is not contained;
otherwise every byte must agree with the network number under the mask. -/
def IPNet.Contains (n : IPNet) : ParsedIP → Bool
  | .v4 a b c d =>
    decide (List.zipWith (· &&& ·) n.ip n.mask = List.zipWith (· &&& ·) [a, b, c, d] n.mask)
  | _ => false

/-- The string "127.0.0.1". -/
def loopback : List Char := ['1', '2', '7', '.', '0', '.', '0', '.', '1']

/-- `IsInternalIP(ip)`, with `net.ParseIP` as a parameter. -/
def IsInternalIP (parseIP : List Char → ParsedIP) (ip : List Char) : Bool :=
  let ipaddr := parseIP ip
  private24BitBlock.Contains ipaddr || private20BitBlock.Contains ipaddr ||
    private16BitBlock.Contains ipaddr || ip == loopback

/-- Value of a decimal digit. -/
def digitValue (c : Char) : Option Nat :=
  if '0' ≤ c ∧ c ≤ '9' then some (c.toNat - '0'.toNat) else none

/-- Decimal value of a string of digits, `none` if a character is not a digit. -/
def decimal : List Char → Nat → Option Nat
  | [], acc => some acc
  | c :: cs, acc =>
    match digitValue c with
    | some v => decimal cs (10 * acc + v)
    | none => none

/-- One field of a dotted-quad address: one to three digits, no leading zero, at most 255. -/
def parseOctet (s : List Char) : Option Nat :=
  if s.length = 0 ∨ 3 < s.length then none
  else if 1 < s.length ∧ s.head? = some '0' then none
  else
    match decimal s 0 with
    | some v => if v ≤ 255 then some v else none
    | none => none

/-- The dotted-quad part of `net.ParseIP`: four decimal fields separated by dots. Addresses
written in IPv6 notation are not recognised by this parser; it serves as a sample value of the
parameter `parseIP`. -/
def parseDottedQuad (s : List Char) : ParsedIP :=
  match split '.' s with
  | [a, b, c, d] =>
    match parseOctet a, parseOctet b, parseOctet c, parseOctet d with
    | some x, some y, some z, some w => .v4 x y z w
    | _, _, _, _ => .invalid
  | _ => .invalid

end Ip

namespace Workerqueue

end Workerqueue

/-! ## `cache/cache.go` -/

namespace Cache

/-- The second argument of `json.Unmarshal`: the nil interface (an `interface{}` variable that
was declared and never assigned, passed by value), or a non-nil pointer. -/
inductive Target where
  | nilInterface
  | pointer
deriving DecidableEq, Repr

/-- Errors of `json.Unmarshal`. -/
inductive UnmarshalError where
  | syntaxError
  | invalidUnmarshalError
deriving DecidableEq, Repr

/-- `json.Unmarshal(data, v)`, with the JSON decoder as a parameter (`none` on text that is
not valid JSON): the text is checked first; then, if `v` is nil or not a pointer, the call
returns an InvalidUnmarshalError; otherwise the decoded value is stored through the pointer
(the value in `Except.ok`). -/
def jsonUnmarshal {Value : Type} (decode : List Nat → Option Value) (data : List Nat)
    (v : Target) : Except UnmarshalError Value :=
  match decode data with
  | none => .error .syntaxError
  | some x =>
    match v with
    | .nilInterface => .error .invalidUnmarshalError
    | .pointer => .ok x

/-- A `MultiClient`: the key prefix (`pfx`), the in-memory cache (`client.Get`) and memcache
(`mc.Get`, `none` when it returns an error such as a cache miss). -/
structure MultiClient (Value : Type) where
  pfx : String
  client : String → Option Value
  mc : String → Option (List Nat)

/-- `MultiClient.getKeyName(key)`. -/
def MultiClient.getKeyName {Value : Type} (cc : MultiClient Value) (key : String) : String :=
  cc.pfx ++ "_" ++ key

/-- `MultiClient.Get(key)`: the in-memory cache first, then memcache, whose value is
unmarshalled into `cacheObj`, a nil `interface{}` passed by value; the returned `cacheObj` is
therefore still nil (`none`). -/
def MultiClient.Get {Value : Type} (decode : List Nat → Option Value) (cc : MultiClient Value)
    (key : String) : Option Value × Bool :=
  let k := cc.getKeyName key
  match cc.client k with
  | some result => (some result, true)
  | none =>
    match cc.mc k with
    | some item =>
      match jsonUnmarshal decode item .nilInterface with
      | .ok _ => (none, true)
      | .error _ => (none, false)
    | none => (none, false)

/-- `MultiClient.GetWithSet(key, resultObj)` as far as its result goes: the same lookup, with
the caller's `resultObj` as the target of `json.Unmarshal`. -/
def MultiClient.GetWithSet {Value : Type} (decode : List Nat → Option Value)
    (cc : MultiClient Value) (key : String) (resultObj : Target) : Option Value × Bool :=
  let k := cc.getKeyName key
  match cc.client k with
  | some result => (some result, true)
  | none =>
    match cc.mc k with
    | some item =>
      match jsonUnmarshal decode item resultObj with
      | .ok x => (some x, true)
      | .error _ => (none, false)
    | none => (none, false)

/-- A decoder that reads the one-byte text "1" as the number 1. -/
def sampleDecode (data : List Nat) : Option Nat :=
  if data = [49] then some 1 else none

/-- A client with prefix "app" whose in-memory cache is empty and whose memcache holds the
JSON text "1" under "app_k". -/
def sampleClient : MultiClient Nat :=
  { pfx := "app", client := fun _ => none,
    mc := fun k => if k = "app_k" then some [49] else none }

end Cache

/-! ## `models/bufferwriter.go` -/

namespace Models

/-- Value of the constant `maxBufferDocs`. -/
def maxBufferDocs : Int := 400

/-- The fields of a `BufferWriter` that `BulkInsert` reads and writes: `Docs`, `Count`, and
whether `MessageClient` is set. -/
structure BufferWriter (Doc : Type) where
  Docs : List Doc
  Count : Int
  hasMessageClient : Bool

/-- What a writer has done to the outside: the calls of `InsertMany` with their documents, and
the retry messages sent. -/
structure Effects (Doc : Type) where
  inserted : List (List Doc)
  retried : List (List Doc)

/-- `NewBufferWriter()`. -/
def NewBufferWriter (Doc : Type) : BufferWriter Doc :=
  { Docs := [], Count := 0, hasMessageClient := false }

/-- `BufferWriter.retryInsert(docs)`, with the outcome of `json.Marshal` as a parameter. -/
def BufferWriter.retryInsert {Doc : Type} (marshalOk : List Doc → Bool) (w : BufferWriter Doc)
    (docs : List Doc) (e : Effects Doc) : Effects Doc :=
  if !w.hasMessageClient || docs.length == 0 then e
  else if marshalOk docs then { e with retried := e.retried ++ [docs] }
  else e

/-- `BufferWriter.insertInDb(docs)`, with the outcome of `InsertMany` as a parameter. -/
def BufferWriter.insertInDb {Doc : Type} (dbOk marshalOk : List Doc → Bool)
    (w : BufferWriter Doc) (docs : List Doc) (e : Effects Doc) : Effects Doc :=
  if docs.length == 0 then e
  else
    let e' := { e with inserted := e.inserted ++ [docs] }
    if dbOk docs then e' else w.retryInsert marshalOk docs e'

/-- `BufferWriter.BulkInsert(override)`. -/
def BufferWriter.BulkInsert {Doc : Type} (dbOk marshalOk : List Doc → Bool) (override : Bool)
    (s : BufferWriter Doc × Effects Doc) : BufferWriter Doc × Effects Doc :=
  let w := s.1
  let objCount := w.Count
  if override || decide (objCount > maxBufferDocs) then
    let docs := w.Docs
    let w' := { w with Docs := [], Count := 0 }
    if docs.length == 0 then (w', s.2)
    else (w', w'.insertInDb dbOk marshalOk docs s.2)
  else s

/-- `BufferWriter.InsertDocs(d)`. -/
def BufferWriter.InsertDocs {Doc : Type} (dbOk marshalOk : List Doc → Bool) (d : Doc)
    (s : BufferWriter Doc × Effects Doc) : BufferWriter Doc × Effects Doc :=
  BufferWriter.BulkInsert dbOk marshalOk false
    ({ s.1 with Docs := s.1.Docs ++ [d], Count := s.1.Count + 1 }, s.2)

/-- `BufferWriter.Flush()`. -/
def BufferWriter.Flush {Doc : Type} (dbOk marshalOk : List Doc → Bool)
    (s : BufferWriter Doc × Effects Doc) : BufferWriter Doc × Effects Doc :=
  BufferWriter.BulkInsert dbOk marshalOk true s

/-- Calls of `InsertDocs` one after the other. -/
def BufferWriter.insertAll {Doc : Type} (dbOk marshalOk : List Doc → Bool) :
    List Doc → BufferWriter Doc × Effects Doc → BufferWriter Doc × Effects Doc
  | [], s => s
  | d :: ds, s => BufferWriter.insertAll dbOk marshalOk ds
      (BufferWriter.InsertDocs dbOk marshalOk d s)

/-- The count is the number of buffered documents, as `InsertDocs` and `BulkInsert` keep it. -/
def BufferWriter.Counted {Doc : Type} (w : BufferWriter Doc) : Prop :=
  w.Count = w.Docs.length

/-- A writer that holds 401 documents, numbered in the order of their insertion. -/
def sampleFullWriter : BufferWriter Nat :=
  { Docs := List.range 401, Count := 401, hasMessageClient := false }

end Models

namespace Workerqueue

/-! # Theorems -/

/-! ## General lemmas -/

/-- A property kept by every step is kept by every schedule. -/
theorem runActions_preserves {S A : Type} (step : A → S → Option S) (P : S → Prop)
    (hstep : ∀ a s s', P s → step a s = some s' → P s') :
    ∀ (acts : List A) (s s' : S), P s → runActions step acts s = some s' → P s' := by
  intro acts
  induction acts with
  | nil =>
    intro s s' hs h
    simp only [runActions, Option.some.injEq] at h
    subst h
    exact hs
  | cons a rest ih =>
    intro s s' hs h
    simp only [runActions] at h
    split at h
    · rename_i s1 h1
      exact ih s1 s' (hstep a s s1 hs h1) h
    · cases h

/-- Schedules compose. -/
theorem runActions_append {S A : Type} (step : A → S → Option S) :
    ∀ (xs ys : List A) (s s1 s2 : S), runActions step xs s = some s1 →
      runActions step ys s1 = some s2 → runActions step (xs ++ ys) s = some s2 := by
  intro xs
  induction xs with
  | nil =>
    intro ys s s1 s2 h1 h2
    simp only [runActions, Option.some.injEq] at h1
    subst h1
    simpa using h2
  | cons a rest ih =>
    intro ys s s1 s2 h1 h2
    simp only [runActions, List.cons_append] at h1 ⊢
    split at h1
    · rename_i s0 h0
      exact ih ys s0 s1 s2 h1 h2
    · cases h1

/-- Replacing the element at a position moves the count of a predicate by the difference
between the old and the new element. -/
theorem countP_set_balance {α : Type} (p : α → Bool) :
    ∀ (l : List α) (i : Nat) (a b : α), l[i]? = some a →
      (l.set i b).countP p + (if p a then 1 else 0)
        = l.countP p + (if p b then 1 else 0) := by
  intro l
  induction l with
  | nil =>
    intro i a b h
    simp at h
  | cons x xs ih =>
    intro i a b h
    cases i with
    | zero =>
      simp only [List.getElem?_cons_zero, Option.some.injEq] at h
      subst h
      simp only [List.set_cons_zero, List.countP_cons]
      omega
    | succ n =>
      simp only [List.getElem?_cons_succ] at h
      have := ih n a b h
      simp only [List.set_cons_succ, List.countP_cons]
      omega

/-- An element found by position is a member. -/
theorem mem_of_getElem?_some {α : Type} :
    ∀ (l : List α) (i : Nat) (a : α), l[i]? = some a → a ∈ l := by
  intro l i a h
  rw [List.getElem?_eq_some] at h
  obtain ⟨hi, rfl⟩ := h
  exact List.getElem_mem hi

/-- Overwriting a position whose content differs from what another lookup found leaves
that lookup unchanged. -/
theorem getElem?_set_other {α : Type} (l : List α) (i j : Nat) (a b c : α)
    (hi : l[i]? = some a) (hj : l[j]? = some b) (hne : a ≠ b) :
    (l.set i c)[j]? = some b := by
  have hij : i ≠ j := by
    intro e
    subst e
    rw [hi] at hj
    exact hne (Option.some.inj hj)
  rw [List.getElem?_set_ne hij]
  exact hj

/-- Variant of `getElem?_set_other` with the difference stated on the lookup. -/
theorem getElem?_set_keep {α : Type} (l : List α) (i j : Nat) (b c : α)
    (hj : l[j]? = some b) (hi : l[i]? ≠ some b) :
    (l.set i c)[j]? = some b := by
  have hij : i ≠ j := by
    intro e
    subst e
    exact hi hj
  rw [List.getElem?_set_ne hij]
  exact hj

/-- Overwriting the last element of a list. -/
theorem set_concat_length {α : Type} (l : List α) (a b : α) :
    (l ++ [a]).set l.length b = l ++ [b] := by
  induction l with
  | nil => rfl
  | cons x xs ih => simp [ih]

/-- If every step either keeps a property or is an action of a given kind, a schedule either
contains an action of that kind or keeps the property. -/
theorem runActions_escape {S A : Type} (step : A → S → Option S) (J : S → Prop)
    (E : A → Prop) (hstep : ∀ a s s', J s → step a s = some s' → E a ∨ J s') :
    ∀ (acts : List A) (s s' : S), J s → runActions step acts s = some s' →
      (∃ a ∈ acts, E a) ∨ J s' := by
  intro acts
  induction acts with
  | nil =>
    intro s s' hs h
    simp only [runActions, Option.some.injEq] at h
    subst h
    exact Or.inr hs
  | cons a rest ih =>
    intro s s' hs h
    simp only [runActions] at h
    split at h
    · rename_i s1 h1
      rcases hstep a s s1 hs h1 with he | hj
      · exact Or.inl ⟨a, List.mem_cons_self a rest, he⟩
      · rcases ih s1 s' hj h with ⟨b, hb, hbe⟩ | hj'
        · exact Or.inl ⟨b, List.mem_cons_of_mem a hb, hbe⟩
        · exact Or.inr hj'
    · cases h

/-- Looking up a list after one position was overwritten. -/
theorem getElem?_set_cases {α : Type} (l : List α) (k j : Nat) (x y : α)
    (h : (l.set k x)[j]? = some y) : (j = k ∧ y = x) ∨ (j ≠ k ∧ l[j]? = some y) := by
  by_cases e : k = j
  · subst e
    left
    have hlt : k < (l.set k x).length := by
      rw [List.getElem?_eq_some] at h
      exact h.1
    rw [List.length_set] at hlt
    rw [List.getElem?_set_self hlt] at h
    exact ⟨rfl, (Option.some.inj h).symm⟩
  · right
    rw [List.getElem?_set_ne e] at h
    exact ⟨fun e' => e e'.symm, h⟩

/-- Looking up a list after one element was appended. -/
theorem getElem?_concat_cases {α : Type} (l : List α) (j : Nat) (x y : α)
    (h : (l ++ [x])[j]? = some y) : l[j]? = some y ∨ (j = l.length ∧ y = x) := by
  by_cases hlt : j < l.length
  · left
    rw [List.getElem?_append_left hlt] at h
    exact h
  · right
    have hj : j < (l ++ [x]).length := by
      rw [List.getElem?_eq_some] at h
      exact h.1
    simp only [List.length_append, List.length_singleton] at hj
    have e : j = l.length := by omega
    subst e
    rw [List.getElem?_concat_length] at h
    exact ⟨rfl, (Option.some.inj h).symm⟩

/-- Invariants along a schedule whose states all satisfy `ok`. -/
theorem runActionsWhile_preserves {S A : Type} (ok : S → Bool) (step : A → S → Option S)
    (P : S → Prop) (hstep : ∀ a s s', P s → ok s = true → step a s = some s' → P s') :
    ∀ (acts : List A) (s s' : S), P s → runActionsWhile ok step acts s = some s' →
      P s' ∧ ok s' = true := by
  intro acts
  induction acts with
  | nil =>
    intro s s' hs h
    simp only [runActionsWhile] at h
    split at h
    · cases h
      exact ⟨hs, ‹_›⟩
    · cases h
  | cons a rest ih =>
    intro s s' hs h
    simp only [runActionsWhile] at h
    split at h
    · rename_i hok
      split at h
      · rename_i s1 h1
        exact ih s1 s' (hstep a s s1 hs hok h1) h
      · cases h
    · cases h

/-- A schedule that runs under a condition starts in a state satisfying it. -/
theorem runActionsWhile_ok_start {S A : Type} (ok : S → Bool) (step : A → S → Option S)
    (acts : List A) (s s' : S) (h : runActionsWhile ok step acts s = some s') :
    ok s = true := by
  cases acts with
  | nil =>
    simp only [runActionsWhile] at h
    split at h
    · assumption
    · cases h
  | cons a rest =>
    simp only [runActionsWhile] at h
    split at h
    · assumption
    · cases h

/-- Invariants along a schedule whose states all satisfy `ok`, where a step may use the
condition before and after it. -/
theorem runActionsWhile_preserves_post {S A : Type} (ok : S → Bool)
    (step : A → S → Option S) (P : S → Prop)
    (hstep : ∀ a s s', P s → ok s = true → ok s' = true → step a s = some s' → P s') :
    ∀ (acts : List A) (s s' : S), P s → runActionsWhile ok step acts s = some s' →
      P s' ∧ ok s' = true := by
  intro acts
  induction acts with
  | nil =>
    intro s s' hs h
    simp only [runActionsWhile] at h
    split at h
    · cases h
      exact ⟨hs, ‹_›⟩
    · cases h
  | cons a rest ih =>
    intro s s' hs h
    simp only [runActionsWhile] at h
    split at h
    · rename_i hok
      split at h
      · rename_i s1 h1
        exact ih s1 s' (hstep a s s1 hs hok (runActionsWhile_ok_start ok step rest s1 s' h) h1) h
      · cases h
    · cases h

/-- A schedule that runs under a condition runs without it. -/
theorem runActions_of_runActionsWhile {S A : Type} (ok : S → Bool)
    (step : A → S → Option S) :
    ∀ (acts : List A) (s s' : S), runActionsWhile ok step acts s = some s' →
      runActions step acts s = some s' := by
  intro acts
  induction acts with
  | nil =>
    intro s s' h
    simp only [runActionsWhile] at h
    split at h
    · exact h
    · cases h
  | cons a rest ih =>
    intro s s' h
    simp only [runActionsWhile] at h
    simp only [runActions]
    split at h
    · split at h
      · rename_i s1 h1
        exact ih s1 s' h
      · cases h
    · cases h

/-! ## Task: the counter is the number of live units -/

theorem Task.step_balanced (a : TaskAction) (t t' : Task) (h : t.Balanced)
    (hs : t.step a = some t') : t'.Balanced := by
  unfold Task.step at hs
  split at hs
  · cases hs
  · unfold Task.Balanced at h ⊢
    cases a with
    | run job =>
      simp only [Task.Run, Option.some.injEq] at hs
      subst hs
      simp [List.countP_append, TaskUnit.live, h]
    | invoke u =>
      simp only [Task.invoke] at hs
      split at hs
      · rename_i j hu
        cases hs
        have := countP_set_balance TaskUnit.live t.units u _ (.running j) hu
        simp [TaskUnit.live] at this ⊢
        omega
      · rename_i hu
        cases hs
        have := countP_set_balance TaskUnit.live t.units u _ (.unwinding true) hu
        simp [TaskUnit.live] at this ⊢
        omega
      · cases hs
    | procReturn u =>
      simp only [Task.procEnd] at hs
      split at hs
      · rename_i j hu
        cases hs
        have := countP_set_balance TaskUnit.live t.units u _ (.unwinding false) hu
        simp [TaskUnit.live] at this ⊢
        omega
      · cases hs
    | procAbort u =>
      simp only [Task.procEnd] at hs
      split at hs
      · rename_i j hu
        cases hs
        have := countP_set_balance TaskUnit.live t.units u _ (.unwinding true) hu
        simp [TaskUnit.live] at this ⊢
        omega
      · cases hs
    | deferDone u =>
      simp only [Task.deferDone] at hs
      split at hs
      · rename_i p hu
        split at hs
        · cases hs
          exact h
        · rename_i n hn
          cases hs
          have := countP_set_balance TaskUnit.live t.units u _ .exited hu
          simp [TaskUnit.live] at this ⊢
          omega
      · cases hs
    | shutdown d =>
      simp only [Task.Shutdown, Option.some.injEq] at hs
      subst hs
      exact h
    | ctxExpire k =>
      simp only [Task.ctxExpire] at hs
      split at hs
      · cases hs; exact h
      · cases hs
    | waiterStep k =>
      simp only [Task.waiterStep] at hs
      split at hs
      · split at hs
        · split at hs
          · cases hs; exact h
          · cases hs; exact h
        · cases hs
        · split at hs
          · cases hs; exact h
          · cases hs; exact h
        · cases hs; exact h
        · cases hs
      · cases hs
    | selectCh k =>
      simp only [Task.selectCh] at hs
      split at hs
      · split at hs
        · cases hs; exact h
        · cases hs
      · cases hs
    | selectCtx k =>
      simp only [Task.selectCtx] at hs
      split at hs
      · split at hs
        · cases hs; exact h
        · cases hs
      · cases hs

theorem Task.reachable_balanced (t : Task) (h : t.Reachable) : t.Balanced := by
  obtain ⟨acts, hacts⟩ := h
  exact runActions_preserves Task.step Task.Balanced Task.step_balanced acts Task.zero t rfl hacts

/-- A unit that has exited stays exited. -/
theorem Task.step_exited (u : Nat) (a : TaskAction) (t t' : Task)
    (h : t.units[u]? = some .exited) (hs : t.step a = some t') :
    t'.units[u]? = some .exited := by
  have hlt : u < t.units.length := by
    rw [List.getElem?_eq_some] at h
    exact h.1
  unfold Task.step at hs
  split at hs
  · cases hs
  · cases a <;>
      simp only [Task.Run, Task.Shutdown, Task.invoke, Task.procEnd, Task.deferDone,
        Task.ctxExpire, Task.waiterStep, Task.selectCh, Task.selectCtx] at hs <;>
      (try split at hs) <;> (try split at hs) <;> (try split at hs) <;>
      (try cases hs) <;> (try exact h) <;>
      (try exact getElem?_set_keep _ _ _ _ _ h (by simp [*]))
    · simp [List.getElem?_append_left hlt, h]

/-- Units are never removed. -/
theorem Task.step_units_length (a : TaskAction) (t t' : Task) (hs : t.step a = some t') :
    t.units.length ≤ t'.units.length := by
  unfold Task.step at hs
  split at hs
  · cases hs
  · cases a <;>
      simp only [Task.Run, Task.Shutdown, Task.invoke, Task.procEnd, Task.deferDone,
        Task.ctxExpire, Task.waiterStep, Task.selectCh, Task.selectCtx] at hs <;>
      (try split at hs) <;> (try split at hs) <;> (try split at hs) <;>
      (try cases hs) <;> simp

/-- A release changes nothing of a record but the program point of a parked waiter. -/
theorem TaskShutdown.release_task_cases (sc : TaskShutdown) :
    (sc.waiter ≠ .parked ∧ sc.release = sc) ∨
    (sc.waiter = .parked ∧ sc.release = { sc with waiter := .released }) := by
  unfold TaskShutdown.release
  cases hw : sc.waiter <;> simp

/-- Effect of a step on the list of Shutdown calls. -/
theorem Task.step_shutdowns (a : TaskAction) (t t' : Task) (hs : t.step a = some t') :
    t'.shutdowns = t.shutdowns ∨
    (∃ d, t'.shutdowns = t.shutdowns ++ [⟨.waiting, false, d, none⟩]) ∨
    (∃ k sc sc', t.shutdowns[k]? = some sc ∧ t'.shutdowns = t.shutdowns.set k sc' ∧
      TaskShutdown.Moves t.wg t'.wg sc sc') ∨
    (t'.wg = 0 ∧ t'.shutdowns = t.shutdowns.map TaskShutdown.release) := by
  unfold Task.step at hs
  split at hs
  · cases hs
  · cases a with
    | run job => cases hs; exact Or.inl rfl
    | invoke u =>
      simp only [Task.invoke] at hs
      split at hs <;> cases hs
      all_goals exact Or.inl rfl
    | procReturn u =>
      simp only [Task.procEnd] at hs
      split at hs <;> cases hs
      all_goals exact Or.inl rfl
    | procAbort u =>
      simp only [Task.procEnd] at hs
      split at hs <;> cases hs
      all_goals exact Or.inl rfl
    | deferDone u =>
      simp only [Task.deferDone] at hs
      split at hs
      · split at hs
        · cases hs
          exact Or.inl rfl
        · rename_i n hn
          cases hs
          by_cases hz : n = 0
          · subst hz
            exact Or.inr (Or.inr (Or.inr ⟨rfl, rfl⟩))
          · left
            show TaskShutdown.releaseAll n t.shutdowns = t.shutdowns
            simp [TaskShutdown.releaseAll, hz]
      · cases hs
    | shutdown d => cases hs; exact Or.inr (Or.inl ⟨d, rfl⟩)
    | ctxExpire k =>
      simp only [Task.ctxExpire] at hs
      split at hs
      · rename_i sc hk
        cases hs
        exact Or.inr (Or.inr (Or.inl ⟨k, sc, _, hk, rfl, Or.inl rfl⟩))
      · cases hs
    | waiterStep k =>
      simp only [Task.waiterStep] at hs
      split at hs
      · rename_i sc hk
        split at hs
        · rename_i hw
          split at hs
          · rename_i hz
            cases hs
            exact Or.inr (Or.inr (Or.inl ⟨k, sc, _, hk, rfl, Or.inr (Or.inl ⟨hw, hz, rfl⟩)⟩))
          · rename_i hz
            cases hs
            exact Or.inr (Or.inr (Or.inl ⟨k, sc, _, hk, rfl,
              Or.inr (Or.inr (Or.inr (Or.inr (Or.inr (Or.inl ⟨hw, hz, rfl⟩)))))⟩))
        · cases hs
        · rename_i hw
          split at hs
          · rename_i hz
            cases hs
            exact Or.inr (Or.inr (Or.inl ⟨k, sc, _, hk, rfl,
              Or.inr (Or.inr (Or.inr (Or.inr (Or.inr (Or.inr (Or.inl ⟨hw, hz, rfl⟩))))))⟩))
          · cases hs
            exact Or.inl rfl
        · rename_i hw
          cases hs
          exact Or.inr (Or.inr (Or.inl ⟨k, sc, _, hk, rfl,
            Or.inr (Or.inr (Or.inl ⟨hw, rfl⟩))⟩))
        · cases hs
      · cases hs
    | selectCh k =>
      simp only [Task.selectCh] at hs
      split at hs
      · rename_i sc hk
        split at hs
        · rename_i hg
          simp only [Bool.and_eq_true, Option.isNone_iff_eq_none] at hg
          cases hs
          exact Or.inr (Or.inr (Or.inl ⟨k, sc, _, hk, rfl,
            Or.inr (Or.inr (Or.inr (Or.inl ⟨hg.1, hg.2, rfl⟩)))⟩))
        · cases hs
      · cases hs
    | selectCtx k =>
      simp only [Task.selectCtx] at hs
      split at hs
      · rename_i sc hk
        split at hs
        · rename_i hg
          simp only [Bool.and_eq_true, Option.isNone_iff_eq_none] at hg
          cases hs
          exact Or.inr (Or.inr (Or.inl ⟨k, sc, _, hk, rfl,
            Or.inr (Or.inr (Or.inr (Or.inr (Or.inl ⟨hg.1, hg.2, rfl⟩))))⟩))
        · cases hs
      · cases hs

/-- Effect of a step on one Shutdown call. -/
theorem Task.step_record (k : Nat) (a : TaskAction) (t t' : Task) (sc : TaskShutdown)
    (hk : t.shutdowns[k]? = some sc) (hs : t.step a = some t') :
    t'.shutdowns[k]? = some sc ∨
    ∃ sc', t'.shutdowns[k]? = some sc' ∧ TaskShutdown.Moves t.wg t'.wg sc sc' := by
  have hlt : k < t.shutdowns.length := by
    rw [List.getElem?_eq_some] at hk
    exact hk.1
  rcases Task.step_shutdowns a t t' hs with h | ⟨d, h⟩ | ⟨k', sc1, sc2, hk', h, hm⟩ | ⟨hz, h⟩
  · left; rw [h]; exact hk
  · left; rw [h, List.getElem?_append_left hlt]; exact hk
  · by_cases e : k' = k
    · subst e
      rw [hk] at hk'
      cases hk'
      right
      refine ⟨sc2, ?_, hm⟩
      rw [h, List.getElem?_set_self hlt]
    · left
      rw [h, List.getElem?_set_ne e]
      exact hk
  · have hk' : t'.shutdowns[k]? = some sc.release := by
      rw [h, List.getElem?_map, hk]
      rfl
    rcases TaskShutdown.release_task_cases sc with ⟨_, e⟩ | ⟨hw, e⟩
    · left
      rw [hk', e]
    · right
      refine ⟨_, hk', ?_⟩
      rw [e]
      exact Or.inr (Or.inr (Or.inr (Or.inr (Or.inr (Or.inr (Or.inr ⟨hw, hz, rfl⟩))))))

theorem Task.runActions_exited (u : Nat) (acts : List TaskAction) (t t' : Task)
    (h : t.units[u]? = some .exited) (hr : runActions Task.step acts t = some t') :
    t'.units[u]? = some .exited :=
  runActions_preserves Task.step (fun s => s.units[u]? = some .exited)
    (fun a s s' hs hstep => Task.step_exited u a s s' hs hstep) acts t t' h hr

/-- While some unit is live the counter is positive. -/
theorem Task.Balanced.pos_of_live (t : Task) (hb : t.Balanced) (u : Nat) (x : TaskUnit)
    (hx : t.units[u]? = some x) (hl : x ≠ .exited) : 0 < t.wg := by
  rw [hb, List.countP_pos_iff]
  refine ⟨x, mem_of_getElem?_some _ _ _ hx, ?_⟩
  cases x <;> simp [TaskUnit.live] at hl ⊢

theorem Task.step_pendingExpired (k : Nat) (a : TaskAction) (t t' : Task)
    (hp : t.PendingExpired k) (hw : 0 < t.wg) (hw' : 0 < t'.wg) (hs : t.step a = some t') :
    t'.PendingExpired k := by
  obtain ⟨sc, hk, h1, h2, h3, h4⟩ := hp
  rcases Task.step_record k a t t' sc hk hs with h | ⟨sc', hk', hm⟩
  · exact ⟨sc, h, h1, h2, h3, h4⟩
  · refine ⟨sc', hk', ?_⟩
    rcases hm with e | ⟨_, hz, _⟩ | ⟨hc, _⟩ | ⟨_, hc, _⟩ | ⟨hr, _, e⟩ | ⟨_, _, e⟩ |
      ⟨hc, _⟩ | ⟨_, hz, _⟩
    · subst e
      exact ⟨h1, h2, rfl, h4⟩
    · omega
    · rcases h1 with h1 | h1 <;> rw [h1] at hc <;> cases hc
    · rw [h2] at hc
      cases hc
    · subst e
      exact ⟨h1, h2, h3, Or.inr rfl⟩
    · subst e
      exact ⟨Or.inr rfl, h2, h3, h4⟩
    · rcases h1 with h1 | h1 <;> rw [h1] at hc <;> cases hc
    · omega

/-- Along a schedule at whose end unit `u` is still live, a Shutdown call made with an
expired context stays blocked on its waiter. -/
theorem Task.runActions_pendingExpired (k u : Nat) (x : TaskUnit) :
    ∀ (acts : List TaskAction) (s t : Task), s.Balanced → u < s.units.length →
      s.PendingExpired k → runActions Task.step acts s = some t →
      t.units[u]? = some x → x ≠ .exited → t.PendingExpired k ∧ t.Balanced := by
  intro acts
  induction acts with
  | nil =>
    intro s t hb _ hp hr _ _
    simp only [runActions, Option.some.injEq] at hr
    subst hr
    exact ⟨hp, hb⟩
  | cons a rest ih =>
    intro s t hb hu hp hr hx hl
    have hr0 := hr
    simp only [runActions] at hr
    split at hr
    · rename_i s1 h1
      obtain ⟨y, hy⟩ : ∃ y, s.units[u]? = some y := ⟨s.units[u], List.getElem?_eq_getElem hu⟩
      have hyl : y ≠ .exited := by
        intro e
        subst e
        have := Task.runActions_exited u (a :: rest) s t hy hr0
        rw [hx] at this
        exact hl (Option.some.inj this)
      have hw : 0 < s.wg := Task.Balanced.pos_of_live s hb u y hy hyl
      have hu1 : u < s1.units.length := lt_of_lt_of_le hu (Task.step_units_length a s s1 h1)
      have hb1 := Task.step_balanced a s s1 hb h1
      obtain ⟨y1, hy1⟩ : ∃ y, s1.units[u]? = some y :=
        ⟨s1.units[u], List.getElem?_eq_getElem hu1⟩
      have hyl1 : y1 ≠ .exited := by
        intro e
        subst e
        have := Task.runActions_exited u rest s1 t hy1 hr
        rw [hx] at this
        exact hl (Option.some.inj this)
      have hw1 : 0 < s1.wg := Task.Balanced.pos_of_live s1 hb1 u y1 hy1 hyl1
      exact ih s1 t hb1 hu1 (Task.step_pendingExpired k a s s1 hp hw hw1 h1) hr hx hl
    · cases hr

/-- The actions of a Shutdown call leave every unit and the counter as they are. -/
theorem Task.step_ofShutdown_frame (a : TaskAction) (t t' : Task) (ha : a.ofShutdown = true)
    (hs : t.step a = some t') : t'.units = t.units ∧ t'.wg = t.wg := by
  unfold Task.step at hs
  split at hs
  · cases hs
  · cases a <;> simp only [TaskAction.ofShutdown] at ha <;>
      simp only [Task.Shutdown, Task.ctxExpire, Task.waiterStep, Task.selectCh,
        Task.selectCtx] at hs <;>
      (try split at hs) <;> (try split at hs) <;> (try split at hs) <;>
      (try cases hs) <;> (try exact ⟨rfl, rfl⟩) <;> cases ha

/-- C7: on a Task with a unit that was launched before the call and has not exited by the end
of the schedule, Shutdown called with a context already past its deadline has either not
returned yet or has returned the error "timeout" (never nil); while it has not returned, its
timeout return is enabled, and taking it leaves the in-flight unit and the counter untouched
(nothing is cancelled or awaited). -/
theorem Task.shutdown_expired_unfinished_timeout (t0 : Task) (u : Nat)
    (acts : List TaskAction) (t : Task) (x : TaskUnit)
    (h0 : t0.Reachable) (hu : u < t0.units.length)
    (hrun : runActions Task.step acts (t0.Shutdown true) = some t)
    (hx : t.units[u]? = some x) (hlive : x ≠ .exited) :
    (∃ sc, t.shutdowns[t0.nextCall]? = some sc ∧
      (sc.result = none ∨ sc.result = some (some "timeout"))) ∧
    (t.resultOf t0.nextCall = none → t.crashed = false →
      ∃ t', t.step (.selectCtx t0.nextCall) = some t' ∧
        t'.resultOf t0.nextCall = some (some "timeout") ∧
        t'.units[u]? = some x ∧ t'.wg = t.wg ∧ 0 < t'.wg) := by
  have hb0 : (t0.Shutdown true).Balanced := Task.reachable_balanced t0 h0
  have hp0 : (t0.Shutdown true).PendingExpired t0.nextCall := by
    refine ⟨⟨.waiting, false, true, none⟩, ?_, Or.inl rfl, rfl, rfl, Or.inl rfl⟩
    simp [Task.Shutdown, Task.nextCall]
  obtain ⟨⟨sc, hk, h1, h2, h3, h4⟩, hb⟩ :=
    Task.runActions_pendingExpired t0.nextCall u x acts (t0.Shutdown true) t hb0 hu hp0 hrun
      hx hlive
  refine ⟨⟨sc, hk, h4⟩, ?_⟩
  intro hres hcr
  have hnone : sc.result = none := by
    simpa [Task.resultOf, hk] using hres
  have hlt : t0.nextCall < t.shutdowns.length := by
    rw [List.getElem?_eq_some] at hk
    exact hk.1
  refine ⟨{ t with shutdowns := (t.shutdowns.set t0.nextCall
              (TaskShutdown.mk sc.waiter sc.chClosed sc.ctxDone (some (some "timeout")))) },
            ?_, ?_, hx, rfl, ?_⟩
  · simp [Task.step, hcr, Task.selectCtx, hk, hnone, h3]
  · simp [Task.resultOf, List.getElem?_set_self hlt]
  · exact Task.Balanced.pos_of_live t hb u x hx hlive

theorem Task.Reachable.step_task (a : TaskAction) (t t' : Task) (h : t.Reachable)
    (hs : t.step a = some t') : t'.Reachable := by
  obtain ⟨acts, hacts⟩ := h
  refine ⟨acts ++ [a], runActions_append Task.step acts [a] Task.zero t t' hacts ?_⟩
  simp [runActions, hs]

theorem Task.Reachable.run_task (acts : List TaskAction) (t t' : Task) (h : t.Reachable)
    (hr : runActions Task.step acts t = some t') : t'.Reachable :=
  runActions_preserves Task.step Task.Reachable
    (fun a s s' hs hstep => Task.Reachable.step_task a s s' hs hstep) acts t t' h hr

theorem Task.Reachable.shutdown (t : Task) (d : Bool) (h : t.Reachable)
    (hc : t.crashed = false) : (t.Shutdown d).Reachable := by
  refine Task.Reachable.step_task (.shutdown d) t _ h ?_
  simp [Task.step, hc]

theorem TaskShutdown.Moves.justified (wg wg' : Nat) (sc sc' : TaskShutdown)
    (hm : TaskShutdown.Moves wg wg' sc sc') (hj : sc.Justified) : sc'.Justified := by
  unfold TaskShutdown.Justified at hj ⊢
  rcases hm with e | ⟨_, _, e⟩ | ⟨_, e⟩ | ⟨_, _, e⟩ | ⟨_, hd, e⟩ | ⟨_, _, e⟩ | ⟨_, _, e⟩ |
    ⟨_, _, e⟩
  · subst e
    rcases hj with h | h | ⟨h, _⟩
    · exact Or.inl h
    · exact Or.inr (Or.inl h)
    · exact Or.inr (Or.inr ⟨h, rfl⟩)
  · subst e; exact hj
  · subst e; exact hj
  · subst e; exact Or.inr (Or.inl rfl)
  · subst e; exact Or.inr (Or.inr ⟨rfl, hd⟩)
  · subst e; exact hj
  · subst e; exact hj
  · subst e; exact hj

theorem Task.step_allJustified (a : TaskAction) (t t' : Task) (h : t.AllJustified)
    (hs : t.step a = some t') : t'.AllJustified := by
  intro sc hsc
  rcases Task.step_shutdowns a t t' hs with e | ⟨d, e⟩ | ⟨k, sc1, sc2, hk, e, hm⟩ | ⟨_, e⟩
  rotate_left 3
  · rw [e, List.mem_map] at hsc
    obtain ⟨sc0, hsc0, e0⟩ := hsc
    have hj := h sc0 hsc0
    rcases TaskShutdown.release_task_cases sc0 with ⟨_, e1⟩ | ⟨_, e1⟩
    · rw [← e0, e1]
      exact hj
    · rw [← e0, e1]
      exact hj
  · rw [e] at hsc
    exact h sc hsc
  · rw [e, List.mem_append] at hsc
    rcases hsc with hsc | hsc
    · exact h sc hsc
    · simp only [List.mem_singleton] at hsc
      subst hsc
      exact Or.inl rfl
  · rw [e] at hsc
    rcases List.mem_or_eq_of_mem_set hsc with hsc | hsc
    · exact h sc hsc
    · subst hsc
      exact TaskShutdown.Moves.justified t.wg t'.wg sc1 sc hm
        (h sc1 (mem_of_getElem?_some _ _ _ hk))

theorem Task.reachable_allJustified (t : Task) (h : t.Reachable) : t.AllJustified := by
  obtain ⟨acts, hacts⟩ := h
  refine runActions_preserves Task.step Task.AllJustified Task.step_allJustified acts
    Task.zero t ?_ hacts
  intro sc hsc
  simp [Task.zero] at hsc

/-- C8 as stated fails: one job ran and finished (counter zero), Shutdown is then called with an
expired context, and the select takes the context case: the call returns "timeout". -/
theorem Task.shutdown_expired_idle_counterexample :
    (runActions Task.step [.run (some 1), .invoke 0, .procReturn 0, .deferDone 0] Task.zero
        = some Task.sampleIdle) ∧
    Task.sampleIdle.wg = 0 ∧
    (runActions Task.step [.selectCtx 0] (Task.sampleIdle.Shutdown true)).map
        (fun t => t.resultOf 0) = some (some (some "timeout")) := by
  decide

/-- C8 amended: when the counter is zero at the start of Shutdown, the call can return nil
(the waiter passes Wait, closes ch, and the select takes it), and along every schedule nil is
the only value it has returned while its context is not done; with a context already past its
deadline the select can take the context case first and return "timeout". -/
theorem Task.shutdown_idle_outcomes (t0 : Task) (e : Bool) (h0 : t0.Reachable)
    (hz : t0.wg = 0) (hc : t0.crashed = false) :
    (∃ t, runActions Task.step
        [.waiterStep t0.nextCall, .waiterStep t0.nextCall, .selectCh t0.nextCall]
        (t0.Shutdown e) = some t ∧ t.resultOf t0.nextCall = some none) ∧
    (e = true → ∃ t, runActions Task.step [.selectCtx t0.nextCall] (t0.Shutdown e) = some t ∧
        t.resultOf t0.nextCall = some (some "timeout")) ∧
    (∀ acts t sc, runActions Task.step acts (t0.Shutdown e) = some t →
        t.shutdowns[t0.nextCall]? = some sc → sc.ctxDone = false →
        sc.result = none ∨ sc.result = some none) := by
  refine ⟨?_, ?_, ?_⟩
  · simp [runActions, Task.step, Task.Shutdown, Task.waiterStep, Task.selectCh, Task.nextCall,
      Task.resultOf, hc, hz, set_concat_length]
  · intro he
    subst he
    simp [runActions, Task.step, Task.Shutdown, Task.selectCtx, Task.nextCall,
      Task.resultOf, hc, set_concat_length]
  · intro acts t sc hr hk hd
    have hreach : t.Reachable :=
      Task.Reachable.run_task acts _ t (Task.Reachable.shutdown t0 e h0 hc) hr
    rcases Task.reachable_allJustified t hreach sc (mem_of_getElem?_some _ _ _ hk) with
      h | h | ⟨_, h⟩
    · exact Or.inl h
    · exact Or.inr h
    · rw [hd] at h
      cases h

theorem Task.task_sampleBusy_reachable : Task.sampleBusy.Reachable :=
  ⟨[.run (some 1), .invoke 0], by decide⟩

theorem Task.sampleIdle_reachable : Task.sampleIdle.Reachable :=
  ⟨[.run (some 1), .invoke 0, .procReturn 0, .deferDone 0], by decide⟩

/-- Witness of C7: one job is inside Process, Shutdown is called with an expired context and
the schedule is empty. -/
theorem Task.shutdown_expired_unfinished_timeout_witness :
    (∃ sc, (Task.sampleBusy.Shutdown true).shutdowns[Task.sampleBusy.nextCall]? = some sc ∧
      (sc.result = none ∨ sc.result = some (some "timeout"))) ∧
    ((Task.sampleBusy.Shutdown true).resultOf Task.sampleBusy.nextCall = none →
      (Task.sampleBusy.Shutdown true).crashed = false →
      ∃ t', (Task.sampleBusy.Shutdown true).step (.selectCtx Task.sampleBusy.nextCall) = some t' ∧
        t'.resultOf Task.sampleBusy.nextCall = some (some "timeout") ∧
        t'.units[0]? = some (.running 1) ∧ t'.wg = (Task.sampleBusy.Shutdown true).wg ∧
        0 < t'.wg) :=
  Task.shutdown_expired_unfinished_timeout Task.sampleBusy 0 [] (Task.sampleBusy.Shutdown true)
    (.running 1) Task.task_sampleBusy_reachable (by decide) rfl (by decide) (by decide)

/-- Witness of the amended C8 at a Task whose only job has finished, with an expired context. -/
theorem Task.shutdown_idle_outcomes_witness :
    (∃ t, runActions Task.step
        [.waiterStep Task.sampleIdle.nextCall, .waiterStep Task.sampleIdle.nextCall,
          .selectCh Task.sampleIdle.nextCall]
        (Task.sampleIdle.Shutdown true) = some t ∧
        t.resultOf Task.sampleIdle.nextCall = some none) ∧
    (true = true → ∃ t, runActions Task.step [.selectCtx Task.sampleIdle.nextCall]
        (Task.sampleIdle.Shutdown true) = some t ∧
        t.resultOf Task.sampleIdle.nextCall = some (some "timeout")) ∧
    (∀ acts t sc, runActions Task.step acts (Task.sampleIdle.Shutdown true) = some t →
        t.shutdowns[Task.sampleIdle.nextCall]? = some sc → sc.ctxDone = false →
        sc.result = none ∨ sc.result = some none) :=
  Task.shutdown_idle_outcomes Task.sampleIdle true Task.sampleIdle_reachable (by decide)
    (by decide)

/-- C9: Run adds one to the counter and launches one unit before it returns; in every
reachable state the counter is the number of launched units whose deferred Done has not run;
Process ending by a return or by a panic leads to the deferred Done, which takes exactly one
off the counter; so when every launched unit has exited the counter is back at the value of
the fresh Task. -/
theorem Task.run_counter_accounting (t : Task) (h : t.Reachable) :
    (∀ job, (t.Run job).wg = t.wg + 1 ∧
      (t.Run job).units = t.units ++ [.spawned job]) ∧
    t.wg = t.units.countP TaskUnit.live ∧
    (∀ u j, t.units[u]? = some (.running j) → t.crashed = false →
      ∀ p, ∃ t', t.procEnd p u = some t' ∧ t'.units[u]? = some (.unwinding p) ∧
        t'.wg = t.wg) ∧
    (∀ u p, t.units[u]? = some (.unwinding p) → t.crashed = false →
      ∃ t', t.step (.deferDone u) = some t' ∧ t'.wg + 1 = t.wg ∧
        t'.units[u]? = some .exited) ∧
    ((∀ x ∈ t.units, x = .exited) → t.wg = Task.zero.wg) := by
  have hb := Task.reachable_balanced t h
  refine ⟨fun job => ⟨rfl, rfl⟩, hb, ?_, ?_, ?_⟩
  · intro u j hu _ p
    have hlt : u < t.units.length := by
      rw [List.getElem?_eq_some] at hu
      exact hu.1
    refine ⟨{ t with units := t.units.set u (.unwinding p) }, ?_, ?_, rfl⟩
    · simp only [Task.procEnd, hu]
    · simp [List.getElem?_set_self hlt]
  · intro u p hu hc
    have hlt : u < t.units.length := by
      rw [List.getElem?_eq_some] at hu
      exact hu.1
    have hpos : 0 < t.wg := Task.Balanced.pos_of_live t hb u _ hu (by intro e; cases e)
    obtain ⟨n, hn⟩ : ∃ n, t.wg = n + 1 := ⟨t.wg - 1, by omega⟩
    refine ⟨{ t with wg := n, units := t.units.set u .exited,
                     shutdowns := TaskShutdown.releaseAll n t.shutdowns, crashed := p },
      ?_, ?_, ?_⟩
    · simp only [Task.step, hc, Task.deferDone, hu]
      simp [hn]
    · simp [hn]
    · simp [List.getElem?_set_self hlt]
  · intro hall
    rw [hb]
    simp only [Task.zero, List.countP_eq_zero]
    intro x hx
    rw [hall x hx]
    simp [TaskUnit.live]

/-- Witness of C9 at a Task with one job inside Process. -/
theorem Task.run_counter_accounting_witness :
    Task.sampleBusy.wg = Task.sampleBusy.units.countP TaskUnit.live :=
  (Task.run_counter_accounting Task.sampleBusy Task.task_sampleBusy_reachable).2.1

/-! ## TaskQueue -/

theorem Chan.send_sent {α : Type} (c c' : Chan α) (v : α) (h : c.send v = .sent c') :
    c.closed = false ∧ c.buf.length < c.cap ∧ c' = { c with buf := c.buf ++ [v] } := by
  unfold Chan.send at h
  split at h
  · cases h
  · split at h
    · cases h
      refine ⟨by simpa using ‹¬c.closed = true›, ‹_›, rfl⟩
    · cases h

theorem Chan.recv_got {α : Type} (c c' : Chan α) (v : α) (h : c.recv = .got v c') :
    ∃ rest, c.buf = v :: rest ∧ c' = { c with buf := rest } := by
  unfold Chan.recv at h
  split at h
  · rename_i w rest hb
    cases h
    exact ⟨rest, hb, rfl⟩
  · split at h <;> cases h

theorem Chan.recv_zero {α : Type} (c : Chan α) (h : c.recv = .zero) :
    c.buf = [] ∧ c.closed = true := by
  unfold Chan.recv at h
  split at h
  · cases h
  · rename_i hb
    split at h
    · exact ⟨hb, ‹_›⟩
    · cases h

theorem Chan.close_some {α : Type} (c c' : Chan α) (h : c.close = some c') :
    c.closed = false ∧ c' = { c with closed := true } := by
  unfold Chan.close at h
  split at h
  · cases h
  · cases h
    exact ⟨by simpa using ‹¬c.closed = true›, rfl⟩

/-- A release changes nothing of a record but the program point of a parked waiter. -/
theorem QueueShutdown.release_cases (sc : QueueShutdown) :
    (sc.waiter ≠ .parked ∧ sc.release = sc) ∨
    (sc.waiter = .parked ∧ sc.release = { sc with waiter := .released }) := by
  unfold QueueShutdown.release
  cases hw : sc.waiter <;> simp

/-- The records after a `Done`: each one is the record before it, with its waiter released
if it was parked and the counter has reached zero. -/
theorem QueueShutdown.getElem?_releaseAll (n : Nat) (scs : List QueueShutdown) (k : Nat) :
    (QueueShutdown.releaseAll n scs)[k]? =
      (scs[k]?).map (fun sc => if n = 0 then sc.release else sc) := by
  unfold QueueShutdown.releaseAll
  split
  · simp
  · cases scs[k]? <;> rfl

/-- Looking up the records after a `Done`. -/
theorem QueueShutdown.releaseAll_cases (n : Nat) (scs : List QueueShutdown) (k : Nat)
    (y : QueueShutdown) (h : (QueueShutdown.releaseAll n scs)[k]? = some y) :
    ∃ sc, scs[k]? = some sc ∧
      (y = sc ∧ (n = 0 → sc.waiter ≠ .parked) ∨
        (n = 0 ∧ sc.waiter = .parked ∧ y = { sc with waiter := .released })) := by
  rw [QueueShutdown.getElem?_releaseAll] at h
  cases hk : scs[k]? with
  | none => rw [hk] at h; cases h
  | some sc =>
    rw [hk] at h
    simp only [Option.map_some', Option.some.injEq] at h
    refine ⟨sc, rfl, ?_⟩
    by_cases hn : n = 0
    · rw [if_pos hn] at h
      rcases QueueShutdown.release_cases sc with ⟨h1, h2⟩ | ⟨h1, h2⟩
      · left
        rw [h2] at h
        exact ⟨h.symm, fun _ => h1⟩
      · right
        rw [h2] at h
        exact ⟨hn, h1, h.symm⟩
    · rw [if_neg hn] at h
      exact Or.inl ⟨h.symm, fun e => absurd e hn⟩

/-- Every step of the semantics is one of the listed state changes. -/
theorem TaskQueue.step_moves (a : QueueAction) (t t' : TaskQueue)
    (hs : t.step a = some t') : TaskQueue.Moves t a t' := by
  unfold TaskQueue.step at hs
  split at hs
  · cases hs
  · cases a with
    | addBegin job => cases hs; exact .addBegin job
    | addSend a =>
      simp only [TaskQueue.addSend] at hs
      split at hs
      · rename_i job ha
        split at hs
        · rename_i q hq
          obtain ⟨h1, h2, rfl⟩ := Chan.send_sent _ _ _ hq
          cases hs
          exact .addSend a job ha h1 h2
        · cases hs
        · cases hs; exact .crash _
      · cases hs
    | recv c =>
      simp only [TaskQueue.recv] at hs
      split at hs
      · rename_i hc
        split at hs
        · rename_i ticket job q hq
          obtain ⟨rest, hb, rfl⟩ := Chan.recv_got _ _ _ hq
          cases hs
          exact .recvJob c ticket job rest hc hb
        · rename_i ticket q hq
          obtain ⟨rest, hb, rfl⟩ := Chan.recv_got _ _ _ hq
          cases hs
          exact .recvNil c ticket rest hc hb
        · rename_i hq
          obtain ⟨hb, hcl⟩ := Chan.recv_zero _ hq
          cases hs
          exact .recvZero c hc hb hcl
        · cases hs
      · cases hs
    | quit c =>
      simp only [TaskQueue.quit] at hs
      split at hs
      · rename_i hc
        split at hs
        · rename_i v q hq
          obtain ⟨rest, hb, rfl⟩ := Chan.recv_got _ _ _ hq
          cases hs
          exact .quit c v rest hc hb
        · rename_i hq
          obtain ⟨hb, hcl⟩ := Chan.recv_zero _ hq
          cases hs
          exact .quitZero c hc hb hcl
        · cases hs
      · cases hs
    | procReturn c =>
      simp only [TaskQueue.procReturn] at hs
      split at hs
      · rename_i ticket job hc
        cases hs
        exact .procReturn c ticket job hc
      · cases hs
    | procPanic c =>
      simp only [TaskQueue.procPanic] at hs
      split at hs
      · cases hs; exact .crash _
      · cases hs
    | wgDone c =>
      simp only [TaskQueue.wgDone] at hs
      split at hs
      · rename_i hc
        split at hs
        · cases hs; exact .crash _
        · rename_i n hn
          cases hs
          exact .wgDone c n hc hn
      · cases hs
    | shutdown d => cases hs; exact .shutdown d
    | ctxExpire k =>
      simp only [TaskQueue.ctxExpire] at hs
      split at hs
      · rename_i sc hk
        cases hs
        exact .record _ k sc _ rfl hk .expire
      · cases hs
    | waiterStep k =>
      simp only [TaskQueue.waiterStep] at hs
      split at hs
      · rename_i sc hk
        split at hs
        · rename_i hw
          split at hs
          · rename_i hz
            cases hs
            exact .record _ k sc _ rfl hk (.wake hw hz)
          · rename_i hz
            cases hs
            exact .record _ k sc _ rfl hk (.park hw hz)
        · cases hs
        · rename_i hw
          split at hs
          · rename_i hz
            cases hs
            exact .record _ k sc _ rfl hk (.resume hw hz)
          · cases hs; exact .crash _
        · rename_i hw
          split at hs
          · rename_i q hq
            obtain ⟨hcl, rfl⟩ := Chan.close_some _ _ hq
            cases hs
            exact .closeQueue k sc hk hw hcl
          · cases hs; exact .crash _
        · rename_i i hw
          split at hs
          · rename_i hi
            split at hs
            · rename_i q hq
              obtain ⟨h1, h2, rfl⟩ := Chan.send_sent _ _ _ hq
              cases hs
              exact .sendQuit k sc i hk hw hi h1 h2
            · cases hs
            · cases hs; exact .crash _
          · rename_i hi
            split at hs
            · rename_i q hq
              obtain ⟨h1, h2, rfl⟩ := Chan.send_sent _ _ _ hq
              cases hs
              exact .record _ k sc _ rfl hk (.signal i hw hi h1 h2)
            · cases hs
            · cases hs; exact .crash _
        · rename_i hw
          split at hs
          · rename_i q hq
            obtain ⟨hcl, rfl⟩ := Chan.close_some _ _ hq
            cases hs
            exact .record _ k sc _ rfl hk (.closeCh hw hcl)
          · cases hs; exact .crash _
        · cases hs
      · cases hs
    | selectCh k =>
      simp only [TaskQueue.selectCh] at hs
      split at hs
      · rename_i sc hk
        split at hs
        · rename_i hr
          simp only [Option.isNone_iff_eq_none] at hr
          split at hs
          · rename_i v q hq
            obtain ⟨rest, hb, rfl⟩ := Chan.recv_got _ _ _ hq
            cases hs
            exact .record _ k sc _ rfl hk (.retNilGot v rest hr hb)
          · rename_i hq
            obtain ⟨hb, hcl⟩ := Chan.recv_zero _ hq
            cases hs
            exact .record _ k sc _ rfl hk (.retNilZero hr hb hcl)
          · cases hs
        · cases hs
      · cases hs
    | selectCtx k =>
      simp only [TaskQueue.selectCtx] at hs
      split at hs
      · rename_i sc hk
        split at hs
        · rename_i hg
          simp only [Bool.and_eq_true, Option.isNone_iff_eq_none] at hg
          cases hs
          exact .record _ k sc _ rfl hk (.retTimeout hg.1 hg.2)
        · cases hs
      · cases hs

theorem lt_length_of_getElem?_some {α : Type} (l : List α) (i : Nat) (a : α)
    (h : l[i]? = some a) : i < l.length := by
  rw [List.getElem?_eq_some] at h
  exact h.1

theorem TaskQueue.Moves.sized (l : Nat) (a : QueueAction) (t t' : TaskQueue)
    (hm : TaskQueue.Moves t a t')
    (h : TaskQueue.Sized l t) : TaskQueue.Sized l t' := by
  obtain ⟨h1, h2, h3, h4, h5, h6, h7⟩ := h
  cases hm with
  | addBegin job => exact ⟨h1, h2, h3, h4, h5, h6, h7⟩
  | addSend a job ha hc hlen =>
    refine ⟨h1, h2, h3, ?_, h5, h6, h7⟩
    simp only [List.length_append, List.length_singleton]
    omega
  | crash a => exact ⟨h1, h2, h3, h4, h5, h6, h7⟩
  | recvJob c ticket job rest hc hb =>
    refine ⟨h1, ?_, h3, ?_, h5, h6, ?_⟩
    · simpa using h2
    · rw [hb] at h4
      simp only [List.length_cons] at h4
      show rest.length ≤ l
      omega
    · intro e he
      simp only [List.mem_append, List.mem_singleton] at he
      rcases he with he | he
      · exact h7 e he
      · subst he
        have := lt_length_of_getElem?_some _ _ _ hc
        show c < l
        omega
  | recvNil c ticket rest hc hb =>
    refine ⟨h1, h2, h3, ?_, h5, h6, h7⟩
    rw [hb] at h4
    simp only [List.length_cons] at h4
    show rest.length ≤ l
    omega
  | recvZero c hc hb hcl => exact ⟨h1, h2, h3, h4, h5, h6, h7⟩
  | quit c v rest hc hb =>
    refine ⟨h1, ?_, h3, h4, h5, h6, h7⟩
    simpa using h2
  | quitZero c hc hb hcl =>
    refine ⟨h1, ?_, h3, h4, h5, h6, h7⟩
    simpa using h2
  | procReturn c ticket job hc =>
    refine ⟨h1, ?_, h3, h4, h5, h6, h7⟩
    simpa using h2
  | wgDone c n hc hn =>
    refine ⟨h1, ?_, h3, h4, h5, h6, h7⟩
    simpa using h2
  | shutdown d => exact ⟨h1, h2, h3, h4, h5, h6, h7⟩
  | record a k sc sc' ha hk hrec => exact ⟨h1, h2, h3, h4, h5, h6, h7⟩
  | closeQueue k sc hk hw hcl => exact ⟨h1, h2, h3, h4, h5, h6, h7⟩
  | sendQuit k sc i hk hw hi hcl hlen => exact ⟨h1, h2, h3, h4, h5, h6, h7⟩

theorem TaskQueue.start_sized (l : Nat) : TaskQueue.Sized l (NewTaskQueue l).Start := by
  refine ⟨rfl, ?_, rfl, ?_, rfl, rfl, ?_⟩
  · simp [TaskQueue.Start, NewTaskQueue]
  · simp [TaskQueue.Start, NewTaskQueue, Chan.make]
  · intro e he
    simp [TaskQueue.Start, NewTaskQueue] at he

theorem TaskQueue.queue_reachable_sized (l : Nat) (t : TaskQueue) (h : TaskQueue.Reachable l t) :
    TaskQueue.Sized l t := by
  obtain ⟨acts, hacts⟩ := h
  exact runActions_preserves TaskQueue.step (TaskQueue.Sized l)
    (fun a s s' hs hstep => TaskQueue.Moves.sized l a s s' (TaskQueue.step_moves a s s' hstep) hs)
    acts _ t (TaskQueue.start_sized l) hacts

theorem TaskQueue.Reachable.step_queue (l : Nat) (a : QueueAction) (t t' : TaskQueue)
    (h : TaskQueue.Reachable l t) (hs : t.step a = some t') : TaskQueue.Reachable l t' := by
  obtain ⟨acts, hacts⟩ := h
  refine ⟨acts ++ [a], runActions_append TaskQueue.step acts [a] _ t t' hacts ?_⟩
  simp [runActions, hs]

theorem TaskQueue.Reachable.run_queue (l : Nat) (acts : List QueueAction) (t t' : TaskQueue)
    (h : TaskQueue.Reachable l t) (hr : runActions TaskQueue.step acts t = some t') :
    TaskQueue.Reachable l t' :=
  runActions_preserves TaskQueue.step (TaskQueue.Reachable l)
    (fun a s s' hs hstep => TaskQueue.Reachable.step_queue l a s s' hs hstep) acts t t' h hr

/-- While the buffer is full, only a consumer taking a job out of it lets a blocked send
proceed. -/
theorem TaskQueue.Moves.blockedSend (a : Nat) (x : QueueAction) (t t' : TaskQueue)
    (hm : TaskQueue.Moves t x t') (h : t.BlockedSend a) :
    (∃ c, x = .recv c) ∨ t'.BlockedSend a := by
  obtain ⟨hfull, job, hadd⟩ := h
  have hlt := lt_length_of_getElem?_some _ _ _ hadd
  cases hm with
  | addBegin j =>
    right
    refine ⟨hfull, job, ?_⟩
    simp only [TaskQueue.addBegin]
    rw [List.getElem?_append_left hlt]
    exact hadd
  | addSend a' j ha hc hlen => omega
  | crash x => exact Or.inr ⟨hfull, job, hadd⟩
  | recvJob c ticket j rest hc hb => exact Or.inl ⟨c, rfl⟩
  | recvNil c ticket rest hc hb => exact Or.inl ⟨c, rfl⟩
  | recvZero c hc hb hcl => exact Or.inl ⟨c, rfl⟩
  | quit c v rest hc hb => exact Or.inr ⟨hfull, job, hadd⟩
  | quitZero c hc hb hcl => exact Or.inr ⟨hfull, job, hadd⟩
  | procReturn c ticket j hc => exact Or.inr ⟨hfull, job, hadd⟩
  | wgDone c n hc hn => exact Or.inr ⟨hfull, job, hadd⟩
  | shutdown d => exact Or.inr ⟨hfull, job, hadd⟩
  | record x k sc sc' hx hk hrec => exact Or.inr ⟨hfull, job, hadd⟩
  | closeQueue k sc hk hw hcl => exact Or.inr ⟨hfull, job, hadd⟩
  | sendQuit k sc i hk hw hi hcl hlen => exact Or.inr ⟨hfull, job, hadd⟩

/-- While the buffer is full and every consumer is inside Process, only the return of a
Process lets a blocked send proceed. -/
theorem TaskQueue.Moves.blockedSend_allRunning (a : Nat) (x : QueueAction)
    (t t' : TaskQueue) (hm : TaskQueue.Moves t x t')
    (h : t.BlockedSend a ∧ t.AllRunning) :
    (∃ c, x = .procReturn c) ∨ (t'.BlockedSend a ∧ t'.AllRunning) := by
  obtain ⟨hb, hall⟩ := h
  have notIdle : ∀ c : Nat, t.consumers[c]? ≠ some Consumer.idle := by
    intro c hc
    have := hall _ (mem_of_getElem?_some _ _ _ hc)
    simp [Consumer.isRunning] at this
  have notFin : ∀ c : Nat, t.consumers[c]? ≠ some Consumer.finishing := by
    intro c hc
    have := hall _ (mem_of_getElem?_some _ _ _ hc)
    simp [Consumer.isRunning] at this
  rcases TaskQueue.Moves.blockedSend a x t t' hm hb with ⟨c, hx⟩ | hb'
  · subst hx
    cases hm with
    | crash x => exact Or.inr ⟨hb, hall⟩
    | recvJob c ticket j rest hc hbuf => exact absurd hc (notIdle c)
    | recvNil c ticket rest hc hbuf => exact absurd hc (notIdle c)
    | recvZero c hc hbuf hcl => exact absurd hc (notIdle c)
    | record x k sc sc' hx hk hrec => simp [QueueAction.ofShutdown] at hx
  · cases hm with
    | addBegin j => exact Or.inr ⟨hb', hall⟩
    | addSend a' j ha hc hlen => exact Or.inr ⟨hb', hall⟩
    | crash x => exact Or.inr ⟨hb', hall⟩
    | recvJob c ticket j rest hc hbuf => exact absurd hc (notIdle c)
    | recvNil c ticket rest hc hbuf => exact absurd hc (notIdle c)
    | recvZero c hc hbuf hcl => exact absurd hc (notIdle c)
    | quit c v rest hc hbuf => exact absurd hc (notIdle c)
    | quitZero c hc hbuf hcl => exact absurd hc (notIdle c)
    | procReturn c ticket j hc => exact Or.inl ⟨c, rfl⟩
    | wgDone c n hc hn => exact absurd hc (notFin c)
    | shutdown d => exact Or.inr ⟨hb', hall⟩
    | record x k sc sc' hx hk hrec => exact Or.inr ⟨hb', hall⟩
    | closeQueue k sc hk hw hcl => exact Or.inr ⟨hb', hall⟩
    | sendQuit k sc i hk hw hi hcl hlen => exact Or.inr ⟨hb', hall⟩

/-- C1 as stated fails: on a queue of size 1, one submitted job is in flight (inside Process),
none has completed, and the send of a further AddJob call completes at once: AddJob returns
while the first job is still inside Process. -/
theorem TaskQueue.addJob_inflight_counterexample :
    runActions TaskQueue.step [.addBegin (some 7), .addSend 0, .recv 0, .addBegin (some 8)]
        (NewTaskQueue 1).Start = some TaskQueue.sampleOneRunning ∧
    TaskQueue.sampleOneRunning.executing + TaskQueue.sampleOneRunning.queue.buf.length = 1 ∧
    (TaskQueue.sampleOneRunning.step (.addSend 1)).map
        (fun t => (t.adders, t.consumers)) =
      some ([.returned, .returned], [.running 0 7]) := by
  decide

/-- C1 amended: on a started queue of size l, in any state where l submitted jobs sit in the
queue buffer, a further AddJob call standing at its send does not return before a consumer
goroutine has taken a job out of the buffer; when in addition every consumer is inside
Process, it does not return before one of those Process calls has returned. -/
theorem TaskQueue.addJob_blocks_on_full_buffer (l : Nat) (t : TaskQueue) (a : Nat)
    (job : Option Job) (acts : List QueueAction) (t' : TaskQueue)
    (hreach : TaskQueue.Reachable l t) (hfull : t.queue.buf.length = l)
    (hadd : t.adders[a]? = some (.sending job))
    (hrun : runActions TaskQueue.step acts t = some t')
    (hret : t'.adders[a]? = some .returned) :
    (∃ c, QueueAction.recv c ∈ acts) ∧
    (t.AllRunning → ∃ c, QueueAction.procReturn c ∈ acts) := by
  have hsz := TaskQueue.queue_reachable_sized l t hreach
  have hb : t.BlockedSend a := ⟨by rw [hfull, hsz.queueCap], job, hadd⟩
  have notBlocked : ¬ t'.BlockedSend a := by
    rintro ⟨_, j, hj⟩
    rw [hret] at hj
    cases hj
  constructor
  · rcases runActions_escape TaskQueue.step (TaskQueue.BlockedSend a)
        (fun x => ∃ c, x = QueueAction.recv c)
        (fun x s s' hs hstep =>
          TaskQueue.Moves.blockedSend a x s s' (TaskQueue.step_moves x s s' hstep) hs)
        acts t t' hb hrun with ⟨x, hx, c, rfl⟩ | h
    · exact ⟨c, hx⟩
    · exact absurd h notBlocked
  · intro hall
    rcases runActions_escape TaskQueue.step
        (fun s => TaskQueue.BlockedSend a s ∧ TaskQueue.AllRunning s)
        (fun x => ∃ c, x = QueueAction.procReturn c)
        (fun x s s' hs hstep =>
          TaskQueue.Moves.blockedSend_allRunning a x s s' (TaskQueue.step_moves x s s' hstep) hs)
        acts t t' ⟨hb, hall⟩ hrun with ⟨x, hx, c, rfl⟩ | h
    · exact ⟨c, hx⟩
    · exact absurd h.1 notBlocked

theorem TaskQueue.sampleFull_reachable : TaskQueue.Reachable 1 TaskQueue.sampleFull :=
  ⟨[.addBegin (some 7), .addSend 0, .recv 0, .addBegin (some 8), .addSend 1,
    .addBegin (some 9)], by decide⟩

/-- Witness of the amended C1: with one job inside Process and one in the buffer of a queue of
size 1, the third AddJob returns after the schedule procReturn, wgDone, recv, addSend. -/
theorem TaskQueue.addJob_blocks_on_full_buffer_witness :
    (∃ c, QueueAction.recv c ∈
      [QueueAction.procReturn 0, .wgDone 0, .recv 0, .addSend 2]) ∧
    (TaskQueue.sampleFull.AllRunning → ∃ c, QueueAction.procReturn c ∈
      [QueueAction.procReturn 0, .wgDone 0, .recv 0, .addSend 2]) :=
  TaskQueue.addJob_blocks_on_full_buffer 1 TaskQueue.sampleFull 2 (some 9)
    [.procReturn 0, .wgDone 0, .recv 0, .addSend 2]
    { TaskQueue.sampleFull with
        queue := ⟨1, [(2, some 9)], false⟩, wg := 2, consumers := [.running 1 8],
        adders := [.returned, .returned, .returned], processed := [(0, 0), (0, 1)] }
    TaskQueue.sampleFull_reachable (by decide) (by decide) (by decide) (by decide)

/-- C3: on a queue made by NewTaskQueue(l) and started once, every reachable state has at most
l jobs inside Process (there are exactly l consumer goroutines, each inside at most one
Process, and Process is only ever called by one of them) and at most l jobs in the queue
buffer. -/
theorem TaskQueue.bounded_executing_and_buffer (l : Nat) (t : TaskQueue)
    (h : TaskQueue.Reachable l t) :
    t.executing ≤ l ∧ t.queue.buf.length ≤ l ∧ t.consumers.length = l ∧
    ∀ e ∈ t.processed, e.1 < l := by
  have hsz := TaskQueue.queue_reachable_sized l t h
  refine ⟨?_, hsz.queueLen, hsz.consumers, hsz.procBound⟩
  unfold TaskQueue.executing
  have h1 := List.countP_le_length Consumer.isRunning (l := t.consumers)
  have h2 := hsz.consumers
  omega

/-- Witness of C3 at the full queue of size 1. -/
theorem TaskQueue.bounded_executing_and_buffer_witness :
    TaskQueue.sampleFull.executing ≤ 1 ∧ TaskQueue.sampleFull.queue.buf.length ≤ 1 ∧
    TaskQueue.sampleFull.consumers.length = 1 ∧
    ∀ e ∈ TaskQueue.sampleFull.processed, e.1 < 1 :=
  TaskQueue.bounded_executing_and_buffer 1 TaskQueue.sampleFull TaskQueue.sampleFull_reachable

theorem TaskQueue.Accounted.frame (t t' : TaskQueue) (h : t.Accounted)
    (h1 : t'.shutdowns = t.shutdowns) (h2 : t'.queue.closed = t.queue.closed)
    (h3 : t'.qlen = t.qlen) (h4 : t'.quitSent = t.quitSent) : t'.Accounted := by
  obtain ⟨a1, a2, a3, a4⟩ := h
  refine ⟨?_, ?_, ?_, ?_⟩
  · rw [h1, h2, h3, h4]; exact a1
  · rw [h1]; exact a2
  · rw [h1, h2, h4]; exact a3
  · rw [h1]; exact a4

/-- The accounting of quit signals does not depend on which waiters a `Done` released. -/
theorem TaskQueue.Accounted.frame_release (t t' : TaskQueue) (n : Nat) (h : t.Accounted)
    (h1 : t'.shutdowns = QueueShutdown.releaseAll n t.shutdowns)
    (h2 : t'.queue.closed = t.queue.closed) (h3 : t'.qlen = t.qlen)
    (h4 : t'.quitSent = t.quitSent) : t'.Accounted := by
  obtain ⟨a1, a2, a3, a4⟩ := h
  have back : ∀ (k : Nat) (y : QueueShutdown), t'.shutdowns[k]? = some y →
      y.waiter.past = true → t.shutdowns[k]? = some y := by
    intro k y hk hp
    rw [h1] at hk
    obtain ⟨sc, hsc, hc⟩ := QueueShutdown.releaseAll_cases n _ k y hk
    rcases hc with ⟨e, _⟩ | ⟨_, _, e⟩
    · rw [e]
      exact hsc
    · rw [e] at hp
      cases hp
  refine ⟨?_, ?_, ?_, ?_⟩
  · intro k y hk hp
    rw [h2, h3, h4]
    exact a1 k y (back k y hk hp) hp
  · intro k k' y y' hk hk' hp hp'
    exact a2 k k' y y' (back k y hk hp) (back k' y' hk' hp') hp hp'
  · intro hq
    rw [h2, h4]
    refine a3 (fun k sc hk => ?_)
    have hk' : t'.shutdowns[k]? = some (if n = 0 then sc.release else sc) := by
      rw [h1, QueueShutdown.getElem?_releaseAll, hk]
      rfl
    have := hq k _ hk'
    split at this
    · rcases QueueShutdown.release_cases sc with ⟨_, e⟩ | ⟨e, _⟩
      · rw [e] at this
        exact this
      · rw [e]
        rfl
    · exact this
  · intro k y hk
    rw [h1] at hk
    obtain ⟨sc, hsc, hc⟩ := QueueShutdown.releaseAll_cases n _ k y hk
    rcases hc with ⟨e, _⟩ | ⟨_, hw, e⟩
    · rw [e]
      exact a4 k sc hsc
    · obtain ⟨c1, c2, c3, c4⟩ := a4 k sc hsc
      rw [e]
      refine ⟨fun _ => c1 (by rw [hw]; rfl), fun hr => ?_, c3, c4⟩
      have := c2 hr
      rw [hw] at this
      cases this

/-- A consumer moving between program points other than `exited` sends or receives no quit
signal. -/
theorem TaskQueue.quitSent_set (t : TaskQueue) (c : Nat) (x y : Consumer)
    (hc : t.consumers[c]? = some x) (hx : x.isExited = false) (hy : y.isExited = false) :
    t.quitChan.buf.length + (t.consumers.set c y).countP Consumer.isExited = t.quitSent := by
  have := countP_set_balance Consumer.isExited t.consumers c x y hc
  simp only [hx, hy] at this
  unfold TaskQueue.quitSent
  simpa using this

theorem QueueShutdown.Moves.coherent (wg qlen : Nat) (sc sc' : QueueShutdown)
    (hm : QueueShutdown.Moves wg qlen sc sc') (h : sc.Coherent) : sc'.Coherent := by
  obtain ⟨h1, h2, h3, h4⟩ := h
  cases hm with
  | expire =>
    exact ⟨h1, h2, fun _ => rfl, h4⟩
  | wake hw hz =>
    refine ⟨fun _ => h1 (by rw [hw]; rfl), fun hr => ?_, h3, h4⟩
    have := h2 hr
    rw [hw] at this
    cases this
  | park hw hz =>
    refine ⟨fun _ => h1 (by rw [hw]; rfl), fun hr => ?_, h3, h4⟩
    have := h2 hr
    rw [hw] at this
    cases this
  | resume hw hz =>
    refine ⟨fun _ => h1 (by rw [hw]; rfl), fun hr => ?_, h3, h4⟩
    have := h2 hr
    rw [hw] at this
    cases this
  | signal i hw hi hcl hlen =>
    exact ⟨(fun hs => by cases hs), fun _ => rfl, h3, h4⟩
  | closeCh hw hcl =>
    exact ⟨(fun hs => by cases hs), fun _ => rfl, h3, h4⟩
  | retNilGot v rest hr hb =>
    refine ⟨fun hs => ?_, fun _ => ?_, (fun hr' => by cases hr'), Or.inr (Or.inl rfl)⟩
    · have := h1 hs
      rw [this] at hb
      cases hb
    · cases hsig : sc.waiter.signalled
      · have := h1 hsig
        rw [this] at hb
        cases hb
      · rfl
  | retNilZero hr hb hcl =>
    refine ⟨h1, fun _ => ?_, (fun hr' => by cases hr'), Or.inr (Or.inl rfl)⟩
    cases hsig : sc.waiter.signalled
    · have := h1 hsig
      rw [this] at hcl
      cases hcl
    · rfl
  | retTimeout hr hd =>
    exact ⟨h1, (fun hr' => by cases hr'), fun _ => hd, Or.inr (Or.inr rfl)⟩

/-- A record move keeps whether the waiter has closed the queue, and, once it has, how many
quit signals it has sent (given that it never sent more than `qlen`). -/
theorem QueueShutdown.Moves.past_sent (wg qlen : Nat) (sc sc' : QueueShutdown)
    (hm : QueueShutdown.Moves wg qlen sc sc') :
    sc'.waiter.past = sc.waiter.past ∧
    (sc.waiter.sent qlen ≤ qlen → sc'.waiter.sent qlen = sc.waiter.sent qlen) := by
  cases hm with
  | expire => exact ⟨rfl, fun _ => rfl⟩
  | wake hw hz =>
    refine ⟨?_, fun _ => ?_⟩
    · rw [hw]; rfl
    · rw [hw]; rfl
  | park hw hz =>
    refine ⟨?_, fun _ => ?_⟩
    · rw [hw]; rfl
    · rw [hw]; rfl
  | resume hw hz =>
    refine ⟨?_, fun _ => ?_⟩
    · rw [hw]; rfl
    · rw [hw]; rfl
  | signal i hw hi hcl hlen =>
    refine ⟨?_, fun hle => ?_⟩
    · rw [hw]; rfl
    · rw [hw] at hle ⊢
      simp only [QueueWaiter.sent] at hle ⊢
      omega
  | closeCh hw hcl =>
    refine ⟨?_, fun _ => ?_⟩
    · rw [hw]; rfl
    · rw [hw]; rfl
  | retNilGot v rest hr hb => exact ⟨rfl, fun _ => rfl⟩
  | retNilZero hr hb hcl => exact ⟨rfl, fun _ => rfl⟩
  | retTimeout hr hd => exact ⟨rfl, fun _ => rfl⟩

theorem QueueShutdown.fresh_coherent (d : Bool) : (QueueShutdown.fresh d).Coherent :=
  ⟨fun _ => rfl, (fun h => by cases h), (fun h => by cases h), Or.inl rfl⟩

/-- The accounting of quit signals is kept by every step. -/
theorem TaskQueue.Moves.accounted (l : Nat) (x : QueueAction) (t t' : TaskQueue)
    (hm : TaskQueue.Moves t x t') (hs : TaskQueue.Sized l t) (h : t.Accounted) :
    t'.Accounted := by
  have hacc := h
  obtain ⟨a1, a2, a3, a4⟩ := h
  cases hm with
  | addBegin job => exact TaskQueue.Accounted.frame t _ hacc rfl rfl rfl rfl
  | addSend a job ha hc hlen => exact TaskQueue.Accounted.frame t _ hacc rfl rfl rfl rfl
  | crash x => exact TaskQueue.Accounted.frame t _ hacc rfl rfl rfl rfl
  | recvJob c ticket job rest hc hb =>
    exact TaskQueue.Accounted.frame t _ hacc rfl rfl rfl
      (TaskQueue.quitSent_set t c _ _ hc rfl rfl)
  | recvNil c ticket rest hc hb => exact TaskQueue.Accounted.frame t _ hacc rfl rfl rfl rfl
  | recvZero c hc hb hcl => exact hacc
  | quit c v rest hc hb =>
    refine TaskQueue.Accounted.frame t _ hacc rfl rfl rfl ?_
    have := countP_set_balance Consumer.isExited t.consumers c _ .exited hc
    simp only [Consumer.isExited] at this
    simp only [TaskQueue.quitSent, hb, List.length_cons]
    simp only [Bool.false_eq_true, if_false, if_true] at this
    omega
  | quitZero c hc hb hcl =>
    rw [hs.quitOpen] at hcl
    cases hcl
  | procReturn c ticket job hc =>
    exact TaskQueue.Accounted.frame t _ hacc rfl rfl rfl
      (TaskQueue.quitSent_set t c _ _ hc rfl rfl)
  | wgDone c n hc hn =>
    exact TaskQueue.Accounted.frame_release t _ n hacc rfl rfl rfl
      (TaskQueue.quitSent_set t c _ _ hc rfl rfl)
  | shutdown d =>
    refine ⟨?_, ?_, ?_, ?_⟩
    · intro k sc hk hp
      rcases getElem?_concat_cases _ _ _ _ hk with hk | ⟨_, e⟩
      · exact a1 k sc hk hp
      · subst e
        cases hp
    · intro k k' sc sc' hk hk' hp hp'
      rcases getElem?_concat_cases _ _ _ _ hk with hk | ⟨_, e⟩
      · rcases getElem?_concat_cases _ _ _ _ hk' with hk' | ⟨_, e'⟩
        · exact a2 k k' sc sc' hk hk' hp hp'
        · subst e'
          cases hp'
      · subst e
        cases hp
    · intro hq
      refine a3 (fun k sc hk => hq k sc ?_)
      show (t.shutdowns ++ [QueueShutdown.fresh d])[k]? = some sc
      rw [List.getElem?_append_left (lt_length_of_getElem?_some _ _ _ hk)]
      exact hk
    · intro k sc hk
      rcases getElem?_concat_cases _ _ _ _ hk with hk | ⟨_, e⟩
      · exact a4 k sc hk
      · subst e
        exact QueueShutdown.fresh_coherent d
  | record x k sc sc' hx hk hrec =>
    obtain ⟨hp, hsent⟩ := QueueShutdown.Moves.past_sent _ _ _ _ hrec
    have hklt := lt_length_of_getElem?_some _ _ _ hk
    refine ⟨?_, ?_, ?_, ?_⟩
    · intro j y hj hy
      rcases getElem?_set_cases _ _ _ _ _ hj with ⟨_, e⟩ | ⟨_, hj⟩
      · subst e
        rw [hp] at hy
        obtain ⟨b1, b2, b3⟩ := a1 k sc hk hy
        refine ⟨b1, ?_, b3⟩
        show y.waiter.sent t.qlen = t.quitSent
        rw [hsent (by rw [b2]; exact b3)]
        exact b2
      · exact a1 j y hj hy
    · intro j j' y y' hj hj' hy hy'
      rcases getElem?_set_cases _ _ _ _ _ hj with ⟨e1, e⟩ | ⟨n1, hj⟩
      · rcases getElem?_set_cases _ _ _ _ _ hj' with ⟨e1', e'⟩ | ⟨n1', hj'⟩
        · rw [e1, e1']
        · exact absurd (a2 k j' sc y' hk hj' (by rw [← hp, ← e]; exact hy) hy').symm n1'
      · rcases getElem?_set_cases _ _ _ _ _ hj' with ⟨e1', e'⟩ | ⟨n1', hj'⟩
        · exact absurd (a2 j k y sc hj hk hy (by rw [← hp, ← e']; exact hy')) n1
        · exact a2 j j' y y' hj hj' hy hy'
    · intro hq
      refine a3 (fun j y hj => ?_)
      by_cases e : j = k
      · subst e
        rw [hk] at hj
        cases hj
        rw [← hp]
        exact hq j sc' (by
          show (t.shutdowns.set j sc')[j]? = some sc'
          exact List.getElem?_set_self hklt)
      · exact hq j y (by
          show (t.shutdowns.set k sc')[j]? = some y
          rw [List.getElem?_set_ne (fun e' => e e'.symm)]
          exact hj)
    · intro j y hj
      rcases getElem?_set_cases _ _ _ _ _ hj with ⟨_, e⟩ | ⟨_, hj⟩
      · subst e
        exact QueueShutdown.Moves.coherent _ _ _ _ hrec (a4 k sc hk)
      · exact a4 j y hj
  | closeQueue k sc hk hw hcl =>
    have hklt := lt_length_of_getElem?_some _ _ _ hk
    have nopast : ∀ (j : Nat) (y : QueueShutdown), t.shutdowns[j]? = some y →
        y.waiter.past = false := by
      intro j y hj
      cases hy : y.waiter.past
      · rfl
      · have := (a1 j y hj hy).1
        rw [hcl] at this
        cases this
    have hzero : t.quitSent = 0 := (a3 nopast).2
    have hcoh := a4 k sc hk
    refine ⟨?_, ?_, ?_, ?_⟩
    · intro j y hj hy
      rcases getElem?_set_cases _ _ _ _ _ hj with ⟨_, e⟩ | ⟨_, hj⟩
      · subst e
        refine ⟨rfl, ?_, ?_⟩
        · show 0 = t.quitSent
          exact hzero.symm
        · show t.quitSent ≤ t.qlen
          omega
      · rw [nopast j y hj] at hy
        cases hy
    · intro j j' y y' hj hj' hy hy'
      rcases getElem?_set_cases _ _ _ _ _ hj with ⟨e1, _⟩ | ⟨_, hj⟩
      · rcases getElem?_set_cases _ _ _ _ _ hj' with ⟨e1', _⟩ | ⟨_, hj'⟩
        · rw [e1, e1']
        · rw [nopast j' y' hj'] at hy'
          cases hy'
      · rw [nopast j y hj] at hy
        cases hy
    · intro hq
      have := hq k { sc with waiter := .quitting 0 } (by
        show (t.shutdowns.set k _)[k]? = some _
        exact List.getElem?_set_self hklt)
      cases this
    · intro j y hj
      rcases getElem?_set_cases _ _ _ _ _ hj with ⟨_, e⟩ | ⟨_, hj⟩
      · subst e
        obtain ⟨c1, c2, c3, c4⟩ := hcoh
        refine ⟨fun _ => c1 (by rw [hw]; rfl), fun hr => ?_, c3, c4⟩
        have := c2 hr
        rw [hw] at this
        cases this
      · exact a4 j y hj
  | sendQuit k sc i hk hw hi hcl hlen =>
    have hklt := lt_length_of_getElem?_some _ _ _ hk
    have hpast : sc.waiter.past = true := by rw [hw]; rfl
    obtain ⟨b1, b2, b3⟩ := a1 k sc hk hpast
    rw [hw] at b2
    simp only [QueueWaiter.sent] at b2
    have hcoh := a4 k sc hk
    refine ⟨?_, ?_, ?_, ?_⟩
    · intro j y hj hy
      rcases getElem?_set_cases _ _ _ _ _ hj with ⟨_, e⟩ | ⟨n1, hj⟩
      · subst e
        refine ⟨b1, ?_, ?_⟩
        · simp only [TaskQueue.quitSent, QueueWaiter.sent, List.length_append,
            List.length_singleton] at b2 b3 ⊢
          omega
        · simp only [TaskQueue.quitSent, QueueWaiter.sent, List.length_append,
            List.length_singleton] at b2 b3 ⊢
          omega
      · exact absurd (a2 j k y sc hj hk hy hpast) n1
    · intro j j' y y' hj hj' hy hy'
      rcases getElem?_set_cases _ _ _ _ _ hj with ⟨e1, _⟩ | ⟨n1, hj⟩
      · rcases getElem?_set_cases _ _ _ _ _ hj' with ⟨e1', _⟩ | ⟨n1', hj'⟩
        · rw [e1, e1']
        · exact absurd (a2 j' k y' sc hj' hk hy' hpast) n1'
      · exact absurd (a2 j k y sc hj hk hy hpast) n1
    · intro hq
      have := hq k { sc with waiter := .quitting (i + 1) } (by
        show (t.shutdowns.set k _)[k]? = some _
        exact List.getElem?_set_self hklt)
      cases this
    · intro j y hj
      rcases getElem?_set_cases _ _ _ _ _ hj with ⟨_, e⟩ | ⟨_, hj⟩
      · subst e
        obtain ⟨c1, c2, c3, c4⟩ := hcoh
        refine ⟨fun _ => c1 (by rw [hw]; rfl), fun hr => ?_, c3, c4⟩
        have := c2 hr
        rw [hw] at this
        cases this
      · exact a4 j y hj

theorem TaskQueue.start_accounted (l : Nat) : (NewTaskQueue l).Start.Accounted := by
  refine ⟨?_, ?_, ?_, ?_⟩
  · intro k sc hk
    simp [TaskQueue.Start, NewTaskQueue] at hk
  · intro k k' sc sc' hk
    simp [TaskQueue.Start, NewTaskQueue] at hk
  · intro _
    refine ⟨rfl, ?_⟩
    simp [TaskQueue.quitSent, TaskQueue.Start, NewTaskQueue, Chan.make, Consumer.isExited]
  · intro k sc hk
    simp [TaskQueue.Start, NewTaskQueue] at hk

theorem TaskQueue.reachable_accounted (l : Nat) (t : TaskQueue)
    (h : TaskQueue.Reachable l t) : t.Accounted := by
  obtain ⟨acts, hacts⟩ := h
  have := runActions_preserves TaskQueue.step
    (fun s => TaskQueue.Sized l s ∧ s.Accounted)
    (fun a s s' hs hstep =>
      ⟨TaskQueue.Moves.sized l a s s' (TaskQueue.step_moves a s s' hstep) hs.1,
        TaskQueue.Moves.accounted l a s s' (TaskQueue.step_moves a s s' hstep) hs.1 hs.2⟩)
    acts _ t ⟨TaskQueue.start_sized l, TaskQueue.start_accounted l⟩ hacts
  exact this.2

/-- While the counter is not zero no waiter leaves `t.wg.Wait()`. -/
theorem TaskQueue.Moves.waitersBlocked (x : QueueAction) (t t' : TaskQueue)
    (hm : TaskQueue.Moves t x t') (hw : t.wg ≠ 0) (hw' : t'.wg ≠ 0) (h : t.WaitersBlocked) :
    t'.WaitersBlocked := by
  cases hm with
  | addBegin job => exact h
  | addSend a job ha hc hlen => exact h
  | crash x => exact h
  | recvJob c ticket job rest hc hb => exact h
  | recvNil c ticket rest hc hb => exact h
  | recvZero c hc hb hcl => exact h
  | quit c v rest hc hb => exact h
  | quitZero c hc hb hcl => exact h
  | procReturn c ticket job hc => exact h
  | wgDone c n hc hn =>
    intro k y hk
    obtain ⟨sc, hsc, hcase⟩ := QueueShutdown.releaseAll_cases n _ k y hk
    rcases hcase with ⟨e, _⟩ | ⟨hz, _, _⟩
    · rw [e]
      exact h k sc hsc
    · exact absurd hz hw'
  | shutdown d =>
    intro k sc hk
    rcases getElem?_concat_cases _ _ _ _ hk with hk | ⟨_, e⟩
    · exact h k sc hk
    · subst e
      exact Or.inl rfl
  | record x k sc sc' hx hk hrec =>
    intro j y hj
    rcases getElem?_set_cases _ _ _ _ _ hj with ⟨_, e⟩ | ⟨_, hj⟩
    · subst e
      have hsc := h k sc hk
      cases hrec with
      | expire => exact hsc
      | wake _ hz => exact absurd hz hw
      | park _ _ => exact Or.inr rfl
      | resume hq _ => rcases hsc with hsc | hsc <;> rw [hsc] at hq <;> cases hq
      | signal i hq => rcases hsc with hsc | hsc <;> rw [hsc] at hq <;> cases hq
      | closeCh hq => rcases hsc with hsc | hsc <;> rw [hsc] at hq <;> cases hq
      | retNilGot v rest hr hb => exact hsc
      | retNilZero hr hb hcl => exact hsc
      | retTimeout hr hd => exact hsc
    · exact h j y hj
  | closeQueue k sc hk hq hcl =>
    rcases h k sc hk with hsc | hsc <;> rw [hsc] at hq <;> cases hq
  | sendQuit k sc i hk hq hi hcl hlen =>
    rcases h k sc hk with hsc | hsc <;> rw [hsc] at hq <;> cases hq

/-- C6: start from a reachable state in which every Shutdown call made so far (if any) still
has its waiter blocked in Wait, and follow any schedule along which the outstanding-job
counter is never zero. Whenever a Shutdown call has returned the timeout error at the end of
such a schedule, the job queue is still open, no quit signal has been sent, and all l consumer
goroutines are still there (none has exited); the waiter of that call is still at Wait
(about to call it, or parked in it) and its context is done. -/
theorem TaskQueue.shutdown_timeout_leaves_queue_open (l : Nat) (t0 : TaskQueue)
    (acts : List QueueAction) (t : TaskQueue) (k : Nat) (sc : QueueShutdown)
    (hreach : TaskQueue.Reachable l t0) (h0 : t0.WaitersBlocked)
    (hrun : runActionsWhile (fun s => decide (s.wg ≠ 0)) TaskQueue.step acts t0 = some t)
    (hk : t.shutdowns[k]? = some sc) (hres : sc.result = some (some "timeout")) :
    t.wg ≠ 0 ∧ t.queue.closed = false ∧ t.quitSent = 0 ∧
    t.consumers.length = l ∧ (∀ c ∈ t.consumers, c ≠ Consumer.exited) ∧
    (sc.waiter = .waiting ∨ sc.waiter = .parked) ∧ sc.ctxDone = true := by
  have hinv := runActionsWhile_preserves_post (fun s : TaskQueue => decide (s.wg ≠ 0))
    TaskQueue.step TaskQueue.WaitersBlocked
    (fun a s s' hs hok hok' hstep =>
      TaskQueue.Moves.waitersBlocked a s s' (TaskQueue.step_moves a s s' hstep)
        (by simpa using hok) (by simpa using hok') hs)
    acts t0 t h0 hrun
  obtain ⟨hblocked, hok⟩ := hinv
  have hreach' : TaskQueue.Reachable l t :=
    TaskQueue.Reachable.run_queue l acts t0 t hreach
      (runActions_of_runActionsWhile _ _ acts t0 t hrun)
  have hacc := TaskQueue.reachable_accounted l t hreach'
  have hsz := TaskQueue.queue_reachable_sized l t hreach'
  obtain ⟨hopen, hzero⟩ := hacc.quiet (fun j y hj => by
    rcases hblocked j y hj with e | e <;> rw [e] <;> rfl)
  refine ⟨by simpa using hok, hopen, hzero, hsz.consumers, ?_, hblocked k sc hk,
    (hacc.coherent k sc hk).2.2.1 hres⟩
  intro c hc e
  subst e
  have hpos : 0 < t.consumers.countP Consumer.isExited :=
    List.countP_pos_iff.mpr ⟨_, hc, rfl⟩
  unfold TaskQueue.quitSent at hzero
  omega

theorem TaskQueue.queue_sampleBusy_reachable : TaskQueue.Reachable 1 TaskQueue.sampleBusy :=
  ⟨[.addBegin (some 7), .addSend 0, .recv 0], by decide⟩

/-- Witness of C6: a job is inside Process, Shutdown is called, its context expires and the
call returns the timeout error. -/
theorem TaskQueue.shutdown_timeout_leaves_queue_open_witness :
    TaskQueue.sampleTimedOut.wg ≠ 0 ∧ TaskQueue.sampleTimedOut.queue.closed = false ∧
    TaskQueue.sampleTimedOut.quitSent = 0 ∧
    TaskQueue.sampleTimedOut.consumers.length = 1 ∧
    (∀ c ∈ TaskQueue.sampleTimedOut.consumers, c ≠ Consumer.exited) ∧
    ((QueueShutdown.mk .waiting (Chan.make Unit 1) true (some (some "timeout"))).waiter
        = .waiting ∨
      (QueueShutdown.mk .waiting (Chan.make Unit 1) true (some (some "timeout"))).waiter
        = .parked) ∧
    (QueueShutdown.mk .waiting (Chan.make Unit 1) true (some (some "timeout"))).ctxDone
      = true :=
  TaskQueue.shutdown_timeout_leaves_queue_open 1 TaskQueue.sampleBusy
    [.shutdown false, .ctxExpire 0, .selectCtx 0] TaskQueue.sampleTimedOut 0
    ⟨.waiting, Chan.make Unit 1, true, some (some "timeout")⟩
    TaskQueue.queue_sampleBusy_reachable (by intro k sc hk; simp [TaskQueue.sampleBusy] at hk)
    (by decide) (by decide) rfl

/-- The waiter sends its remaining quit signals without blocking. -/
theorem TaskQueue.run_quit_loop (k : Nat) :
    ∀ (n : Nat) (s : TaskQueue) (sc : QueueShutdown) (i : Nat),
      s.shutdowns[k]? = some sc → sc.waiter = .quitting i → i + n = s.qlen →
      s.crashed = false → s.quitChan.closed = false →
      s.quitChan.buf.length + n ≤ s.quitChan.cap →
      ∃ s', runActions TaskQueue.step (List.replicate n (.waiterStep k)) s = some s' ∧
        s'.shutdowns[k]? = some { sc with waiter := .quitting s.qlen } ∧
        s'.crashed = false ∧ s'.qlen = s.qlen := by
  intro n
  induction n with
  | zero =>
    intro s sc i hk hw hi hc _ _
    refine ⟨s, rfl, ?_, hc, rfl⟩
    rw [hk]
    have e : i = s.qlen := by omega
    subst e
    rw [← hw]
  | succ n ih =>
    intro s sc i hk hw hi hc hcl hlen
    have hklt := lt_length_of_getElem?_some _ _ _ hk
    have hstep : s.step (.waiterStep k) = some
        { s with quitChan := { s.quitChan with buf := s.quitChan.buf ++ [true] },
                 shutdowns := s.shutdowns.set k { sc with waiter := .quitting (i + 1) } } := by
      have hi' : i < s.qlen := by omega
      have hl' : s.quitChan.buf.length < s.quitChan.cap := by omega
      simp [TaskQueue.step, hc, TaskQueue.waiterStep, hk, hw, hi', Chan.send, hcl, hl']
    obtain ⟨s', hrun, hk', hc', hq'⟩ := ih
      { s with quitChan := { s.quitChan with buf := s.quitChan.buf ++ [true] },
               shutdowns := (s.shutdowns.set k { sc with waiter := .quitting (i + 1) }) }
      { sc with waiter := .quitting (i + 1) } (i + 1)
      (by
        show (s.shutdowns.set k _)[k]? = some _
        exact List.getElem?_set_self hklt) rfl
      (by show i + 1 + n = s.qlen; omega) hc hcl
      (by
        show (s.quitChan.buf ++ [true]).length + n ≤ s.quitChan.cap
        simp only [List.length_append, List.length_singleton]
        omega)
    refine ⟨s', ?_, hk', hc', hq'⟩
    simp only [List.replicate_succ, runActions, hstep]
    exact hrun

/-- A waiter is parked in Wait only while the counter is not zero: Wait parks it on a
non-zero counter, and the `Done` that brings the counter to zero releases it. -/
theorem TaskQueue.Moves.parkedPositive (x : QueueAction) (t t' : TaskQueue)
    (hm : TaskQueue.Moves t x t') (h : t.ParkedPositive) : t'.ParkedPositive := by
  cases hm with
  | addBegin job =>
    intro k sc hk hp
    exact Nat.succ_ne_zero _
  | addSend a job ha hc hlen => exact h
  | crash x => exact h
  | recvJob c ticket job rest hc hb => exact h
  | recvNil c ticket rest hc hb => exact h
  | recvZero c hc hb hcl => exact h
  | quit c v rest hc hb => exact h
  | quitZero c hc hb hcl => exact h
  | procReturn c ticket job hc => exact h
  | wgDone c n hc hn =>
    intro k y hk hp
    obtain ⟨sc, hsc, hcase⟩ := QueueShutdown.releaseAll_cases n _ k y hk
    rcases hcase with ⟨e, hne⟩ | ⟨_, _, e⟩
    · intro hz
      rw [e] at hp
      exact hne hz hp
    · rw [e] at hp
      cases hp
  | shutdown d =>
    intro k sc hk hp
    rcases getElem?_concat_cases _ _ _ _ hk with hk | ⟨_, e⟩
    · exact h k sc hk hp
    · subst e
      cases hp
  | record x k sc sc' hx hk hrec =>
    intro j y hj hp
    rcases getElem?_set_cases _ _ _ _ _ hj with ⟨_, e⟩ | ⟨_, hj⟩
    · subst e
      cases hrec with
      | expire => exact h k sc hk hp
      | wake _ _ => cases hp
      | park _ hz => exact hz
      | resume _ _ => cases hp
      | signal i hq => cases hp
      | closeCh hq => cases hp
      | retNilGot v rest hr hb => exact h k sc hk hp
      | retNilZero hr hb hcl => exact h k sc hk hp
      | retTimeout hr hd => exact h k sc hk hp
    · exact h j y hj hp
  | closeQueue k sc hk hq hcl =>
    intro j y hj hp
    rcases getElem?_set_cases _ _ _ _ _ hj with ⟨_, e⟩ | ⟨_, hj⟩
    · subst e
      cases hp
    · exact h j y hj hp
  | sendQuit k sc i hk hq hi hcl hlen =>
    intro j y hj hp
    rcases getElem?_set_cases _ _ _ _ _ hj with ⟨_, e⟩ | ⟨_, hj⟩
    · subst e
      cases hp
    · exact h j y hj hp

theorem TaskQueue.reachable_parkedPositive (l : Nat) (t : TaskQueue)
    (h : TaskQueue.Reachable l t) : t.ParkedPositive := by
  obtain ⟨acts, hacts⟩ := h
  refine runActions_preserves TaskQueue.step TaskQueue.ParkedPositive
    (fun a s s' hs hstep =>
      TaskQueue.Moves.parkedPositive a s s' (TaskQueue.step_moves a s s' hstep) hs)
    acts _ t ?_ hacts
  intro k sc hk
  simp [TaskQueue.Start, NewTaskQueue] at hk

/-- A waiter at Wait while the counter is zero is about to call Wait or has been released,
and in a live process its step takes it out of Wait. -/
theorem TaskQueue.waiterStep_leaves_wait (t : TaskQueue) (k : Nat) (sc : QueueShutdown)
    (hpos : t.ParkedPositive) (hk : t.shutdowns[k]? = some sc)
    (hw : sc.waiter.atWait = true) (hz : t.wg = 0) (hc : t.crashed = false) :
    t.step (.waiterStep k) = some
      { t with shutdowns := t.shutdowns.set k { sc with waiter := .closing } } := by
  cases hwt : sc.waiter with
  | waiting => simp [TaskQueue.step, hc, TaskQueue.waiterStep, hk, hwt, hz]
  | parked => exact absurd hz (hpos k sc hk hwt)
  | released => simp [TaskQueue.step, hc, TaskQueue.waiterStep, hk, hwt, hz]
  | closing => rw [hwt] at hw; cases hw
  | quitting i => rw [hwt] at hw; cases hw
  | closingCh => rw [hwt] at hw; cases hw
  | finished => rw [hwt] at hw; cases hw

/-- From a state whose counter is zero and whose queue is open, the waiter of a pending
Shutdown call runs through and the call returns nil. -/
theorem TaskQueue.run_drainSchedule (l : Nat) (t : TaskQueue) (k : Nat) (sc : QueueShutdown)
    (hsz : TaskQueue.Sized l t) (hacc : t.Accounted) (hpos : t.ParkedPositive)
    (hk : t.shutdowns[k]? = some sc) (hw : sc.waiter.atWait = true) (hr : sc.result = none)
    (hz : t.wg = 0) (hopen : t.queue.closed = false) (hc : t.crashed = false) :
    ∃ t', runActions TaskQueue.step (TaskQueue.drainSchedule l k) t = some t' ∧
      t'.resultOf k = some none := by
  have hklt := lt_length_of_getElem?_some _ _ _ hk
  have hch : sc.ch = Chan.make Unit 1 := (hacc.coherent k sc hk).1 (by
    cases hwt : sc.waiter <;> rw [hwt] at hw <;> first | rfl | cases hw)
  have hquiet : t.quitSent = 0 := by
    refine (hacc.quiet (fun j y hj => ?_)).2
    cases hy : y.waiter.past
    · rfl
    · have := (hacc.pastOk j y hj hy).1
      rw [hopen] at this
      cases this
  have hbuf : t.quitChan.buf.length = 0 := by
    unfold TaskQueue.quitSent at hquiet
    omega
  -- Wait returns
  have h1 : t.step (.waiterStep k) = some
      { t with shutdowns := t.shutdowns.set k { sc with waiter := .closing } } :=
    TaskQueue.waiterStep_leaves_wait t k sc hpos hk hw hz hc
  -- close(t.queue)
  have h2 : TaskQueue.step (.waiterStep k)
      { t with shutdowns := t.shutdowns.set k { sc with waiter := .closing } } = some
      { t with queue := { t.queue with closed := true },
               shutdowns := t.shutdowns.set k { sc with waiter := .quitting 0 } } := by
    simp [TaskQueue.step, hc, TaskQueue.waiterStep, List.getElem?_set_self hklt, Chan.close,
      hopen]
  -- the loop
  obtain ⟨s3, h3, hk3, hc3, hq3⟩ := TaskQueue.run_quit_loop k l
    { t with queue := { t.queue with closed := true },
             shutdowns := t.shutdowns.set k { sc with waiter := .quitting 0 } }
    { sc with waiter := .quitting 0 } 0
    (by
      show (t.shutdowns.set k _)[k]? = some _
      exact List.getElem?_set_self hklt) rfl
    (by show 0 + l = t.qlen; rw [hsz.qlen]; omega) hc hsz.quitOpen
    (by
      show t.quitChan.buf.length + l ≤ t.quitChan.cap
      rw [hsz.quitCap]
      omega)
  have hklt3 := lt_length_of_getElem?_some _ _ _ hk3
  -- ch <- struct{}{}
  have h4 : s3.step (.waiterStep k) = some
      { s3 with shutdowns := (s3.shutdowns.set k
          { sc with waiter := .closingCh, ch := ⟨1, [()], false⟩ }) } := by
    simp [TaskQueue.step, hc3, TaskQueue.waiterStep, hk3, hq3, Chan.send, hch, Chan.make]
  -- case <-ch: return nil
  have h5 : TaskQueue.step (.selectCh k)
      { s3 with shutdowns := (s3.shutdowns.set k
          { sc with waiter := .closingCh, ch := ⟨1, [()], false⟩ }) } = some
      { s3 with shutdowns := (s3.shutdowns.set k
          { sc with waiter := .closingCh, ch := ⟨1, [], false⟩, result := some none }) } := by
    simp [TaskQueue.step, hc3, TaskQueue.selectCh, List.getElem?_set_self hklt3, hr, Chan.recv]
  have hrun : runActions TaskQueue.step (TaskQueue.drainSchedule l k) t = some
      { s3 with shutdowns := (s3.shutdowns.set k
          { sc with waiter := .closingCh, ch := ⟨1, [], false⟩, result := some none }) } := by
    unfold TaskQueue.drainSchedule
    simp only [runActions, h1, h2]
    exact runActions_append TaskQueue.step _ _ _ s3 _ h3 (by simp only [runActions, h4, h5])
  refine ⟨_, hrun, ?_⟩
  simp [TaskQueue.resultOf, List.getElem?_set_self hklt3]

/-- C5 as stated fails: on a queue of size 1 a job is submitted and Shutdown is called with a
live context; the job finishes and the counter reaches zero while the context is not done;
the waiter passes Wait, the context then expires before the waiter has signalled, and the
select returns "timeout". -/
theorem TaskQueue.shutdown_zero_counter_counterexample :
    runActions TaskQueue.step
        [.addBegin (some 7), .addSend 0, .recv 0, .shutdown false, .procReturn 0, .wgDone 0]
        (NewTaskQueue 1).Start = some TaskQueue.sampleDrained ∧
    TaskQueue.sampleDrained.wg = 0 ∧
    TaskQueue.sampleDrained.shutdowns.map (fun sc => sc.ctxDone) = [false] ∧
    (runActions TaskQueue.step [.waiterStep 0, .ctxExpire 0, .selectCtx 0]
        TaskQueue.sampleDrained).map (fun t => (t.resultOf 0, t.wg)) =
      some (some (some "timeout"), 0) := by
  decide

/-- C5 amended: for a Shutdown call on a started queue of size l: (1) whenever it has returned
nil, the job queue is closed and exactly l quit signals have been sent; (2) while its context
is not done it has returned nothing but nil; (3) when the counter is zero while its waiter is at
Wait (about to call it, or inside it; queue open, process alive), the waiter runs through
without blocking (close the queue, l quit signals, the signal on ch) and the call returns
nil. -/
theorem TaskQueue.shutdown_nil_outcome (l : Nat) (t : TaskQueue) (k : Nat)
    (sc : QueueShutdown) (hreach : TaskQueue.Reachable l t)
    (hk : t.shutdowns[k]? = some sc) :
    (sc.result = some none → t.queue.closed = true ∧ t.quitSent = l) ∧
    (sc.ctxDone = false → sc.result = none ∨ sc.result = some none) ∧
    (sc.waiter.atWait = true → sc.result = none → t.wg = 0 → t.queue.closed = false →
      t.crashed = false →
      ∃ t', runActions TaskQueue.step (TaskQueue.drainSchedule l k) t = some t' ∧
        t'.resultOf k = some none) := by
  have hsz := TaskQueue.queue_reachable_sized l t hreach
  have hacc := TaskQueue.reachable_accounted l t hreach
  obtain ⟨c1, c2, c3, c4⟩ := hacc.coherent k sc hk
  refine ⟨?_, ?_, ?_⟩
  · intro hr
    have hsig := c2 hr
    have hpast : sc.waiter.past = true ∧ sc.waiter.sent t.qlen = t.qlen := by
      cases hw : sc.waiter <;> rw [hw] at hsig <;>
        first | exact ⟨rfl, rfl⟩ | cases hsig
    obtain ⟨b1, b2, _⟩ := hacc.pastOk k sc hk hpast.1
    refine ⟨b1, ?_⟩
    rw [← b2, hpast.2, hsz.qlen]
  · intro hd
    rcases c4 with h | h | h
    · exact Or.inl h
    · exact Or.inr h
    · have := c3 h
      rw [hd] at this
      cases this
  · intro hw hr hz hopen hc
    exact TaskQueue.run_drainSchedule l t k sc hsz hacc
      (TaskQueue.reachable_parkedPositive l t hreach) hk hw hr hz hopen hc

theorem TaskQueue.sampleDrained_reachable : TaskQueue.Reachable 1 TaskQueue.sampleDrained :=
  ⟨[.addBegin (some 7), .addSend 0, .recv 0, .shutdown false, .procReturn 0, .wgDone 0],
    by decide⟩

/-- Witness of the amended C5 at the drained queue of size 1 with its pending Shutdown call. -/
theorem TaskQueue.shutdown_nil_outcome_witness :
    ((QueueShutdown.fresh false).result = some none →
      TaskQueue.sampleDrained.queue.closed = true ∧ TaskQueue.sampleDrained.quitSent = 1) ∧
    ((QueueShutdown.fresh false).ctxDone = false →
      (QueueShutdown.fresh false).result = none ∨
        (QueueShutdown.fresh false).result = some none) ∧
    ((QueueShutdown.fresh false).waiter.atWait = true →
      (QueueShutdown.fresh false).result = none →
      TaskQueue.sampleDrained.wg = 0 → TaskQueue.sampleDrained.queue.closed = false →
      TaskQueue.sampleDrained.crashed = false →
      ∃ t', runActions TaskQueue.step (TaskQueue.drainSchedule 1 0) TaskQueue.sampleDrained
          = some t' ∧ t'.resultOf 0 = some none) :=
  TaskQueue.shutdown_nil_outcome 1 TaskQueue.sampleDrained 0 (QueueShutdown.fresh false)
    TaskQueue.sampleDrained_reachable (by decide)

/-! ## Dispatcher -/

theorem Dispatcher.step_sized (n : Nat) (a : DispatcherAction) (d d' : Dispatcher)
    (h : Dispatcher.Sized n d) (hs : d.step a = some d') : Dispatcher.Sized n d' := by
  obtain ⟨h1, h2, h3, h4⟩ := h
  unfold Dispatcher.step at hs
  split at hs
  · cases hs
  · cases a with
    | dispatch job =>
      simp only [Dispatcher.dispatch] at hs
      split at hs
      · cases hs; exact ⟨h1, h2, h3, h4⟩
      · cases hs
    | forward f =>
      simp only [Dispatcher.sendJobToWorker] at hs
      split at hs
      · cases hs; exact ⟨h1, h2, h3, h4⟩
      · cases hs; exact ⟨h1, h2, h3, h4⟩
      · split at hs
        · cases hs; exact ⟨h1, h2, h3, h4⟩
        · cases hs; exact ⟨h1, h2, h3, h4⟩
        · cases hs
      · cases hs
    | deliver f =>
      simp only [Dispatcher.deliver] at hs
      split at hs
      · rename_i w job hf
        split at hs
        · rename_i hw
          have hwlt : w < n := by
            have := lt_length_of_getElem?_some _ _ _ hw
            omega
          split at hs
          · cases hs
            refine ⟨h1, by simpa using h2, ?_, ?_⟩
            · intro e he
              simp only [List.mem_append, List.mem_singleton] at he
              rcases he with he | he
              · exact h3 e he
              · subst he; exact hwlt
            · intro e he
              simp only [List.mem_append, List.mem_singleton] at he
              rcases he with he | he
              · exact h4 e he
              · subst he; exact hwlt
          · cases hs; exact ⟨h1, h2, h3, h4⟩
        · cases hs
      · cases hs
    | register w =>
      simp only [Dispatcher.register] at hs
      split at hs
      · split at hs
        · cases hs; exact ⟨h1, by simpa using h2, h3, h4⟩
        · cases hs
        · cases hs; exact ⟨h1, h2, h3, h4⟩
      · cases hs
    | procReturn w =>
      simp only [Dispatcher.procReturn] at hs
      split at hs
      · cases hs; exact ⟨h1, by simpa using h2, h3, h4⟩
      · cases hs
    | procPanic w =>
      simp only [Dispatcher.procPanic] at hs
      split at hs
      · cases hs; exact ⟨h1, h2, h3, h4⟩
      · cases hs
    | stop =>
      simp only [Dispatcher.Stop, Option.some.injEq] at hs
      subst hs
      split <;> exact ⟨h1, h2, h3, h4⟩
    | quit w =>
      simp only [Dispatcher.quit] at hs
      split at hs
      · split at hs
        · cases hs; exact ⟨h1, by simpa using h2, h3, h4⟩
        · cases hs
      · cases hs

theorem Dispatcher.run_sized (n : Nat) : Dispatcher.Sized n (NewDispatcher n).Run := by
  refine ⟨rfl, ?_, ?_, ?_⟩
  · simp [Dispatcher.Run, NewDispatcher]
  · intro e he
    simp [Dispatcher.Run, NewDispatcher] at he
  · intro e he
    simp [Dispatcher.Run, NewDispatcher] at he

theorem Dispatcher.dispatcher_reachable_sized (n : Nat) (d : Dispatcher) (h : Dispatcher.Reachable n d) :
    Dispatcher.Sized n d := by
  obtain ⟨acts, hacts⟩ := h
  exact runActions_preserves Dispatcher.step (Dispatcher.Sized n)
    (Dispatcher.step_sized n) acts _ d (Dispatcher.run_sized n) hacts

theorem Dispatcher.Reachable.step_dispatcher (n : Nat) (a : DispatcherAction) (d d' : Dispatcher)
    (h : Dispatcher.Reachable n d) (hs : d.step a = some d') : Dispatcher.Reachable n d' := by
  obtain ⟨acts, hacts⟩ := h
  refine ⟨acts ++ [a], runActions_append Dispatcher.step acts [a] _ d d' hacts ?_⟩
  simp [runActions, hs]

/-- C2: for a dispatcher built by NewDispatcher(n) on which Run was called once, every
reachable state has exactly n workers, each inside at most one Process, so at most n jobs are
inside Process; and every call of Process ever made was made by one of those n workers. -/
theorem Dispatcher.bounded_executing (n : Nat) (d : Dispatcher)
    (h : Dispatcher.Reachable n d) :
    d.executing ≤ n ∧ d.workers.length = n ∧ ∀ e ∈ d.processed, e.1 < n := by
  have hsz := Dispatcher.dispatcher_reachable_sized n d h
  refine ⟨?_, hsz.workers, hsz.procBound⟩
  unfold Dispatcher.executing
  have h1 := List.countP_le_length WorkerState.isBusy (l := d.workers)
  have h2 := hsz.workers
  omega

theorem Dispatcher.sampleHalfBusy_reachable : Dispatcher.Reachable 2 Dispatcher.sampleHalfBusy :=
  ⟨[.register 0, .register 1, .dispatch (some 5), .forward 0, .forward 0, .deliver 0,
    .dispatch (some 6), .forward 1, .forward 1], by decide⟩

/-- Witness of C2 at a dispatcher with two workers, one of them inside Process. -/
theorem Dispatcher.bounded_executing_witness :
    Dispatcher.sampleHalfBusy.executing ≤ 2 ∧ Dispatcher.sampleHalfBusy.workers.length = 2 ∧
    ∀ e ∈ Dispatcher.sampleHalfBusy.processed, e.1 < 2 :=
  Dispatcher.bounded_executing 2 Dispatcher.sampleHalfBusy Dispatcher.sampleHalfBusy_reachable

/-- C10: in every dispatcher state, the goroutine sendJobToWorker of an absent job returns at
its first statement: the step is enabled (nothing blocks), it does not crash, and it leaves
the worker pool, every worker, the pending quit signals and every other goroutine as they
were; nothing is received from the pool and nothing is sent to a worker. -/
theorem Dispatcher.sendJobToWorker_nil (d : Dispatcher) (f : Nat)
    (hf : d.forwarders[f]? = some (.checking none)) (hc : d.crashed = false) :
    ∃ d', d.step (.forward f) = some d' ∧
      d'.forwarders = d.forwarders.set f .finished ∧
      d'.workerPool = d.workerPool ∧ d'.workers = d.workers ∧ d'.quitters = d.quitters ∧
      d'.forwards = d.forwards ∧ d'.processed = d.processed ∧ d'.crashed = false ∧
      d.step (.deliver f) = none := by
  refine ⟨{ d with forwarders := d.forwarders.set f .finished }, ?_, rfl, rfl, rfl, rfl, rfl,
    rfl, hc, ?_⟩
  · simp [Dispatcher.step, hc, Dispatcher.sendJobToWorker, hf]
  · simp [Dispatcher.step, hc, Dispatcher.deliver, hf]

/-- Witness of C10 at a dispatcher that has just taken an absent job from its inbound
channel. -/
theorem Dispatcher.sendJobToWorker_nil_witness :
    ∃ d', Dispatcher.sampleNilJob.step (.forward 2) = some d' ∧
      d'.forwarders = Dispatcher.sampleNilJob.forwarders.set 2 .finished ∧
      d'.workerPool = Dispatcher.sampleNilJob.workerPool ∧
      d'.workers = Dispatcher.sampleNilJob.workers ∧
      d'.quitters = Dispatcher.sampleNilJob.quitters ∧
      d'.forwards = Dispatcher.sampleNilJob.forwards ∧
      d'.processed = Dispatcher.sampleNilJob.processed ∧ d'.crashed = false ∧
      Dispatcher.sampleNilJob.step (.deliver 2) = none :=
  Dispatcher.sendJobToWorker_nil Dispatcher.sampleNilJob 2 (by decide) (by decide)

/-! ## Each delivered job is processed exactly once -/

theorem Dispatcher.Ticketed.keep_dispatcher (d d' : Dispatcher) (h : d.Ticketed)
    (h1 : d'.forwards = d.forwards) (h2 : d'.processed = d.processed)
    (h3 : ∀ e ∈ d.forwards, d'.forwarders[e.1]? = some .finished) : d'.Ticketed := by
  obtain ⟨a1, a2, _⟩ := h
  refine ⟨?_, ?_, ?_⟩
  · rw [h1]; exact a1
  · rw [h1, h2]; exact a2
  · rw [h1]; exact h3

theorem Dispatcher.step_ticketed (a : DispatcherAction) (d d' : Dispatcher)
    (h : d.Ticketed) (hs : d.step a = some d') : d'.Ticketed := by
  have hall := h
  obtain ⟨a1, a2, a3⟩ := h
  unfold Dispatcher.step at hs
  split at hs
  · cases hs
  · cases a with
    | dispatch job =>
      simp only [Dispatcher.dispatch] at hs
      split at hs
      · cases hs
        refine Dispatcher.Ticketed.keep_dispatcher d _ hall rfl rfl (fun e he => ?_)
        have := a3 e he
        show (d.forwarders ++ [Forwarder.checking job])[e.1]? = some .finished
        rw [List.getElem?_append_left (lt_length_of_getElem?_some _ _ _ this)]
        exact this
      · cases hs
    | forward f =>
      simp only [Dispatcher.sendJobToWorker] at hs
      split at hs
      · rename_i hf
        cases hs
        exact Dispatcher.Ticketed.keep_dispatcher d _ hall rfl rfl
          (fun e he => getElem?_set_keep _ _ _ _ _ (a3 e he) (by rw [hf]; intro c; cases c))
      · rename_i hf
        cases hs
        exact Dispatcher.Ticketed.keep_dispatcher d _ hall rfl rfl
          (fun e he => getElem?_set_keep _ _ _ _ _ (a3 e he) (by rw [hf]; intro c; cases c))
      · rename_i hf
        split at hs
        · cases hs
          exact Dispatcher.Ticketed.keep_dispatcher d _ hall rfl rfl
            (fun e he => getElem?_set_keep _ _ _ _ _ (a3 e he) (by rw [hf]; intro c; cases c))
        · cases hs
          exact Dispatcher.Ticketed.keep_dispatcher d _ hall rfl rfl
            (fun e he => getElem?_set_keep _ _ _ _ _ (a3 e he) (by rw [hf]; intro c; cases c))
        · cases hs
      · cases hs
    | deliver f =>
      simp only [Dispatcher.deliver] at hs
      split at hs
      · rename_i w job hf
        have hflt := lt_length_of_getElem?_some _ _ _ hf
        have hfresh : f ∉ d.forwards.map Prod.fst := by
          intro hmem
          rw [List.mem_map] at hmem
          obtain ⟨e, he, rfl⟩ := hmem
          have := a3 e he
          rw [hf] at this
          cases this
        split at hs
        · split at hs
          · cases hs
            refine ⟨?_, ?_, ?_⟩
            · show ((d.forwards ++ [(f, w)]).map Prod.fst).Nodup
              rw [List.map_append, List.nodup_append]
              refine ⟨a1, by simp, ?_⟩
              intro x hx hx'
              simp only [List.map_cons, List.map_nil, List.mem_singleton] at hx'
              subst hx'
              exact hfresh hx
            · show d.processed ++ [(w, f)] = (d.forwards ++ [(f, w)]).map Prod.swap
              rw [List.map_append, a2]
              rfl
            · intro e he
              have he' : e ∈ d.forwards ++ [(f, w)] := he
              show (d.forwarders.set f Forwarder.finished)[e.1]? = some .finished
              simp only [List.mem_append, List.mem_singleton] at he'
              rcases he' with he' | he'
              · exact getElem?_set_keep _ _ _ _ _ (a3 e he')
                  (by rw [hf]; intro c; cases c)
              · subst he'
                exact List.getElem?_set_self hflt
          · cases hs
            exact Dispatcher.Ticketed.keep_dispatcher d _ hall rfl rfl a3
        · cases hs
      · cases hs
    | register w =>
      simp only [Dispatcher.register] at hs
      split at hs
      · split at hs
        · cases hs; exact Dispatcher.Ticketed.keep_dispatcher d _ hall rfl rfl a3
        · cases hs
        · cases hs; exact Dispatcher.Ticketed.keep_dispatcher d _ hall rfl rfl a3
      · cases hs
    | procReturn w =>
      simp only [Dispatcher.procReturn] at hs
      split at hs
      · cases hs; exact Dispatcher.Ticketed.keep_dispatcher d _ hall rfl rfl a3
      · cases hs
    | procPanic w =>
      simp only [Dispatcher.procPanic] at hs
      split at hs
      · cases hs; exact Dispatcher.Ticketed.keep_dispatcher d _ hall rfl rfl a3
      · cases hs
    | stop =>
      simp only [Dispatcher.Stop, Option.some.injEq] at hs
      subst hs
      split <;> exact Dispatcher.Ticketed.keep_dispatcher d _ hall rfl rfl a3
    | quit w =>
      simp only [Dispatcher.quit] at hs
      split at hs
      · split at hs
        · cases hs; exact Dispatcher.Ticketed.keep_dispatcher d _ hall rfl rfl a3
        · cases hs
      · cases hs

theorem Dispatcher.dispatcher_reachable_ticketed (n : Nat) (d : Dispatcher)
    (h : Dispatcher.Reachable n d) : d.Ticketed := by
  obtain ⟨acts, hacts⟩ := h
  refine runActions_preserves Dispatcher.step Dispatcher.Ticketed Dispatcher.step_ticketed
    acts _ d ?_ hacts
  refine ⟨?_, rfl, ?_⟩
  · simp [Dispatcher.Run, NewDispatcher]
  · intro e he
    simp [Dispatcher.Run, NewDispatcher] at he

theorem TaskQueue.Ticketed.keep_queue (t t' : TaskQueue) (h : t.Ticketed)
    (h1 : t'.queue.buf = t.queue.buf) (h2 : t'.processed = t.processed)
    (h3 : t'.adders = t.adders) : t'.Ticketed := by
  obtain ⟨a1, a2⟩ := h
  refine ⟨?_, ?_⟩
  · rw [h1, h2]; exact a1
  · rw [h1, h2, h3]; exact a2

theorem TaskQueue.Moves.ticketed (x : QueueAction) (t t' : TaskQueue)
    (hm : TaskQueue.Moves t x t') (h : t.Ticketed) : t'.Ticketed := by
  have hall := h
  obtain ⟨a1, a2⟩ := h
  cases hm with
  | addBegin job =>
    refine ⟨a1, fun n hn => ?_⟩
    have := a2 n hn
    show (t.adders ++ [Adder.sending job])[n]? = some .returned
    rw [List.getElem?_append_left (lt_length_of_getElem?_some _ _ _ this)]
    exact this
  | addSend a job ha hc hlen =>
    have halt := lt_length_of_getElem?_some _ _ _ ha
    have hfresh : a ∉ t.queue.buf.map Prod.fst ++ t.processed.map Prod.snd := by
      intro hmem
      have := a2 a hmem
      rw [ha] at this
      cases this
    refine ⟨?_, ?_⟩
    · show ((t.queue.buf ++ [(a, job)]).map Prod.fst ++ t.processed.map Prod.snd).Nodup
      have hperm : ((t.queue.buf ++ [(a, job)]).map Prod.fst ++ t.processed.map Prod.snd).Perm
          (a :: (t.queue.buf.map Prod.fst ++ t.processed.map Prod.snd)) := by
        rw [List.map_append, List.append_assoc]
        simp only [List.map_cons, List.map_nil, List.singleton_append]
        exact List.perm_middle
      rw [hperm.nodup_iff, List.nodup_cons]
      exact ⟨hfresh, a1⟩
    · intro n hn
      have hn' : n ∈ (t.queue.buf ++ [(a, job)]).map Prod.fst ++ t.processed.map Prod.snd := hn
      show (t.adders.set a Adder.returned)[n]? = some .returned
      by_cases e : n = a
      · subst e
        exact List.getElem?_set_self halt
      · rw [List.getElem?_set_ne (fun e' => e e'.symm)]
        refine a2 n ?_
        simp only [List.map_append, List.map_cons, List.map_nil, List.mem_append,
          List.mem_singleton] at hn' ⊢
        rcases hn' with (hn' | hn') | hn'
        · exact Or.inl hn'
        · exact absurd hn' e
        · exact Or.inr hn'
  | crash x => exact TaskQueue.Ticketed.keep_queue t _ hall rfl rfl rfl
  | recvJob c ticket job rest hc hb =>
    rw [hb] at a1 a2
    have hperm : (rest.map Prod.fst ++ (t.processed ++ [(c, ticket)]).map Prod.snd).Perm
        (ticket :: (rest.map Prod.fst ++ t.processed.map Prod.snd)) := by
      rw [List.map_append, ← List.append_assoc]
      simp only [List.map_cons, List.map_nil]
      exact List.perm_append_singleton _ _
    refine ⟨?_, ?_⟩
    · show (rest.map Prod.fst ++ (t.processed ++ [(c, ticket)]).map Prod.snd).Nodup
      rw [hperm.nodup_iff]
      simpa using a1
    · intro n hn
      have hn' : n ∈ rest.map Prod.fst ++ (t.processed ++ [(c, ticket)]).map Prod.snd := hn
      rw [hperm.mem_iff] at hn'
      exact a2 n (by simpa using hn')
  | recvNil c ticket rest hc hb =>
    rw [hb] at a1 a2
    refine ⟨?_, ?_⟩
    · show (rest.map Prod.fst ++ t.processed.map Prod.snd).Nodup
      simp only [List.map_cons, List.cons_append, List.nodup_cons] at a1
      exact a1.2
    · intro n hn
      have hn' : n ∈ rest.map Prod.fst ++ t.processed.map Prod.snd := hn
      exact a2 n (by
        simp only [List.map_cons, List.cons_append, List.mem_cons]
        exact Or.inr hn')
  | recvZero c hc hb hcl => exact hall
  | quit c v rest hc hb => exact TaskQueue.Ticketed.keep_queue t _ hall rfl rfl rfl
  | quitZero c hc hb hcl => exact TaskQueue.Ticketed.keep_queue t _ hall rfl rfl rfl
  | procReturn c ticket job hc => exact TaskQueue.Ticketed.keep_queue t _ hall rfl rfl rfl
  | wgDone c n hc hn => exact TaskQueue.Ticketed.keep_queue t _ hall rfl rfl rfl
  | shutdown d => exact TaskQueue.Ticketed.keep_queue t _ hall rfl rfl rfl
  | record x k sc sc' hx hk hrec => exact TaskQueue.Ticketed.keep_queue t _ hall rfl rfl rfl
  | closeQueue k sc hk hw hcl => exact TaskQueue.Ticketed.keep_queue t _ hall rfl rfl rfl
  | sendQuit k sc i hk hw hi hcl hlen => exact TaskQueue.Ticketed.keep_queue t _ hall rfl rfl rfl

theorem TaskQueue.queue_reachable_ticketed (l : Nat) (t : TaskQueue)
    (h : TaskQueue.Reachable l t) : t.Ticketed := by
  obtain ⟨acts, hacts⟩ := h
  refine runActions_preserves TaskQueue.step TaskQueue.Ticketed
    (fun a s s' hs hstep => TaskQueue.Moves.ticketed a s s' (TaskQueue.step_moves a s s' hstep) hs)
    acts _ t ?_ hacts
  refine ⟨?_, ?_⟩
  · simp [TaskQueue.Start, NewTaskQueue, Chan.make]
  · intro n hn
    simp [TaskQueue.Start, NewTaskQueue, Chan.make] at hn

/-- In a log without repeated job numbers, a job number determines who processed it. -/
theorem eq_of_nodup_map_snd (l : List (Nat × Nat)) (h : (l.map Prod.snd).Nodup)
    (a b k : Nat) (ha : (a, k) ∈ l) (hb : (b, k) ∈ l) : a = b := by
  have := List.inj_on_of_nodup_map h ha hb rfl
  exact (Prod.mk.inj this).1

/-- C4: (dispatcher) no job number occurs twice among the completed sends to worker channels
or among the calls of Process, the calls of Process are exactly the completed sends, and when a
worker receives a job it calls Process on it, after which that job number has been sent once,
processed once, and by that worker only; (task queue) no job number occurs twice among the
calls of Process, and when a consumer goroutine receives a present job it calls Process on it,
after which that job number has been processed once, and by that consumer only. -/
theorem processed_exactly_once (n : Nat) (d : Dispatcher) (l : Nat) (t : TaskQueue)
    (hd : Dispatcher.Reachable n d) (ht : TaskQueue.Reachable l t) :
    ((d.forwards.map Prod.fst).Nodup ∧ (d.processed.map Prod.snd).Nodup ∧
      d.processed = d.forwards.map Prod.swap ∧
      ∀ (f w : Nat) (j : Job), d.forwarders[f]? = some (.sending (some w) (some j)) →
        d.workers[w]? = some .waiting → d.crashed = false →
        ∃ d', d.step (.deliver f) = some d' ∧ d'.workers[w]? = some (.busy f j) ∧
          (d'.forwards.map Prod.fst).count f = 1 ∧ (d'.processed.map Prod.snd).count f = 1 ∧
          ∀ w', (w', f) ∈ d'.processed → w' = w) ∧
    ((t.processed.map Prod.snd).Nodup ∧
      ∀ (c k : Nat) (j : Job) (rest : List (Nat × Option Job)),
        t.consumers[c]? = some .idle → t.queue.buf = (k, some j) :: rest →
        t.crashed = false →
        ∃ t', t.step (.recv c) = some t' ∧ t'.consumers[c]? = some (.running k j) ∧
          (t'.processed.map Prod.snd).count k = 1 ∧
          ∀ c', (c', k) ∈ t'.processed → c' = c) := by
  have procNodup : ∀ e : Dispatcher, e.Ticketed → (e.processed.map Prod.snd).Nodup := by
    intro e he
    rw [he.mirror, List.map_map]
    exact he.nodup
  constructor
  · have htk := Dispatcher.dispatcher_reachable_ticketed n d hd
    refine ⟨htk.nodup, procNodup d htk, htk.mirror, ?_⟩
    intro f w j hf hw hc
    have hwlt := lt_length_of_getElem?_some _ _ _ hw
    have hstep : d.step (.deliver f) = some
        { d with workers := d.workers.set w (.busy f j),
                 forwarders := d.forwarders.set f .finished,
                 forwards := d.forwards ++ [(f, w)],
                 processed := d.processed ++ [(w, f)] } := by
      simp [Dispatcher.step, hc, Dispatcher.deliver, hf, hw, Worker.onJob]
    have htk' := Dispatcher.dispatcher_reachable_ticketed n _ (Dispatcher.Reachable.step_dispatcher n _ d _ hd hstep)
    have hmem : (w, f) ∈ d.processed ++ [(w, f)] := by simp
    refine ⟨_, hstep, ?_, ?_, ?_, ?_⟩
    · exact List.getElem?_set_self hwlt
    · refine List.count_eq_one_of_mem htk'.nodup ?_
      show f ∈ (d.forwards ++ [(f, w)]).map Prod.fst
      simp
    · refine List.count_eq_one_of_mem (procNodup _ htk') ?_
      show f ∈ (d.processed ++ [(w, f)]).map Prod.snd
      simp
    · intro w' hw'
      exact eq_of_nodup_map_snd _ (procNodup _ htk') w' w f hw' hmem
  · have htk := TaskQueue.queue_reachable_ticketed l t ht
    have tqNodup : ∀ s : TaskQueue, s.Ticketed → (s.processed.map Prod.snd).Nodup :=
      fun s hs => (List.nodup_append.mp hs.nodup).2.1
    refine ⟨tqNodup t htk, ?_⟩
    intro c k j rest hcons hbuf hc
    have hclt := lt_length_of_getElem?_some _ _ _ hcons
    have hstep : t.step (.recv c) = some
        { t with queue := { t.queue with buf := rest },
                 consumers := t.consumers.set c (.running k j),
                 processed := t.processed ++ [(c, k)] } := by
      simp [TaskQueue.step, hc, TaskQueue.recv, hcons, Chan.recv, hbuf]
    have htk' := TaskQueue.queue_reachable_ticketed l _ (TaskQueue.Reachable.step_queue l _ t _ ht hstep)
    have hmem : (c, k) ∈ t.processed ++ [(c, k)] := by simp
    refine ⟨_, hstep, ?_, ?_, ?_⟩
    · exact List.getElem?_set_self hclt
    · refine List.count_eq_one_of_mem (tqNodup _ htk') ?_
      show k ∈ (t.processed ++ [(c, k)]).map Prod.snd
      simp
    · intro c' hc'
      exact eq_of_nodup_map_snd _ (tqNodup _ htk') c' c k hc' hmem

theorem TaskQueue.sampleBuffered_reachable : TaskQueue.Reachable 1 TaskQueue.sampleBuffered :=
  ⟨[.addBegin (some 7), .addSend 0], by decide⟩

/-- Witness of C4 at a dispatcher whose worker 1 is about to receive job number 1 and a queue
whose consumer is about to receive job number 0. -/
theorem processed_exactly_once_witness :
    (∃ d', Dispatcher.sampleHalfBusy.step (.deliver 1) = some d' ∧
      d'.workers[1]? = some (.busy 1 6) ∧ (d'.processed.map Prod.snd).count 1 = 1) ∧
    (∃ t', TaskQueue.sampleBuffered.step (.recv 0) = some t' ∧
      t'.consumers[0]? = some (.running 0 7) ∧ (t'.processed.map Prod.snd).count 0 = 1) := by
  have h := processed_exactly_once 2 Dispatcher.sampleHalfBusy 1 TaskQueue.sampleBuffered
    Dispatcher.sampleHalfBusy_reachable TaskQueue.sampleBuffered_reachable
  obtain ⟨d', h1, h2, _, h3, _⟩ := h.1.2.2.2 1 1 6 (by decide) (by decide) (by decide)
  obtain ⟨t', g1, g2, g3, _⟩ := h.2.2 0 0 7 [] (by decide) (by decide) (by decide)
  exact ⟨⟨d', h1, h2, h3⟩, ⟨t', g1, g2, g3⟩⟩

/-! ## Absent jobs in a task queue -/

/-- C12 fails on the code: `AddJob(nil)` adds one to the counter and the consumer that skips
the absent job never calls `t.wg.Done()`, so the counter stays one above its value before the
call; the waiter of a subsequent Shutdown parks in Wait and has no further step, the nil
return is not enabled before or after it parks, and the call returns "timeout" once its
context is done. -/
theorem TaskQueue.addJob_nil_leaks_counter :
    runActions TaskQueue.step [.addBegin none, .addSend 0, .recv 0] (NewTaskQueue 1).Start
      = some TaskQueue.sampleNilSkipped ∧
    (NewTaskQueue 1).Start.wg = 0 ∧ TaskQueue.sampleNilSkipped.wg = 1 ∧
    (runActions TaskQueue.step [.waiterStep 0] (TaskQueue.sampleNilSkipped.Shutdown false)).map
        (fun t => (t.shutdowns.map (fun sc => sc.waiter), t.wg)) = some ([.parked], 1) ∧
    runActions TaskQueue.step [.waiterStep 0, .waiterStep 0]
        (TaskQueue.sampleNilSkipped.Shutdown false) = none ∧
    (TaskQueue.sampleNilSkipped.Shutdown false).step (.selectCh 0) = none ∧
    runActions TaskQueue.step [.waiterStep 0, .selectCh 0]
        (TaskQueue.sampleNilSkipped.Shutdown false) = none ∧
    (runActions TaskQueue.step [.waiterStep 0, .ctxExpire 0, .selectCtx 0]
        (TaskQueue.sampleNilSkipped.Shutdown false)).map (fun t => t.resultOf 0)
      = some (some (some "timeout")) := by
  decide

/-! ## The registry holds each worker at most once -/

/-- A duplicate-free list of numbers below `n` that misses one of them is shorter than `n`. -/
theorem nodup_length_lt (l : List Nat) (n w : Nat) (hnd : l.Nodup)
    (hb : ∀ x ∈ l, x < n) (hw : w < n) (hnot : w ∉ l) : l.length < n := by
  have hnd' : (w :: l).Nodup := List.nodup_cons.mpr ⟨hnot, hnd⟩
  have hsub : (w :: l) ⊆ List.range n := by
    intro x hx
    rw [List.mem_range]
    rcases List.mem_cons.mp hx with e | hx
    · rw [e]; exact hw
    · exact hb x hx
  have := (List.subperm_of_subset hnd' hsub).length_le
  simp only [List.length_cons, List.length_range] at this
  omega

theorem Dispatcher.Parked.set_other (d : Dispatcher) (w w' : Nat) (st : WorkerState)
    (h : d.Parked w) (hne : w' ≠ w) :
    (d.workers.set w' st)[w]? = some .waiting ∨ (d.workers.set w' st)[w]? = some .stopped := by
  rw [List.getElem?_set_ne hne]
  exact h

/-- A parked worker is not the worker of a lookup that found another program point. -/
theorem Dispatcher.Parked.ne_of (d : Dispatcher) (w w' : Nat) (st : WorkerState)
    (h : d.Parked w) (hw' : d.workers[w']? = some st) (h1 : st ≠ .waiting)
    (h2 : st ≠ .stopped) : w' ≠ w := by
  intro e
  subst e
  rcases h with h | h
  · rw [hw'] at h; exact h1 (Option.some.inj h)
  · rw [hw'] at h; exact h2 (Option.some.inj h)

theorem Dispatcher.Registered.keep_registry (n : Nat) (d d' : Dispatcher)
    (h : Dispatcher.Registered n d) (hcap : d'.workerPool.cap = d.workerPool.cap)
    (hbuf : d'.workerPool.buf = d.workerPool.buf) (hw : d'.workers = d.workers)
    (hf : ∀ (f w : Nat) (job : Option Job),
      d'.forwarders[f]? = some (.sending (some w) job) →
      d.forwarders[f]? = some (.sending (some w) job)) :
    Dispatcher.Registered n d' := by
  obtain ⟨a1, a2, a3, a4, a5⟩ := h
  refine ⟨by rw [hcap]; exact a1, by rw [hbuf]; exact a2, ?_, ?_, ?_⟩
  · intro w hmem
    rw [hbuf] at hmem
    have := a3 w hmem
    unfold Dispatcher.Parked at this ⊢
    rw [hw]
    exact this
  · intro f w job hfw
    have := a4 f w job (hf f w job hfw)
    unfold Dispatcher.Parked at this ⊢
    rw [hbuf, hw]
    exact this
  · intro f f' w job job' h1 h2
    exact a5 f f' w job job' (hf f w job h1) (hf f' w job' h2)

/-- The registry invariant is kept by every step. -/
theorem Dispatcher.step_registered (n : Nat) (a : DispatcherAction) (d d' : Dispatcher)
    (hsz : Dispatcher.Sized n d) (h : Dispatcher.Registered n d)
    (hs : d.step a = some d') : Dispatcher.Registered n d' := by
  have hall := h
  obtain ⟨a1, a2, a3, a4, a5⟩ := h
  unfold Dispatcher.step at hs
  split at hs
  · cases hs
  · cases a with
    | dispatch job =>
      simp only [Dispatcher.dispatch] at hs
      split at hs
      · cases hs
        refine Dispatcher.Registered.keep_registry n d _ hall rfl rfl rfl ?_
        intro f w j hfw
        rcases getElem?_concat_cases _ _ _ _ hfw with hfw | ⟨_, e⟩
        · exact hfw
        · cases e
      · cases hs
    | forward f =>
      simp only [Dispatcher.sendJobToWorker] at hs
      split at hs
      · cases hs
        refine Dispatcher.Registered.keep_registry n d _ hall rfl rfl rfl ?_
        intro f' w j hfw
        rcases getElem?_set_cases _ _ _ _ _ hfw with ⟨_, e⟩ | ⟨_, hfw⟩
        · cases e
        · exact hfw
      · cases hs
        refine Dispatcher.Registered.keep_registry n d _ hall rfl rfl rfl ?_
        intro f' w j hfw
        rcases getElem?_set_cases _ _ _ _ _ hfw with ⟨_, e⟩ | ⟨_, hfw⟩
        · cases e
        · exact hfw
      · rename_i job hf
        split at hs
        · rename_i w pool hrecv
          obtain ⟨rest, hb, rfl⟩ := Chan.recv_got _ _ _ hrecv
          cases hs
          rw [hb] at a2 a3 a4
          have hwrest : w ∉ rest := (List.nodup_cons.mp a2).1
          refine ⟨a1, (List.nodup_cons.mp a2).2, ?_, ?_, ?_⟩
          · intro x hx
            exact a3 x (List.mem_cons_of_mem w hx)
          · intro f' x j hfw
            rcases getElem?_set_cases _ _ _ _ _ hfw with ⟨_, e⟩ | ⟨_, hfw⟩
            · cases e
              exact ⟨hwrest, (a3 w (List.mem_cons_self w rest)).2⟩
            · obtain ⟨b1, b2⟩ := a4 f' x j hfw
              exact ⟨fun hx => b1 (List.mem_cons_of_mem w hx), b2⟩
          · intro f1 f2 x j1 j2 h1 h2
            rcases getElem?_set_cases _ _ _ _ _ h1 with ⟨e1, v1⟩ | ⟨n1, h1⟩
            · rcases getElem?_set_cases _ _ _ _ _ h2 with ⟨e2, v2⟩ | ⟨n2, h2⟩
              · rw [e1, e2]
              · cases v1
                exact absurd (List.mem_cons_self w rest) (a4 f2 w j2 h2).1
            · rcases getElem?_set_cases _ _ _ _ _ h2 with ⟨e2, v2⟩ | ⟨n2, h2⟩
              · cases v2
                exact absurd (List.mem_cons_self w rest) (a4 f1 w j1 h1).1
              · exact a5 f1 f2 x j1 j2 h1 h2
        · cases hs
          refine Dispatcher.Registered.keep_registry n d _ hall rfl rfl rfl ?_
          intro f' w j hfw
          rcases getElem?_set_cases _ _ _ _ _ hfw with ⟨_, e⟩ | ⟨_, hfw⟩
          · cases e
          · exact hfw
        · cases hs
      · cases hs
    | deliver f =>
      simp only [Dispatcher.deliver] at hs
      split at hs
      · rename_i w job hf
        split at hs
        · rename_i hw
          split at hs
          · rename_i st hst
            cases hs
            have hwbuf := (a4 f w job hf).1
            refine ⟨a1, a2, ?_, ?_, ?_⟩
            · intro x hx
              have hne : w ≠ x := fun e => hwbuf (e ▸ hx)
              exact ⟨(a3 x hx).1, Dispatcher.Parked.set_other d x w st (a3 x hx).2 hne⟩
            · intro f' x j hfw
              rcases getElem?_set_cases _ _ _ _ _ hfw with ⟨_, e⟩ | ⟨nf, hfw⟩
              · cases e
              · obtain ⟨b1, b2⟩ := a4 f' x j hfw
                have hne : w ≠ x := by
                  intro e
                  subst e
                  exact nf (a5 f' f w j job hfw hf)
                exact ⟨b1, Dispatcher.Parked.set_other d x w st b2 hne⟩
            · intro f1 f2 x j1 j2 h1 h2
              rcases getElem?_set_cases _ _ _ _ _ h1 with ⟨_, v1⟩ | ⟨_, h1⟩
              · cases v1
              · rcases getElem?_set_cases _ _ _ _ _ h2 with ⟨_, v2⟩ | ⟨_, h2⟩
                · cases v2
                · exact a5 f1 f2 x j1 j2 h1 h2
          · cases hs
            exact Dispatcher.Registered.keep_registry n d _ hall rfl rfl rfl
              (fun _ _ _ hfw => hfw)
        · cases hs
      · cases hs
    | register w =>
      simp only [Dispatcher.register] at hs
      split at hs
      · rename_i hw
        have hwlt : w < n := by
          have := lt_length_of_getElem?_some _ _ _ hw
          have := hsz.workers
          omega
        have notParked : ∀ x, d.Parked x → w ≠ x := fun x hx =>
          Dispatcher.Parked.ne_of d x w _ hx hw (by intro e; cases e) (by intro e; cases e)
        split at hs
        · rename_i pool hsend
          obtain ⟨_, _, rfl⟩ := Chan.send_sent _ _ _ hsend
          cases hs
          have hwbuf : w ∉ d.workerPool.buf := fun hmem => notParked w (a3 w hmem).2 rfl
          refine ⟨a1, ?_, ?_, ?_, a5⟩
          · show (d.workerPool.buf ++ [w]).Nodup
            rw [List.nodup_append]
            refine ⟨a2, by simp, ?_⟩
            intro x hx hx'
            simp only [List.mem_singleton] at hx'
            subst hx'
            exact hwbuf hx
          · intro x hx
            have hx' : x ∈ d.workerPool.buf ++ [w] := hx
            simp only [List.mem_append, List.mem_singleton] at hx'
            rcases hx' with hx' | hx'
            · exact ⟨(a3 x hx').1,
                Dispatcher.Parked.set_other d x w _ (a3 x hx').2 (notParked x (a3 x hx').2)⟩
            · subst hx'
              refine ⟨hwlt, Or.inl ?_⟩
              exact List.getElem?_set_self (lt_length_of_getElem?_some _ _ _ hw)
          · intro f x j hfw
            obtain ⟨b1, b2⟩ := a4 f x j hfw
            refine ⟨?_, Dispatcher.Parked.set_other d x w _ b2 (notParked x b2)⟩
            intro hx
            have hx' : x ∈ d.workerPool.buf ++ [w] := hx
            simp only [List.mem_append, List.mem_singleton] at hx'
            rcases hx' with hx' | hx'
            · exact b1 hx'
            · exact notParked x b2 hx'.symm
        · cases hs
        · cases hs
          exact Dispatcher.Registered.keep_registry n d _ hall rfl rfl rfl
            (fun _ _ _ hfw => hfw)
      · cases hs
    | procReturn w =>
      simp only [Dispatcher.procReturn] at hs
      split at hs
      · rename_i t j hw
        cases hs
        have notParked : ∀ x, d.Parked x → w ≠ x := fun x hx =>
          Dispatcher.Parked.ne_of d x w _ hx hw (by intro e; cases e) (by intro e; cases e)
        refine ⟨a1, a2, ?_, ?_, a5⟩
        · intro x hx
          exact ⟨(a3 x hx).1,
            Dispatcher.Parked.set_other d x w _ (a3 x hx).2 (notParked x (a3 x hx).2)⟩
        · intro f x j' hfw
          obtain ⟨b1, b2⟩ := a4 f x j' hfw
          exact ⟨b1, Dispatcher.Parked.set_other d x w _ b2 (notParked x b2)⟩
      · cases hs
    | procPanic w =>
      simp only [Dispatcher.procPanic] at hs
      split at hs
      · cases hs
        exact Dispatcher.Registered.keep_registry n d _ hall rfl rfl rfl
          (fun _ _ _ hfw => hfw)
      · cases hs
    | stop =>
      simp only [Dispatcher.Stop, Option.some.injEq] at hs
      subst hs
      split
      · rename_i pool hclose
        obtain ⟨_, rfl⟩ := Chan.close_some _ _ hclose
        exact Dispatcher.Registered.keep_registry n d _ hall rfl rfl rfl
          (fun _ _ _ hfw => hfw)
      · exact Dispatcher.Registered.keep_registry n d _ hall rfl rfl rfl
          (fun _ _ _ hfw => hfw)
    | quit w =>
      simp only [Dispatcher.quit] at hs
      split at hs
      · rename_i hw
        have hwlt := lt_length_of_getElem?_some _ _ _ hw
        have parked' : ∀ x, d.Parked x →
            (d.workers.set w .stopped)[x]? = some .waiting ∨
            (d.workers.set w .stopped)[x]? = some .stopped := by
          intro x hx
          by_cases e : w = x
          · subst e
            exact Or.inr (List.getElem?_set_self hwlt)
          · exact Dispatcher.Parked.set_other d x w _ hx e
        split at hs
        · cases hs
          refine ⟨a1, a2, ?_, ?_, a5⟩
          · intro x hx
            exact ⟨(a3 x hx).1, parked' x (a3 x hx).2⟩
          · intro f x j hfw
            obtain ⟨b1, b2⟩ := a4 f x j hfw
            exact ⟨b1, parked' x b2⟩
        · cases hs
      · cases hs

theorem Dispatcher.run_registered (n : Nat) : Dispatcher.Registered n (NewDispatcher n).Run := by
  refine ⟨rfl, ?_, ?_, ?_, ?_⟩
  · simp [Dispatcher.Run, NewDispatcher, Chan.make]
  · intro w hw
    simp [Dispatcher.Run, NewDispatcher, Chan.make] at hw
  · intro f w job hf
    simp [Dispatcher.Run, NewDispatcher] at hf
  · intro f f' w job job' hf
    simp [Dispatcher.Run, NewDispatcher] at hf

theorem Dispatcher.reachable_registered (n : Nat) (d : Dispatcher)
    (h : Dispatcher.Reachable n d) : Dispatcher.Registered n d := by
  obtain ⟨acts, hacts⟩ := h
  have := runActions_preserves Dispatcher.step
    (fun s => Dispatcher.Sized n s ∧ Dispatcher.Registered n s)
    (fun a s s' hs hstep =>
      ⟨Dispatcher.step_sized n a s s' hs.1 hstep,
        Dispatcher.step_registered n a s s' hs.1 hs.2 hstep⟩)
    acts _ d ⟨Dispatcher.run_sized n, Dispatcher.run_registered n⟩ hacts
  exact this.2

/-- C13: for a dispatcher built by NewDispatcher(n) on which Run was called once, in every
reachable state the registry holds at most n entries, each the channel of one of the n workers,
and none of them twice; hence the registration send of a worker never waits for space: it is
enabled whenever a worker stands at it. -/
theorem Dispatcher.registry_bounded_nodup (n : Nat) (d : Dispatcher)
    (h : Dispatcher.Reachable n d) :
    d.workerPool.buf.length ≤ n ∧ d.workerPool.buf.Nodup ∧
    (∀ w ∈ d.workerPool.buf, w < n) ∧
    (∀ w, d.workers[w]? = some .registering → d.crashed = false →
      d.workerPool.buf.length < d.workerPool.cap ∧
      d.workerPool.send w ≠ .blocked ∧ ∃ d', d.step (.register w) = some d') := by
  have hsz := Dispatcher.dispatcher_reachable_sized n d h
  obtain ⟨a1, a2, a3, a4, a5⟩ := Dispatcher.reachable_registered n d h
  have hlen : d.workerPool.buf.length ≤ n := by
    have hsub : d.workerPool.buf ⊆ List.range n := by
      intro x hx
      rw [List.mem_range]
      exact (a3 x hx).1
    have := (List.subperm_of_subset a2 hsub).length_le
    simpa using this
  refine ⟨hlen, a2, fun w hw => (a3 w hw).1, ?_⟩
  intro w hw hc
  have hwlt : w < n := by
    have := lt_length_of_getElem?_some _ _ _ hw
    have := hsz.workers
    omega
  have hwbuf : w ∉ d.workerPool.buf := by
    intro hmem
    exact Dispatcher.Parked.ne_of d w w _ (a3 w hmem).2 hw (by intro e; cases e)
      (by intro e; cases e) rfl
  have hroom : d.workerPool.buf.length < d.workerPool.cap := by
    rw [a1]
    exact nodup_length_lt _ n w a2 (fun x hx => (a3 x hx).1) hwlt hwbuf
  refine ⟨hroom, ?_, ?_⟩
  · simp only [Chan.send, hroom, if_true]
    split <;> (intro e; cases e)
  · cases hcl : d.workerPool.closed
    · refine ⟨{ d with workerPool := { d.workerPool with buf := d.workerPool.buf ++ [w] },
                       workers := d.workers.set w .waiting }, ?_⟩
      simp [Dispatcher.step, hc, Dispatcher.register, hw, Chan.send, hcl, hroom]
    · refine ⟨{ d with crashed := true }, ?_⟩
      simp [Dispatcher.step, hc, Dispatcher.register, hw, Chan.send, hcl]

theorem Dispatcher.sampleRegistering_reachable :
    Dispatcher.Reachable 2 Dispatcher.sampleRegistering :=
  ⟨[.register 0], by decide⟩

/-- Witness of C13 at a dispatcher with one worker registered and one about to register. -/
theorem Dispatcher.registry_bounded_nodup_witness :
    Dispatcher.sampleRegistering.workerPool.buf.length ≤ 2 ∧
    Dispatcher.sampleRegistering.workerPool.buf.Nodup ∧
    (∀ w ∈ Dispatcher.sampleRegistering.workerPool.buf, w < 2) ∧
    (∀ w, Dispatcher.sampleRegistering.workers[w]? = some .registering →
      Dispatcher.sampleRegistering.crashed = false →
      Dispatcher.sampleRegistering.workerPool.buf.length
        < Dispatcher.sampleRegistering.workerPool.cap ∧
      Dispatcher.sampleRegistering.workerPool.send w ≠ .blocked ∧
      ∃ d', Dispatcher.sampleRegistering.step (.register w) = some d') :=
  Dispatcher.registry_bounded_nodup 2 Dispatcher.sampleRegistering
    Dispatcher.sampleRegistering_reachable

/-! ## Shutdown called a second time -/

/-- A release keeps whether the waiter has closed the queue. -/
theorem QueueShutdown.release_past (sc : QueueShutdown) :
    sc.release.waiter.past = sc.waiter.past := by
  rcases QueueShutdown.release_cases sc with ⟨_, e⟩ | ⟨hw, e⟩
  · rw [e]
  · rw [e, hw]
    rfl

/-- Once the queue is closed, a waiter that has not closed it never gets past its close. -/
theorem TaskQueue.Moves.lateCall (k : Nat) (x : QueueAction) (t t' : TaskQueue)
    (hm : TaskQueue.Moves t x t') (h : t.LateCall k) : t'.LateCall k := by
  obtain ⟨hcl, sc, hk, hw⟩ := h
  have hklt := lt_length_of_getElem?_some _ _ _ hk
  cases hm with
  | addBegin job => exact ⟨hcl, sc, hk, hw⟩
  | addSend a job ha hc hlen => exact ⟨hcl, sc, hk, hw⟩
  | crash x => exact ⟨hcl, sc, hk, hw⟩
  | recvJob c ticket job rest hc hb => exact ⟨hcl, sc, hk, hw⟩
  | recvNil c ticket rest hc hb => exact ⟨hcl, sc, hk, hw⟩
  | recvZero c hc hb hcl' => exact ⟨hcl, sc, hk, hw⟩
  | quit c v rest hc hb => exact ⟨hcl, sc, hk, hw⟩
  | quitZero c hc hb hcl' => exact ⟨hcl, sc, hk, hw⟩
  | procReturn c ticket job hc => exact ⟨hcl, sc, hk, hw⟩
  | wgDone c n hc hn =>
    refine ⟨hcl, if n = 0 then sc.release else sc, ?_, ?_⟩
    · show (QueueShutdown.releaseAll n t.shutdowns)[k]? = _
      rw [QueueShutdown.getElem?_releaseAll, hk]
      rfl
    · split
      · rw [QueueShutdown.release_past]
        exact hw
      · exact hw
  | shutdown d =>
    refine ⟨hcl, sc, ?_, hw⟩
    show (t.shutdowns ++ [QueueShutdown.fresh d])[k]? = some sc
    rw [List.getElem?_append_left hklt]
    exact hk
  | record x k' sc1 sc2 hx hk' hrec =>
    by_cases e : k' = k
    · subst e
      rw [hk] at hk'
      cases hk'
      refine ⟨hcl, sc2, List.getElem?_set_self hklt, ?_⟩
      cases hrec with
      | expire => exact hw
      | wake _ _ => rfl
      | park _ _ => rfl
      | resume _ _ => rfl
      | signal i hq => rw [hq] at hw; cases hw
      | closeCh hq => rw [hq] at hw; cases hw
      | retNilGot v rest hr hb => exact hw
      | retNilZero hr hb hcl' => exact hw
      | retTimeout hr hd => exact hw
    · refine ⟨hcl, sc, ?_, hw⟩
      show (t.shutdowns.set k' sc2)[k]? = some sc
      rw [List.getElem?_set_ne e]
      exact hk
  | closeQueue k' sc1 hk' hq hopen =>
    rw [hcl] at hopen
    cases hopen
  | sendQuit k' sc1 i hk' hq hi hcl' hlen =>
    by_cases e : k' = k
    · subst e
      rw [hk] at hk'
      cases hk'
      rw [hq] at hw
      cases hw
    · refine ⟨hcl, sc, ?_, hw⟩
      show (t.shutdowns.set k' _)[k]? = some sc
      rw [List.getElem?_set_ne e]
      exact hk

/-- C14 as stated fails in one point: after a first Shutdown call on a queue of size 1 has
returned nil, a second call made with a context that is already done returns "timeout" before
its waiter has reached the close. -/
theorem TaskQueue.second_shutdown_counterexample :
    runActions TaskQueue.step
        [.shutdown false, .waiterStep 0, .waiterStep 0, .waiterStep 0, .waiterStep 0,
          .selectCh 0] (NewTaskQueue 1).Start = some TaskQueue.sampleShutDown ∧
    TaskQueue.sampleShutDown.resultOf 0 = some none ∧
    (runActions TaskQueue.step [.selectCtx 1] (TaskQueue.sampleShutDown.Shutdown true)).map
        (fun t => (t.resultOf 1, t.crashed)) = some (some (some "timeout"), false) := by
  decide

/-- C14 amended: on a started queue whose job queue is already closed and whose counter is
zero, a further Shutdown call is a fault: its waiter passes Wait and its `close(t.queue)`
panics (the schedule of these two steps ends in a crashed process); along every schedule the
waiter never gets past that close (it is at Wait or at the close), the call never returns
nil, it returns nothing while its context is not done, and whenever the waiter stands at the
close in a live process its next step terminates the process. -/
theorem TaskQueue.second_shutdown_faults (l : Nat) (t : TaskQueue) (d : Bool)
    (acts : List QueueAction) (t' : TaskQueue)
    (hreach : TaskQueue.Reachable l t) (hcl : t.queue.closed = true) (hz : t.wg = 0)
    (hc : t.crashed = false)
    (hrun : runActions TaskQueue.step acts (t.Shutdown d) = some t') :
    (∃ t2, runActions TaskQueue.step [.waiterStep t.nextCall, .waiterStep t.nextCall]
        (t.Shutdown d) = some t2 ∧ t2.crashed = true ∧ t2.resultOf t.nextCall = none) ∧
    (∃ sc, t'.shutdowns[t.nextCall]? = some sc ∧
      sc.waiter.past = false ∧ sc.result ≠ some none ∧
      (sc.ctxDone = false → sc.result = none) ∧
      (sc.waiter = .closing → t'.crashed = false →
        t'.step (.waiterStep t.nextCall) = some { t' with crashed := true })) := by
  constructor
  · simp [runActions, TaskQueue.step, TaskQueue.Shutdown, TaskQueue.waiterStep,
      TaskQueue.nextCall, TaskQueue.resultOf, QueueShutdown.fresh, hc, hz, hcl, Chan.close,
      set_concat_length]
  · have hstart : TaskQueue.Reachable l (t.Shutdown d) :=
      TaskQueue.Reachable.step_queue l (.shutdown d) t _ hreach (by simp [TaskQueue.step, hc])
    have hreach' := TaskQueue.Reachable.run_queue l acts _ t' hstart hrun
    have hlate0 : (t.Shutdown d).LateCall t.nextCall := by
      refine ⟨hcl, QueueShutdown.fresh d, ?_, rfl⟩
      simp [TaskQueue.Shutdown, TaskQueue.nextCall]
    obtain ⟨hcl', sc, hk, hw⟩ := runActions_preserves TaskQueue.step
      (TaskQueue.LateCall t.nextCall)
      (fun a s s' hs hstep =>
        TaskQueue.Moves.lateCall t.nextCall a s s' (TaskQueue.step_moves a s s' hstep) hs)
      acts _ t' hlate0 hrun
    obtain ⟨c1, c2, c3, c4⟩ := (TaskQueue.reachable_accounted l t' hreach').coherent _ sc hk
    have hnil : sc.result ≠ some none := by
      intro hr
      have := c2 hr
      cases hwt : sc.waiter <;> rw [hwt] at this hw <;>
        simp [QueueWaiter.past, QueueWaiter.signalled] at this hw
    refine ⟨sc, hk, hw, hnil, ?_, ?_⟩
    · intro hd
      rcases c4 with h | h | h
      · exact h
      · exact absurd h hnil
      · have := c3 h
        rw [hd] at this
        cases this
    · intro hwc hc'
      simp [TaskQueue.step, hc', TaskQueue.waiterStep, hk, hwc, Chan.close, hcl']

theorem TaskQueue.sampleShutDown_reachable : TaskQueue.Reachable 1 TaskQueue.sampleShutDown :=
  ⟨[.shutdown false, .waiterStep 0, .waiterStep 0, .waiterStep 0, .waiterStep 0, .selectCh 0],
    by decide⟩

/-- Witness of the amended C14: after the first call returned nil, a second call is made and
its waiter passes Wait. -/
theorem TaskQueue.second_shutdown_faults_witness :
    ∃ t2, runActions TaskQueue.step
        [.waiterStep TaskQueue.sampleShutDown.nextCall,
          .waiterStep TaskQueue.sampleShutDown.nextCall]
        (TaskQueue.sampleShutDown.Shutdown false) = some t2 ∧ t2.crashed = true ∧
      t2.resultOf TaskQueue.sampleShutDown.nextCall = none :=
  (TaskQueue.second_shutdown_faults 1 TaskQueue.sampleShutDown false [.waiterStep 1]
    { TaskQueue.sampleShutDown with
        shutdowns := [⟨.closingCh, ⟨1, [], false⟩, false, some none⟩,
          ⟨.closing, Chan.make Unit 1, false, none⟩] }
    TaskQueue.sampleShutDown_reachable (by decide) (by decide) (by decide) (by decide)).1

end Workerqueue

/-! ## `ip/ip.go`: MaskIP and IsInternalIP -/

namespace Ip

/-- A string without the separator is one field. -/
theorem split_of_not_mem (sep : Char) :
    ∀ s : List Char, sep ∉ s → split sep s = [s] := by
  intro s
  induction s with
  | nil => intro _; rfl
  | cons c cs ih =>
    intro h
    have hc : c ≠ sep := fun e => h (e ▸ List.mem_cons_self c cs)
    have hcs : sep ∉ cs := fun hm => h (List.mem_cons_of_mem c hm)
    simp only [split, hc, if_false, ih hcs]

/-- The first field ends at the first separator. -/
theorem split_append_sep (sep : Char) (rest : List Char) :
    ∀ s : List Char, sep ∉ s → split sep (s ++ sep :: rest) = s :: split sep rest := by
  intro s
  induction s with
  | nil => intro _; simp [split]
  | cons c cs ih =>
    intro h
    have hc : c ≠ sep := fun e => h (e ▸ List.mem_cons_self c cs)
    have hcs : sep ∉ cs := fun hm => h (List.mem_cons_of_mem c hm)
    have e := ih hcs
    simp only [List.cons_append, split, hc, if_false, List.append_eq, e]

set_option maxRecDepth 100000 in
theorem land_255 : ∀ a < 256, a &&& 255 = a := by decide

set_option maxRecDepth 100000 in
theorem land_240_eq_16 : ∀ b < 256, (b &&& 240 = 16 ↔ 16 ≤ b ∧ b ≤ 31) := by decide

/-- C15: for a string a.b.c.d of four fields without dots that `net.ParseIP` accepts as an
IPv4 address, MaskIP returns a.b.c.0; for a string that `net.ParseIP` rejects, MaskIP returns
its input. -/
theorem MaskIP_spec (parseIP : List Char → ParsedIP) (ip a b c d : List Char)
    (ha : '.' ∉ a) (hb : '.' ∉ b) (hc : '.' ∉ c) (hd : '.' ∉ d) :
    ((∃ w x y z, parseIP (a ++ '.' :: (b ++ '.' :: (c ++ '.' :: d))) = .v4 w x y z) →
      MaskIP parseIP (a ++ '.' :: (b ++ '.' :: (c ++ '.' :: d)))
        = a ++ '.' :: (b ++ '.' :: (c ++ ['.', '0']))) ∧
    (parseIP ip = .invalid → MaskIP parseIP ip = ip) := by
  constructor
  · rintro ⟨w, x, y, z, hp⟩
    simp only [MaskIP, hp, split_append_sep '.' _ a ha, split_append_sep '.' _ b hb,
      split_append_sep '.' _ c hc, split_of_not_mem '.' d hd]
    simp [setLast, join]
  · intro hp
    simp only [MaskIP, hp]

/-- Witness of C15 at "10.1.2.3" and at "hello", with the dotted-quad parser. -/
theorem MaskIP_spec_witness :
    MaskIP parseDottedQuad "10.1.2.3".toList = "10.1.2.0".toList ∧
    MaskIP parseDottedQuad "hello".toList = "hello".toList :=
  ⟨(MaskIP_spec parseDottedQuad "hello".toList "10".toList "1".toList "2".toList "3".toList
      (by decide) (by decide) (by decide) (by decide)).1 ⟨10, 1, 2, 3, by decide⟩,
    (MaskIP_spec parseDottedQuad "hello".toList "10".toList "1".toList "2".toList "3".toList
      (by decide) (by decide) (by decide) (by decide)).2 (by decide)⟩

/-- C16: let `net.ParseIP` accept "127.0.0.1". For a string parsed as the IPv4 address with
bytes a, b, c, d, IsInternalIP is true exactly when a = 10, or a = 172 and 16 <= b <= 31, or
a = 192 and b = 168, or the string is "127.0.0.1"; for a string that `net.ParseIP` rejects it
is false. -/
theorem IsInternalIP_spec (parseIP : List Char → ParsedIP) (ip : List Char)
    (hloop : parseIP loopback = .v4 127 0 0 1) :
    (∀ a b c d, parseIP ip = .v4 a b c d → a < 256 → b < 256 → c < 256 → d < 256 →
      (IsInternalIP parseIP ip = true ↔
        a = 10 ∨ (a = 172 ∧ 16 ≤ b ∧ b ≤ 31) ∨ (a = 192 ∧ b = 168) ∨ ip = loopback)) ∧
    (parseIP ip = .invalid → IsInternalIP parseIP ip = false) := by
  constructor
  · intro a b c d hp ha hb hc hd
    have e1 := land_255 a ha
    have e2 := land_255 b hb
    have e3 := land_240_eq_16 b hb
    simp only [IsInternalIP, hp, IPNet.Contains, private24BitBlock, private20BitBlock,
      private16BitBlock, List.zipWith, Bool.or_eq_true, decide_eq_true_eq, beq_iff_eq,
      List.cons.injEq, and_true, Nat.and_zero, e1, e2]
    have k1 : (10 : Nat) &&& 255 = 10 := by decide
    have k2 : (172 : Nat) &&& 255 = 172 := by decide
    have k3 : (16 : Nat) &&& 240 = 16 := by decide
    have k4 : (192 : Nat) &&& 255 = 192 := by decide
    have k5 : (168 : Nat) &&& 255 = 168 := by decide
    rw [k1, k2, k3, k4, k5]
    constructor
    · rintro (((h | ⟨h1, h2⟩) | ⟨h1, h2⟩) | h)
      · exact Or.inl h.symm
      · exact Or.inr (Or.inl ⟨h1.symm, e3.mp h2.symm⟩)
      · exact Or.inr (Or.inr (Or.inl ⟨h1.symm, h2.symm⟩))
      · exact Or.inr (Or.inr (Or.inr h))
    · rintro (h | ⟨h1, h2⟩ | ⟨h1, h2⟩ | h)
      · exact Or.inl (Or.inl (Or.inl h.symm))
      · exact Or.inl (Or.inl (Or.inr ⟨h1.symm, (e3.mpr h2).symm⟩))
      · exact Or.inl (Or.inr ⟨h1.symm, h2.symm⟩)
      · exact Or.inr h
  · intro hp
    have hne : ip ≠ loopback := by
      intro e
      rw [e, hloop] at hp
      cases hp
    simp [IsInternalIP, hp, IPNet.Contains, hne]

theorem parseDottedQuad_loopback : parseDottedQuad loopback = .v4 127 0 0 1 := by decide

/-- Witness of C16 at "172.20.2.3", with the dotted-quad parser. -/
theorem IsInternalIP_spec_witness :
    IsInternalIP parseDottedQuad "172.20.2.3".toList = true ↔
      172 = 10 ∨ (172 = 172 ∧ 16 ≤ 20 ∧ 20 ≤ 31) ∨ (172 = 192 ∧ 20 = 168) ∨
        "172.20.2.3".toList = loopback :=
  (IsInternalIP_spec parseDottedQuad "172.20.2.3".toList parseDottedQuad_loopback).1
    172 20 2 3 (by decide) (by decide) (by decide) (by decide) (by decide)

end Ip

namespace Workerqueue

end Workerqueue

/-! ## `cache/cache.go`: MultiClient.Get -/

namespace Cache

/-- Unmarshalling into the nil interface fails on every text. -/
theorem jsonUnmarshal_nilInterface {Value : Type} (decode : List Nat → Option Value)
    (data : List Nat) : ∃ err, jsonUnmarshal decode data .nilInterface = .error err := by
  unfold jsonUnmarshal
  cases decode data with
  | none => exact ⟨_, rfl⟩
  | some x => exact ⟨_, rfl⟩

/-- Whatever memcache holds, a key that is not in the in-memory cache is reported as not
found. -/
theorem MultiClient.Get_of_memory_miss {Value : Type} (decode : List Nat → Option Value)
    (cc : MultiClient Value) (key : String) (hmiss : cc.client (cc.getKeyName key) = none) :
    cc.Get decode key = (none, false) := by
  unfold MultiClient.Get
  simp only [hmiss]
  cases hmc : cc.mc (cc.getKeyName key) with
  | none => rfl
  | some item =>
    obtain ⟨err, herr⟩ := jsonUnmarshal_nilInterface decode item
    simp only [herr]

/-- C17 fails on the code: the key "k" is absent from the in-memory cache and memcache holds
the valid JSON text "1" under the prefixed key "app_k"; `Get` returns (nil, false), because
`json.Unmarshal` is handed the nil interface `cacheObj` instead of a pointer to it and returns
an error. `GetWithSet`, which hands over a pointer, returns the decoded value with true. -/
theorem MultiClient.Get_ignores_memcache :
    sampleClient.getKeyName "k" = "app_k" ∧
    sampleClient.client "app_k" = none ∧ sampleClient.mc "app_k" = some [49] ∧
    sampleDecode [49] = some 1 ∧
    jsonUnmarshal sampleDecode [49] .nilInterface = .error .invalidUnmarshalError ∧
    sampleClient.Get sampleDecode "k" = (none, false) ∧
    sampleClient.GetWithSet sampleDecode "k" .pointer = (some 1, true) :=
  ⟨by decide, by decide, by decide, by decide, rfl, by decide, by decide⟩

end Cache

/-! ## `models/bufferwriter.go`: BulkInsert -/

namespace Models

theorem BufferWriter.BulkInsert_counted {Doc : Type} (dbOk marshalOk : List Doc → Bool)
    (o : Bool) (s : BufferWriter Doc × Effects Doc) (h : s.1.Counted) :
    (BufferWriter.BulkInsert dbOk marshalOk o s).1.Counted := by
  unfold BufferWriter.BulkInsert
  simp only
  split
  · split <;> simp [BufferWriter.Counted]
  · exact h

theorem BufferWriter.InsertDocs_counted {Doc : Type} (dbOk marshalOk : List Doc → Bool)
    (d : Doc) (s : BufferWriter Doc × Effects Doc) (h : s.1.Counted) :
    (BufferWriter.InsertDocs dbOk marshalOk d s).1.Counted := by
  unfold BufferWriter.InsertDocs
  apply BufferWriter.BulkInsert_counted
  unfold BufferWriter.Counted at h ⊢
  simp only [List.length_append, List.length_singleton, h]
  push_cast
  rfl

/-- Below the threshold `InsertDocs` only appends. -/
theorem BufferWriter.insertAll_below {Doc : Type} (dbOk marshalOk : List Doc → Bool) :
    ∀ (ds : List Doc) (s : BufferWriter Doc × Effects Doc), s.1.Counted →
      s.1.Docs.length + ds.length ≤ 400 →
      BufferWriter.insertAll dbOk marshalOk ds s
        = ({ s.1 with Docs := s.1.Docs ++ ds, Count := s.1.Count + ds.length }, s.2) := by
  intro ds
  induction ds with
  | nil =>
    intro s _ _
    simp [BufferWriter.insertAll]
  | cons d ds ih =>
    intro s hc hlen
    simp only [List.length_cons] at hlen
    have hstep : BufferWriter.InsertDocs dbOk marshalOk d s
        = ({ s.1 with Docs := s.1.Docs ++ [d], Count := s.1.Count + 1 }, s.2) := by
      unfold BufferWriter.InsertDocs BufferWriter.BulkInsert
      unfold BufferWriter.Counted at hc
      have : ¬ (s.1.Count + 1 > maxBufferDocs) := by
        rw [hc]
        unfold maxBufferDocs
        omega
      simp [this]
    have hc' : (BufferWriter.InsertDocs dbOk marshalOk d s).1.Counted :=
      BufferWriter.InsertDocs_counted dbOk marshalOk d s hc
    simp only [BufferWriter.insertAll]
    rw [ih _ hc' (by rw [hstep]; simp only [List.length_append, List.length_singleton]; omega)]
    rw [hstep]
    simp only [List.append_assoc, List.singleton_append, List.length_cons, Nat.cast_add,
      Nat.cast_one]
    congr 2
    omega

theorem BufferWriter.insertAll_append {Doc : Type} (dbOk marshalOk : List Doc → Bool)
    (d : Doc) : ∀ (ds : List Doc) (s : BufferWriter Doc × Effects Doc),
      BufferWriter.insertAll dbOk marshalOk (ds ++ [d]) s
        = BufferWriter.InsertDocs dbOk marshalOk d (BufferWriter.insertAll dbOk marshalOk ds s) := by
  intro ds
  induction ds with
  | nil => intro s; rfl
  | cons x xs ih =>
    intro s
    simp only [List.cons_append, BufferWriter.insertAll, List.append_eq, ih]

/-- C18: for a writer whose Count is the number of its buffered Docs (as InsertDocs and
BulkInsert keep it), BulkInsert(false) flushes exactly when Count > 400: then all buffered
Docs go, in their order, to one call of the database insert and Docs is empty and Count 0
afterwards; with Count <= 400 the writer is unchanged and nothing is inserted. The order of
Docs is the order of insertion: a fresh writer holds the documents of up to 400 calls of
InsertDocs in the order of the calls, and the 401st call hands all 401 to one insert. -/
theorem BufferWriter.BulkInsert_false_spec {Doc : Type} (dbOk marshalOk : List Doc → Bool)
    (w : BufferWriter Doc) (e : Effects Doc) (hinv : w.Counted) :
    (w.Count > 400 →
      (BufferWriter.BulkInsert dbOk marshalOk false (w, e)).1
          = { w with Docs := [], Count := 0 } ∧
      (BufferWriter.BulkInsert dbOk marshalOk false (w, e)).2.inserted
          = e.inserted ++ [w.Docs]) ∧
    (w.Count ≤ 400 → BufferWriter.BulkInsert dbOk marshalOk false (w, e) = (w, e)) ∧
    (∀ ds : List Doc, ds.length ≤ 400 →
      (BufferWriter.insertAll dbOk marshalOk ds (NewBufferWriter Doc, e)).1.Docs = ds ∧
      (BufferWriter.insertAll dbOk marshalOk ds (NewBufferWriter Doc, e)).2 = e) ∧
    (∀ (ds : List Doc) (d : Doc), ds.length = 400 →
      (BufferWriter.insertAll dbOk marshalOk (ds ++ [d]) (NewBufferWriter Doc, e)).1.Docs = [] ∧
      (BufferWriter.insertAll dbOk marshalOk (ds ++ [d]) (NewBufferWriter Doc, e)).1.Count = 0 ∧
      (BufferWriter.insertAll dbOk marshalOk (ds ++ [d]) (NewBufferWriter Doc, e)).2.inserted
        = e.inserted ++ [ds ++ [d]]) := by
  have flush : ∀ (v : BufferWriter Doc) (f : Effects Doc), v.Counted → v.Count > 400 →
      (BufferWriter.BulkInsert dbOk marshalOk false (v, f)).1
          = { v with Docs := [], Count := 0 } ∧
      (BufferWriter.BulkInsert dbOk marshalOk false (v, f)).2.inserted
          = f.inserted ++ [v.Docs] := by
    intro v f hv hgt
    have hpos : v.Docs.length ≠ 0 := by
      unfold BufferWriter.Counted at hv
      intro h0
      rw [hv, h0] at hgt
      simp at hgt
    have hgt' : v.Count > maxBufferDocs := hgt
    unfold BufferWriter.BulkInsert BufferWriter.insertInDb BufferWriter.retryInsert
    simp only [Bool.false_or, decide_eq_true_eq, hgt', if_true, beq_iff_eq, hpos, if_false]
    refine ⟨trivial, ?_⟩
    split
    · rfl
    · split
      · rfl
      · split <;> rfl
  have fresh : (NewBufferWriter Doc).Counted := by
    simp [BufferWriter.Counted, NewBufferWriter]
  refine ⟨flush w e hinv, ?_, ?_, ?_⟩
  · intro hle
    have : ¬ (w.Count > maxBufferDocs) := by
      unfold maxBufferDocs
      omega
    unfold BufferWriter.BulkInsert
    simp [this]
  · intro ds hlen
    have := BufferWriter.insertAll_below dbOk marshalOk ds (NewBufferWriter Doc, e) fresh
      (by simpa [NewBufferWriter] using hlen)
    rw [this]
    simp [NewBufferWriter]
  · intro ds d hlen
    have hbelow := BufferWriter.insertAll_below dbOk marshalOk ds (NewBufferWriter Doc, e)
      fresh (by simp [NewBufferWriter, hlen])
    rw [BufferWriter.insertAll_append, hbelow]
    unfold BufferWriter.InsertDocs
    have hc : (BufferWriter.mk (([] : List Doc) ++ ds ++ [d]) ((0 : Int) + ds.length + 1)
        false).Counted := by
      simp [BufferWriter.Counted]
    have hg : (BufferWriter.mk (([] : List Doc) ++ ds ++ [d]) ((0 : Int) + ds.length + 1)
        false).Count > 400 := by
      simp [hlen]
    obtain ⟨f1, f2⟩ := flush _ e hc hg
    simp only [NewBufferWriter] at f1 f2 ⊢
    refine ⟨?_, ?_, ?_⟩
    · rw [f1]
    · rw [f1]
    · rw [f2]
      simp

theorem sampleFullWriter_counted : sampleFullWriter.Counted := by
  simp [BufferWriter.Counted, sampleFullWriter]

/-- Witness of C18 at a writer holding 401 documents. -/
theorem BufferWriter.BulkInsert_false_spec_witness :
    (BufferWriter.BulkInsert (fun _ => true) (fun _ => true) false
        (sampleFullWriter, ⟨[], []⟩)).1 = { sampleFullWriter with Docs := [], Count := 0 } ∧
    (BufferWriter.BulkInsert (fun _ => true) (fun _ => true) false
        (sampleFullWriter, ⟨[], []⟩)).2.inserted = [] ++ [sampleFullWriter.Docs] :=
  (BufferWriter.BulkInsert_false_spec (fun _ => true) (fun _ => true) sampleFullWriter
    ⟨[], []⟩ sampleFullWriter_counted).1 (by decide)

end Models

namespace Workerqueue

/-! ## `NewWorker` makes unbuffered channels -/

/-- C19 (counterexample): the job channel made by NewWorker has capacity 0, not 1, and a send
on it with no receiver waiting blocks; in the reachable state `sampleStoppedWorker` the
goroutine holding the channel of a stopped worker cannot hand over its job. -/
theorem NewWorker_capacity_counterexample :
    (NewWorker 0 (Chan.make Nat 1)).JobChannel.cap = 0 ∧
    (NewWorker 0 (Chan.make Nat 1)).JobChannel.cap ≠ 1 ∧
    (NewWorker 0 (Chan.make Nat 1)).JobChannel.send (some 6) = .blocked ∧
    runActions Dispatcher.step
        [.register 0, .dispatch (some 6), .forward 0, .forward 0, .stop, .quit 0]
        (NewDispatcher 1).Run = some Dispatcher.sampleStoppedWorker ∧
    Dispatcher.sampleStoppedWorker.step (.deliver 0) = none ∧
    Dispatcher.sampleStoppedWorker.step (.forward 0) = none := by
  decide

/-- C19 (amended): NewWorker creates the worker's job channel without a buffer (capacity 0,
empty, open), so a send on it with no receiver waiting blocks, and the send of a
sendJobToWorker goroutine completes only in a state in which the worker of that channel
stands at its select. -/
theorem NewWorker_unbuffered (id : Nat) (pool : Chan Nat) (job : Option Job) :
    (NewWorker id pool).JobChannel = Chan.make (Option Job) 0 ∧
    (NewWorker id pool).JobChannel.cap = 0 ∧
    (NewWorker id pool).JobChannel.send job = .blocked ∧
    ∀ (d d' : Dispatcher) (f : Nat), d.step (.deliver f) = some d' →
      ∃ w j, d.forwarders[f]? = some (.sending (some w) j) ∧
        d.workers[w]? = some .waiting := by
  refine ⟨rfl, rfl, rfl, ?_⟩
  intro d d' f hs
  unfold Dispatcher.step at hs
  split at hs
  · cases hs
  · simp only [Dispatcher.deliver] at hs
    split at hs
    · rename_i w j hf
      split at hs
      · rename_i hw
        exact ⟨w, j, hf, hw⟩
      · cases hs
    · cases hs

/-- Witness of C19 at the dispatcher `sampleHalfBusy`. -/
theorem NewWorker_unbuffered_witness :
    ∃ w j, Dispatcher.sampleHalfBusy.forwarders[1]? = some (.sending (some w) j) ∧
      Dispatcher.sampleHalfBusy.workers[w]? = some .waiting :=
  (NewWorker_unbuffered 0 (Chan.make Nat 2) (some 6)).2.2.2 Dispatcher.sampleHalfBusy
    { Dispatcher.sampleHalfBusy with
        workers := [.busy 0 5, .busy 1 6], forwarders := [.finished, .finished],
        forwards := [(0, 0), (1, 1)], processed := [(0, 0), (1, 1)] } 1 (by decide)

/-! ## Dispatch goroutines after `Stop` -/

theorem Dispatcher.Orphaned.keep_orphan (f : Nat) (job : Job) (d d' : Dispatcher)
    (h : d.Orphaned f job) (hp : d'.workerPool = d.workerPool)
    (hf : ∀ x, x ≠ .finished → (∀ w j, x ≠ .sending (some w) j) →
      d.forwarders[f]? = some x → d'.forwarders[f]? = some x) : d'.Orphaned f job := by
  obtain ⟨h1, h2, h3⟩ := h
  refine ⟨by rw [hp]; exact h1, by rw [hp]; exact h2, ?_⟩
  rcases h3 with h3 | h3 | h3
  · exact Or.inl (hf _ (by intro c; cases c) (by intro w j c; cases c) h3)
  · exact Or.inr (Or.inl (hf _ (by intro c; cases c) (by intro w j c; cases c) h3))
  · exact Or.inr (Or.inr (hf _ (by intro c; cases c) (by intro w j c; cases c) h3))

/-- A step of goroutine `f` itself keeps it orphaned and raises no fault. -/
theorem Dispatcher.Orphaned.forward_self (f : Nat) (job : Job) (d d' : Dispatcher)
    (h : d.Orphaned f job) (hs : d.sendJobToWorker f = some d') :
    d'.workerPool = d.workerPool ∧ d'.crashed = d.crashed ∧
    (d'.forwarders[f]? = some (.pulling (some job)) ∨
     d'.forwarders[f]? = some (.sending none (some job))) := by
  obtain ⟨h1, h2, h3⟩ := h
  have hrecv : d.workerPool.recv = .zero := by
    simp [Chan.recv, h1, h2]
  rcases h3 with h3 | h3 | h3
  · have hlt := lt_length_of_getElem?_some _ _ _ h3
    simp only [Dispatcher.sendJobToWorker, h3] at hs
    cases hs
    exact ⟨rfl, rfl, Or.inl (List.getElem?_set_self hlt)⟩
  · have hlt := lt_length_of_getElem?_some _ _ _ h3
    simp only [Dispatcher.sendJobToWorker, h3, hrecv] at hs
    cases hs
    exact ⟨rfl, rfl, Or.inr (List.getElem?_set_self hlt)⟩
  · simp only [Dispatcher.sendJobToWorker, h3] at hs
    cases hs

theorem Dispatcher.step_orphaned (f : Nat) (job : Job) (a : DispatcherAction)
    (d d' : Dispatcher) (h : d.Orphaned f job) (hs : d.step a = some d') :
    d'.Orphaned f job := by
  have hall := h
  obtain ⟨h1, h2, h3⟩ := h
  have hrecv : d.workerPool.recv = .zero := by
    simp [Chan.recv, h1, h2]
  have hsend : ∀ w, d.workerPool.send w = .fault := by
    intro w
    simp [Chan.send, h1]
  have hclose : d.workerPool.close = none := by
    simp [Chan.close, h1]
  unfold Dispatcher.step at hs
  split at hs
  · cases hs
  · cases a with
    | dispatch j =>
      simp only [Dispatcher.dispatch] at hs
      split at hs
      · cases hs
        refine Dispatcher.Orphaned.keep_orphan f job d _ hall rfl ?_
        intro x _ _ hx
        show (d.forwarders ++ [Forwarder.checking j])[f]? = some x
        rw [List.getElem?_append_left (lt_length_of_getElem?_some _ _ _ hx)]
        exact hx
      · cases hs
    | forward g =>
      by_cases e : g = f
      · subst e
        obtain ⟨hp, _, hf⟩ := Dispatcher.Orphaned.forward_self g job d d' hall hs
        refine ⟨by rw [hp]; exact h1, by rw [hp]; exact h2, Or.inr hf⟩
      · simp only [Dispatcher.sendJobToWorker] at hs
        split at hs
        · cases hs
          refine Dispatcher.Orphaned.keep_orphan f job d _ hall rfl ?_
          intro x _ _ hx
          show (d.forwarders.set g Forwarder.finished)[f]? = some x
          rw [List.getElem?_set_ne e]
          exact hx
        · rename_i j _
          cases hs
          refine Dispatcher.Orphaned.keep_orphan f job d _ hall rfl ?_
          intro x _ _ hx
          show (d.forwarders.set g (Forwarder.pulling (some j)))[f]? = some x
          rw [List.getElem?_set_ne e]
          exact hx
        · rename_i j _
          rw [hrecv] at hs
          cases hs
          refine Dispatcher.Orphaned.keep_orphan f job d _ hall rfl ?_
          intro x _ _ hx
          show (d.forwarders.set g (Forwarder.sending none j))[f]? = some x
          rw [List.getElem?_set_ne e]
          exact hx
        · cases hs
    | deliver g =>
      simp only [Dispatcher.deliver] at hs
      split at hs
      · rename_i w j hg
        split at hs
        · split at hs
          · cases hs
            refine Dispatcher.Orphaned.keep_orphan f job d _ hall rfl ?_
            intro x _ hx2 hx
            show (d.forwarders.set g Forwarder.finished)[f]? = some x
            refine getElem?_set_keep _ _ _ _ _ hx ?_
            rw [hg]
            intro c
            exact hx2 w j (Option.some.inj c).symm
          · cases hs
            exact Dispatcher.Orphaned.keep_orphan f job d _ hall rfl (fun x _ _ hx => hx)
        · cases hs
      · cases hs
    | register w =>
      simp only [Dispatcher.register] at hs
      split at hs
      · rw [hsend] at hs
        cases hs
        exact Dispatcher.Orphaned.keep_orphan f job d _ hall rfl (fun x _ _ hx => hx)
      · cases hs
    | procReturn w =>
      simp only [Dispatcher.procReturn] at hs
      split at hs
      · cases hs
        exact Dispatcher.Orphaned.keep_orphan f job d _ hall rfl (fun x _ _ hx => hx)
      · cases hs
    | procPanic w =>
      simp only [Dispatcher.procPanic] at hs
      split at hs
      · cases hs
        exact Dispatcher.Orphaned.keep_orphan f job d _ hall rfl (fun x _ _ hx => hx)
      · cases hs
    | stop =>
      simp only [Dispatcher.Stop, hclose, Option.some.injEq] at hs
      cases hs
      exact Dispatcher.Orphaned.keep_orphan f job d _ hall rfl (fun x _ _ hx => hx)
    | quit w =>
      simp only [Dispatcher.quit] at hs
      split at hs
      · split at hs
        · cases hs
          exact Dispatcher.Orphaned.keep_orphan f job d _ hall rfl (fun x _ _ hx => hx)
        · cases hs
      · cases hs

/-- C20: in a reachable live state in which the registry is closed and holds no entries, a
goroutine sendJobToWorker(job) with a non-nil job that has not yet pulled from the registry
reaches its send with the nil channel in its own (at most two) steps, without a fault; and
however the program goes on, the goroutine never returns, its send never completes, no step
of it raises a fault, once at the send it has no step at all, and the job is never
processed. -/
theorem Dispatcher.sendJobToWorker_after_stop (n : Nat) (d : Dispatcher) (f : Nat) (job : Job)
    (hr : Dispatcher.Reachable n d) (hclosed : d.workerPool.closed = true)
    (hempty : d.workerPool.buf = []) (hlive : d.crashed = false)
    (hf : d.forwarders[f]? = some (.checking (some job)) ∨
      d.forwarders[f]? = some (.pulling (some job))) :
    (∃ k d2, k ≤ 2 ∧
      runActions Dispatcher.step (List.replicate k (.forward f)) d = some d2 ∧
      d2.forwarders[f]? = some (.sending none (some job)) ∧ d2.crashed = false) ∧
    ∀ acts d', runActions Dispatcher.step acts d = some d' →
      (d'.forwarders[f]? = some (.checking (some job)) ∨
        d'.forwarders[f]? = some (.pulling (some job)) ∨
        d'.forwarders[f]? = some (.sending none (some job))) ∧
      d'.step (.deliver f) = none ∧
      (∀ w, (w, f) ∉ d'.processed) ∧
      (∀ d'', d'.step (.forward f) = some d'' → d''.crashed = false) ∧
      (d'.forwarders[f]? = some (.sending none (some job)) →
        d'.step (.forward f) = none) := by
  have horph : d.Orphaned f job := by
    refine ⟨hclosed, hempty, ?_⟩
    rcases hf with hf | hf
    · exact Or.inl hf
    · exact Or.inr (Or.inl hf)
  have hrecv : d.workerPool.recv = .zero := by
    simp [Chan.recv, hclosed, hempty]
  constructor
  · rcases hf with hf | hf
    · have hlt := lt_length_of_getElem?_some _ _ _ hf
      refine ⟨2, { d with forwarders :=
        ((d.forwarders.set f (.pulling (some job))).set f (.sending none (some job))) },
        le_refl 2, ?_, ?_, ?_⟩
      · simp only [List.replicate, runActions, Dispatcher.step, hlive, Bool.false_eq_true,
          if_false, Dispatcher.sendJobToWorker, hf, List.getElem?_set_self hlt, hrecv]
      · simp [List.getElem?_set_self, hlt]
      · exact hlive
    · have hlt := lt_length_of_getElem?_some _ _ _ hf
      refine ⟨1, { d with forwarders := d.forwarders.set f (.sending none (some job)) },
        by decide, ?_, ?_, ?_⟩
      · simp only [List.replicate, runActions, Dispatcher.step, hlive, Bool.false_eq_true,
          if_false, Dispatcher.sendJobToWorker, hf, hrecv]
      · simp [List.getElem?_set_self, hlt]
      · exact hlive
  · intro acts d' hrun
    have ho : d'.Orphaned f job :=
      runActions_preserves Dispatcher.step (Dispatcher.Orphaned f job)
        (Dispatcher.step_orphaned f job) acts d d' horph hrun
    have hr' : Dispatcher.Reachable n d' := by
      obtain ⟨pre, hpre⟩ := hr
      exact ⟨pre ++ acts, runActions_append Dispatcher.step pre acts _ d d' hpre hrun⟩
    have ht := Dispatcher.dispatcher_reachable_ticketed n d' hr'
    obtain ⟨o1, o2, o3⟩ := ho
    refine ⟨o3, ?_, ?_, ?_, ?_⟩
    · unfold Dispatcher.step
      split
      · rfl
      · simp only [Dispatcher.deliver]
        rcases o3 with o3 | o3 | o3 <;> rw [o3]
    · intro w hw
      rw [ht.mirror, List.mem_map] at hw
      obtain ⟨e, he, hsw⟩ := hw
      have hfin := ht.done e he
      have e1 : e.1 = f := by
        have := congrArg Prod.snd hsw
        simpa using this
      rw [e1] at hfin
      rcases o3 with o3 | o3 | o3 <;> (rw [o3] at hfin; cases hfin)
    · intro d'' hs
      unfold Dispatcher.step at hs
      split at hs
      · cases hs
      · rename_i hc
        obtain ⟨_, hcr, _⟩ :=
          Dispatcher.Orphaned.forward_self f job d' d'' ⟨o1, o2, o3⟩ hs
        rw [hcr]
        simpa using hc
    · intro hsend
      unfold Dispatcher.step
      split
      · rfl
      · simp only [Dispatcher.sendJobToWorker, hsend]

theorem Dispatcher.sampleStopped_reachable : Dispatcher.Reachable 1 Dispatcher.sampleStopped :=
  ⟨[.stop, .dispatch (some 7)], by decide⟩

/-- Witness of C20 at the dispatcher `sampleStopped`, followed after a second job. -/
theorem Dispatcher.sendJobToWorker_after_stop_witness :
    (∃ k d2, k ≤ 2 ∧
      runActions Dispatcher.step (List.replicate k (.forward 0)) Dispatcher.sampleStopped
        = some d2 ∧
      d2.forwarders[0]? = some (.sending none (some 7)) ∧ d2.crashed = false) ∧
    ∀ acts d', runActions Dispatcher.step acts Dispatcher.sampleStopped = some d' →
      (d'.forwarders[0]? = some (.checking (some 7)) ∨
        d'.forwarders[0]? = some (.pulling (some 7)) ∨
        d'.forwarders[0]? = some (.sending none (some 7))) ∧
      d'.step (.deliver 0) = none ∧
      (∀ w, (w, 0) ∉ d'.processed) ∧
      (∀ d'', d'.step (.forward 0) = some d'' → d''.crashed = false) ∧
      (d'.forwarders[0]? = some (.sending none (some 7)) →
        d'.step (.forward 0) = none) :=
  Dispatcher.sendJobToWorker_after_stop 1 Dispatcher.sampleStopped 0 7
    Dispatcher.sampleStopped_reachable (by decide) (by decide) (by decide)
    (Or.inl (by decide))

/-! ## AddJob and the queue buffer -/

/-- AddJob calls made one after the other complete while the buffer has room. -/
theorem TaskQueue.run_submitSchedule :
    ∀ (jobs : List (Option Job)) (t : TaskQueue) (first : Nat), first = t.adders.length →
      t.crashed = false → t.queue.closed = false →
      t.queue.buf.length + jobs.length ≤ t.queue.cap →
      ∃ t', runActions TaskQueue.step (TaskQueue.submitSchedule first jobs) t = some t' ∧
        t'.crashed = false ∧ t'.wg = t.wg + jobs.length ∧ t'.consumers = t.consumers ∧
        t'.queue.buf.length = t.queue.buf.length + jobs.length ∧
        t'.adders = t.adders ++ List.replicate jobs.length .returned := by
  intro jobs
  induction jobs with
  | nil =>
    intro t first _ hc _ _
    exact ⟨t, rfl, hc, rfl, rfl, rfl, by simp⟩
  | cons job rest ih =>
    intro t first hfirst hc hopen hroom
    subst hfirst
    simp only [List.length_cons] at hroom
    have hlt : t.queue.buf.length < t.queue.cap := by omega
    have h1 : t.step (.addBegin job) = some (t.addBegin job) := by
      simp [TaskQueue.step, hc]
    have h2 : (t.addBegin job).step (.addSend t.adders.length) = some
        { t with wg := t.wg + 1,
                 queue := { t.queue with buf := t.queue.buf ++ [(t.adders.length, job)] },
                 adders := t.adders ++ [.returned] } := by
      simp [TaskQueue.step, TaskQueue.addBegin, hc, TaskQueue.addSend, Chan.send, hopen, hlt,
        set_concat_length]
    obtain ⟨t', hrun, r1, r2, r3, r4, r5⟩ := ih
      { t with wg := t.wg + 1,
               queue := { t.queue with buf := t.queue.buf ++ [(t.adders.length, job)] },
               adders := t.adders ++ [.returned] }
      (t.adders.length + 1) (by simp) hc hopen
      (by
        show (t.queue.buf ++ [(t.adders.length, job)]).length + rest.length ≤ t.queue.cap
        simp only [List.length_append, List.length_singleton]
        omega)
    have r2' : t'.wg = t.wg + 1 + rest.length := r2
    have r4' : t'.queue.buf.length
        = (t.queue.buf ++ [(t.adders.length, job)]).length + rest.length := r4
    have r5' : t'.adders = (t.adders ++ [.returned]) ++ List.replicate rest.length .returned :=
      r5
    refine ⟨t', ?_, r1, ?_, r3, ?_, ?_⟩
    · simp only [TaskQueue.submitSchedule, runActions, h1, h2]
      exact hrun
    · rw [r2']
      simp only [List.length_cons]
      omega
    · rw [r4']
      simp only [List.length_append, List.length_cons, List.length_nil]
      omega
    · rw [r5']
      simp [List.replicate_succ]

/-- The schedule `occupySchedule k` takes a fresh started queue of size `l >= k` to the state
with `k` jobs inside Process. -/
theorem TaskQueue.run_occupySchedule (l : Nat) :
    ∀ k, k ≤ l →
      runActions TaskQueue.step (TaskQueue.occupySchedule k) (NewTaskQueue l).Start
        = some (TaskQueue.occupied l k) := by
  intro k
  induction k with
  | zero =>
    intro _
    simp [TaskQueue.occupySchedule, runActions, TaskQueue.occupied, NewTaskQueue,
      TaskQueue.Start, Chan.make]
  | succ k ih =>
    intro hk
    have hkl : k < l := by omega
    refine runActions_append TaskQueue.step _ _ _ _ _ (ih (by omega)) ?_
    have hidle : ((List.range k).map (fun i => Consumer.running i i) ++
        List.replicate (l - k) Consumer.idle)[k]? = some .idle := by
      rw [List.getElem?_append_right (by simp)]
      simp only [List.length_map, List.length_range, Nat.sub_self]
      have : l - k = (l - k - 1) + 1 := by omega
      rw [this, List.replicate_succ]
      simp
    have hset : ((List.range k).map (fun i => Consumer.running i i) ++
        List.replicate (l - k) Consumer.idle).set k (.running k k)
        = (List.range (k + 1)).map (fun i => Consumer.running i i) ++
          List.replicate (l - (k + 1)) Consumer.idle := by
      have e : l - k = (l - (k + 1)) + 1 := by omega
      rw [e, List.replicate_succ, List.range_succ, List.map_append, List.append_assoc]
      have hlen : ((List.range k).map (fun i => Consumer.running i i)).length = k := by simp
      generalize (List.range k).map (fun i => Consumer.running i i) = xs at hlen
      subst hlen
      induction xs with
      | nil => rfl
      | cons x xs ihx => simp [ihx]
    have hadd : (List.replicate k Adder.returned ++ [Adder.sending (some k)])[k]?
        = some (.sending (some k)) := by
      rw [List.getElem?_append_right (by simp)]
      simp
    have haset : (List.replicate k Adder.returned ++ [Adder.sending (some k)]).set k .returned
        = List.replicate (k + 1) .returned := by
      have := set_concat_length (List.replicate k Adder.returned) (.sending (some k)) .returned
      simp only [List.length_replicate] at this
      rw [this, List.replicate_succ']
    simp only [runActions, TaskQueue.step, TaskQueue.occupied, TaskQueue.addBegin,
      Bool.false_eq_true, if_false, TaskQueue.addSend, hadd, Chan.send, List.length_nil, hkl,
      Nat.zero_lt_of_lt hkl, if_true, List.nil_append, TaskQueue.recv, hidle, Chan.recv, haset,
      hset, List.range_succ, List.map_append, List.map_cons, List.map_nil]

/-- Every consumer of the state `occupied l l` is inside Process. -/
theorem TaskQueue.occupied_executing (l : Nat) : (TaskQueue.occupied l l).executing = l := by
  simp only [TaskQueue.executing, TaskQueue.occupied, Nat.sub_self, List.replicate_zero,
    List.append_nil]
  have : ∀ xs : List Nat,
      List.countP Consumer.isRunning (xs.map (fun i => Consumer.running i i)) = xs.length := by
    intro xs
    induction xs with
    | nil => rfl
    | cons x xs ih => simp [List.countP_cons, ih, Consumer.isRunning]
  rw [this, List.length_range]

/-- C21: on a started queue of size l that is alive and whose job queue has not been
closed by a Shutdown, the send of an AddJob call standing at it completes (the call returns,
nothing faults, the executing jobs are untouched) exactly when fewer than l jobs sit in the
buffer, and is blocked otherwise, whatever the number of executing jobs; hence with l jobs
executing and an empty buffer, l further AddJob calls complete one after the other, raising
the counter by l; and such a state with counter l is reachable, so that the counter reaches
2l with l jobs executing and l jobs buffered. -/
theorem TaskQueue.addJob_send_iff_buffer_room (l : Nat) (t : TaskQueue) (a : Nat)
    (job : Option Job) (hreach : TaskQueue.Reachable l t)
    (hlive : t.crashed = false) (hopen : t.queue.closed = false)
    (hadd : t.adders[a]? = some (.sending job)) :
    ((∃ t', t.step (.addSend a) = some t' ∧ t'.adders[a]? = some .returned ∧
        t'.crashed = false ∧ t'.consumers = t.consumers ∧ t'.executing = t.executing) ↔
      t.queue.buf.length < l) ∧
    (l ≤ t.queue.buf.length → t.step (.addSend a) = none) ∧
    (∀ jobs : List (Option Job), t.queue.buf = [] → t.executing = l → jobs.length = l →
      ∃ t2, runActions TaskQueue.step (TaskQueue.submitSchedule t.adders.length jobs) t
          = some t2 ∧
        t2.crashed = false ∧ t2.wg = t.wg + l ∧ t2.executing = l ∧
        t2.queue.buf.length = l ∧
        t2.adders = t.adders ++ List.replicate l .returned) ∧
    (∃ t0 t2, TaskQueue.Reachable l t0 ∧ t0.executing = l ∧ t0.queue.buf = [] ∧ t0.wg = l ∧
      runActions TaskQueue.step
          (TaskQueue.submitSchedule t0.adders.length (List.replicate l (some 0))) t0
        = some t2 ∧
      TaskQueue.Reachable l t2 ∧ t2.crashed = false ∧ t2.wg = 2 * l ∧ t2.executing = l ∧
      t2.queue.buf.length = l) := by
  have hsz := TaskQueue.queue_reachable_sized l t hreach
  have hlt := lt_length_of_getElem?_some _ _ _ hadd
  have hstep : t.step (.addSend a) =
      if t.queue.buf.length < l then
        some { t with queue := { t.queue with buf := t.queue.buf ++ [(a, job)] },
                      adders := t.adders.set a .returned }
      else none := by
    by_cases hroom : t.queue.buf.length < l
    · simp [TaskQueue.step, hlive, TaskQueue.addSend, hadd, Chan.send, hopen, hsz.queueCap,
        hroom]
    · simp [TaskQueue.step, hlive, TaskQueue.addSend, hadd, Chan.send, hopen, hsz.queueCap,
        hroom]
  refine ⟨?_, ?_, ?_, ?_⟩
  · constructor
    · rintro ⟨t', ht', _⟩
      rw [hstep] at ht'
      by_contra hn
      rw [if_neg hn] at ht'
      cases ht'
    · intro hroom
      rw [hstep, if_pos hroom]
      exact ⟨_, rfl, List.getElem?_set_self hlt, hlive, rfl, rfl⟩
  · intro hfull
    rw [hstep, if_neg (by omega)]
  · intro jobs hbuf hexec hlen
    obtain ⟨t2, hrun, r1, r2, r3, r4, r5⟩ := TaskQueue.run_submitSchedule jobs t
      t.adders.length rfl hlive hopen (by rw [hbuf, hsz.queueCap, hlen]; simp)
    refine ⟨t2, hrun, r1, ?_, ?_, ?_, ?_⟩
    · rw [r2, hlen]
    · unfold TaskQueue.executing at hexec ⊢
      rw [r3]
      exact hexec
    · rw [r4, hbuf, hlen]
      simp
    · rw [r5, hlen]
  · have hocc : TaskQueue.Reachable l (TaskQueue.occupied l l) :=
      ⟨TaskQueue.occupySchedule l, TaskQueue.run_occupySchedule l l (le_refl l)⟩
    obtain ⟨t2, hrun, r1, r2, r3, r4, _⟩ := TaskQueue.run_submitSchedule
      (List.replicate l (some 0)) (TaskQueue.occupied l l)
      (TaskQueue.occupied l l).adders.length rfl rfl rfl
      (by simp [TaskQueue.occupied])
    refine ⟨TaskQueue.occupied l l, t2, hocc, TaskQueue.occupied_executing l, rfl, rfl, hrun,
      TaskQueue.Reachable.run_queue l _ _ t2 hocc hrun, r1, ?_, ?_, ?_⟩
    · rw [r2]
      simp only [TaskQueue.occupied, List.length_replicate]
      omega
    · have := TaskQueue.occupied_executing l
      unfold TaskQueue.executing at this ⊢
      rw [r3]
      exact this
    · rw [r4]
      simp [TaskQueue.occupied]

/-- Witness of C21 at the queue of size 1 whose consumer is inside Process while a second
AddJob call stands at its send. -/
theorem TaskQueue.addJob_send_iff_buffer_room_witness :
    TaskQueue.sampleOneRunning.executing = 1 ∧
    ((∃ t', TaskQueue.sampleOneRunning.step (.addSend 1) = some t' ∧
        t'.adders[1]? = some .returned ∧ t'.crashed = false ∧
        t'.consumers = TaskQueue.sampleOneRunning.consumers ∧
        t'.executing = TaskQueue.sampleOneRunning.executing) ↔
      TaskQueue.sampleOneRunning.queue.buf.length < 1) :=
  ⟨by decide,
    (TaskQueue.addJob_send_iff_buffer_room 1 TaskQueue.sampleOneRunning 1 (some 8)
      ⟨[.addBegin (some 7), .addSend 0, .recv 0, .addBegin (some 8)], by decide⟩
      (by decide) (by decide) (by decide)).1⟩

/-! ## The waiter of a Shutdown call that timed out -/

/-- The value a Shutdown call returned does not change afterwards. -/
theorem TaskQueue.Moves.timedOut (k : Nat) (x : QueueAction) (t t' : TaskQueue)
    (hm : TaskQueue.Moves t x t') (h : t.TimedOut k) : t'.TimedOut k := by
  obtain ⟨sc, hk, hres⟩ := h
  have hklt := lt_length_of_getElem?_some _ _ _ hk
  cases hm with
  | addBegin job => exact ⟨sc, hk, hres⟩
  | addSend a job ha hc hlen => exact ⟨sc, hk, hres⟩
  | crash x => exact ⟨sc, hk, hres⟩
  | recvJob c ticket job rest hc hb => exact ⟨sc, hk, hres⟩
  | recvNil c ticket rest hc hb => exact ⟨sc, hk, hres⟩
  | recvZero c hc hb hcl' => exact ⟨sc, hk, hres⟩
  | quit c v rest hc hb => exact ⟨sc, hk, hres⟩
  | quitZero c hc hb hcl' => exact ⟨sc, hk, hres⟩
  | procReturn c ticket job hc => exact ⟨sc, hk, hres⟩
  | wgDone c n hc hn =>
    refine ⟨if n = 0 then sc.release else sc, ?_, ?_⟩
    · show (QueueShutdown.releaseAll n t.shutdowns)[k]? = _
      rw [QueueShutdown.getElem?_releaseAll, hk]
      rfl
    · split
      · rcases QueueShutdown.release_cases sc with ⟨_, e⟩ | ⟨_, e⟩ <;> rw [e] <;> exact hres
      · exact hres
  | shutdown d =>
    refine ⟨sc, ?_, hres⟩
    show (t.shutdowns ++ [QueueShutdown.fresh d])[k]? = some sc
    rw [List.getElem?_append_left hklt]
    exact hk
  | record x k' sc1 sc2 hx hk' hrec =>
    by_cases e : k' = k
    · subst e
      rw [hk] at hk'
      cases hk'
      refine ⟨sc2, List.getElem?_set_self hklt, ?_⟩
      cases hrec with
      | expire => exact hres
      | wake _ _ => exact hres
      | park _ _ => exact hres
      | resume _ _ => exact hres
      | signal i hq => exact hres
      | closeCh hq => exact hres
      | retNilGot v rest hr hb => rw [hres] at hr; cases hr
      | retNilZero hr hb hcl' => rw [hres] at hr; cases hr
      | retTimeout hr hd => rfl
    · refine ⟨sc, ?_, hres⟩
      show (t.shutdowns.set k' sc2)[k]? = some sc
      rw [List.getElem?_set_ne e]
      exact hk
  | closeQueue k' sc1 hk' hq hopen =>
    by_cases e : k' = k
    · subst e
      rw [hk] at hk'
      cases hk'
      exact ⟨_, List.getElem?_set_self hklt, hres⟩
    · refine ⟨sc, ?_, hres⟩
      show (t.shutdowns.set k' _)[k]? = some sc
      rw [List.getElem?_set_ne e]
      exact hk
  | sendQuit k' sc1 i hk' hq hi hcl' hlen =>
    by_cases e : k' = k
    · subst e
      rw [hk] at hk'
      cases hk'
      exact ⟨_, List.getElem?_set_self hklt, hres⟩
    · refine ⟨sc, ?_, hres⟩
      show (t.shutdowns.set k' _)[k]? = some sc
      rw [List.getElem?_set_ne e]
      exact hk

/-- From a state whose counter is zero and whose queue is open, the waiter of a Shutdown call
that stands at Wait closes the queue and sends all its quit signals, whatever the call has
returned. -/
theorem TaskQueue.run_waiterSchedule (l : Nat) (t : TaskQueue) (k : Nat) (sc : QueueShutdown)
    (hreach : TaskQueue.Reachable l t)
    (hk : t.shutdowns[k]? = some sc) (hw : sc.waiter.atWait = true)
    (hz : t.wg = 0) (hopen : t.queue.closed = false) (hc : t.crashed = false) :
    ∃ t', runActions TaskQueue.step (TaskQueue.waiterSchedule l k) t = some t' ∧
      t'.shutdowns[k]? = some { sc with waiter := .quitting l } ∧ t'.crashed = false ∧
      t'.queue.closed = true ∧ t'.quitSent = l := by
  have hsz := TaskQueue.queue_reachable_sized l t hreach
  have hacc := TaskQueue.reachable_accounted l t hreach
  have hklt := lt_length_of_getElem?_some _ _ _ hk
  have hquiet : t.quitSent = 0 := by
    refine (hacc.quiet (fun j y hj => ?_)).2
    cases hy : y.waiter.past
    · rfl
    · have := (hacc.pastOk j y hj hy).1
      rw [hopen] at this
      cases this
  have hbuf : t.quitChan.buf.length = 0 := by
    unfold TaskQueue.quitSent at hquiet
    omega
  have h1 : t.step (.waiterStep k) = some
      { t with shutdowns := t.shutdowns.set k { sc with waiter := .closing } } :=
    TaskQueue.waiterStep_leaves_wait t k sc (TaskQueue.reachable_parkedPositive l t hreach)
      hk hw hz hc
  have h2 : TaskQueue.step (.waiterStep k)
      { t with shutdowns := t.shutdowns.set k { sc with waiter := .closing } } = some
      { t with queue := { t.queue with closed := true },
               shutdowns := t.shutdowns.set k { sc with waiter := .quitting 0 } } := by
    simp [TaskQueue.step, hc, TaskQueue.waiterStep, List.getElem?_set_self hklt, Chan.close,
      hopen]
  obtain ⟨s3, h3, hk3, hc3, hq3⟩ := TaskQueue.run_quit_loop k l
    { t with queue := { t.queue with closed := true },
             shutdowns := t.shutdowns.set k { sc with waiter := .quitting 0 } }
    { sc with waiter := .quitting 0 } 0
    (by
      show (t.shutdowns.set k _)[k]? = some _
      exact List.getElem?_set_self hklt) rfl
    (by show 0 + l = t.qlen; rw [hsz.qlen]; omega) hc hsz.quitOpen
    (by
      show t.quitChan.buf.length + l ≤ t.quitChan.cap
      rw [hsz.quitCap]
      omega)
  have hrun : runActions TaskQueue.step (TaskQueue.waiterSchedule l k) t = some s3 := by
    unfold TaskQueue.waiterSchedule
    simp only [runActions, h1, h2]
    exact h3
  have hk3' : s3.shutdowns[k]? = some { sc with waiter := .quitting l } := by
    rw [hk3]
    show some { sc with waiter := QueueWaiter.quitting t.qlen } = _
    rw [hsz.qlen]
  have hreach3 := TaskQueue.Reachable.run_queue l _ t s3 hreach hrun
  obtain ⟨p1, p2, _⟩ := (TaskQueue.reachable_accounted l s3 hreach3).pastOk k _ hk3' rfl
  refine ⟨s3, hrun, hk3', hc3, p1, ?_⟩
  rw [← p2]
  rfl

/-- With the counter at zero and the queue open, the waiter of a Shutdown call that returned
the timeout error goes through, and AddJob faults afterwards. -/
theorem TaskQueue.run_closedAfterTimeout (l : Nat) (t : TaskQueue) (k : Nat)
    (sc : QueueShutdown) (job : Option Job) (hreach : TaskQueue.Reachable l t)
    (hk : t.shutdowns[k]? = some sc) (hres : sc.result = some (some "timeout"))
    (hw : sc.waiter.atWait = true) (hz : t.wg = 0) (hopen : t.queue.closed = false)
    (hc : t.crashed = false) :
    ∃ t2, runActions TaskQueue.step (TaskQueue.waiterSchedule l k) t = some t2 ∧
      t2.ClosedAfterTimeout l k job := by
  obtain ⟨t2, hrun, hk2, hc2, hcl2, hq2⟩ :=
    TaskQueue.run_waiterSchedule l t k sc hreach hk hw hz hopen hc
  refine ⟨t2, hrun, hc2, hcl2, hq2, ?_, ?_⟩
  · simp [TaskQueue.resultOf, hk2, hres]
  · refine ⟨{ t2.addBegin job with crashed := true }, ?_, rfl⟩
    simp [runActions, TaskQueue.step, hc2, TaskQueue.addBegin, TaskQueue.addSend, Chan.send,
      hcl2]

/-- C22: let a Shutdown call on a started queue of size l have returned the timeout error
while its waiter is at Wait, in a live process. The returned value never changes and the
waiter is not cancelled. A waiter about to call Wait parks when the counter is not zero. A
parked waiter is blocked and the counter is not zero; the Done that brings the counter to
zero releases it, and (queue not yet closed by another call) the waiter then leaves Wait,
closes the queue and sends l quit signals without blocking, after which an AddJob call
faults at its send on the closed queue. The same holds from any state in which the counter is
zero and the waiter is at Wait. An AddJob that comes between the release of the waiter and
its resumption makes the waiter panic inside Wait, which also terminates the process. -/
theorem TaskQueue.shutdown_timeout_waiter_pending (l : Nat) (t : TaskQueue) (k : Nat)
    (sc : QueueShutdown) (job : Option Job) (hreach : TaskQueue.Reachable l t)
    (hlive : t.crashed = false) (hk : t.shutdowns[k]? = some sc)
    (hres : sc.result = some (some "timeout")) (hw : sc.waiter.atWait = true) :
    (∀ acts t', runActions TaskQueue.step acts t = some t' →
      t'.resultOf k = some (some "timeout")) ∧
    (sc.waiter = .waiting → t.wg ≠ 0 →
      t.step (.waiterStep k)
        = some { t with shutdowns := t.shutdowns.set k { sc with waiter := .parked } }) ∧
    (sc.waiter = .parked →
      t.wg ≠ 0 ∧ t.step (.waiterStep k) = none ∧
      ∀ c, t.consumers[c]? = some .finishing → t.wg = 1 → t.queue.closed = false →
        (∃ t1, t.step (.wgDone c) = some t1 ∧ t1.wg = 0 ∧ t1.crashed = false ∧
          t1.shutdowns[k]? = some { sc with waiter := .released }) ∧
        ∃ t2, runActions TaskQueue.step (.wgDone c :: TaskQueue.waiterSchedule l k) t
            = some t2 ∧ t2.ClosedAfterTimeout l k job) ∧
    (t.wg = 0 → t.queue.closed = false →
      ∃ t2, runActions TaskQueue.step (TaskQueue.waiterSchedule l k) t = some t2 ∧
        t2.ClosedAfterTimeout l k job) ∧
    (sc.waiter = .released →
      ∃ t3, runActions TaskQueue.step [.addBegin job, .waiterStep k] t = some t3 ∧
        t3.crashed = true) := by
  have hklt := lt_length_of_getElem?_some _ _ _ hk
  have hpos := TaskQueue.reachable_parkedPositive l t hreach
  refine ⟨?_, ?_, ?_, ?_, ?_⟩
  · intro acts t' hrun
    obtain ⟨sc', hk', hres'⟩ := runActions_preserves TaskQueue.step (TaskQueue.TimedOut k)
      (fun a s s' hs hstep =>
        TaskQueue.Moves.timedOut k a s s' (TaskQueue.step_moves a s s' hstep) hs)
      acts t t' ⟨sc, hk, hres⟩ hrun
    simp [TaskQueue.resultOf, hk', hres']
  · intro hwt hnz
    simp [TaskQueue.step, hlive, TaskQueue.waiterStep, hk, hwt, hnz]
  · intro hwt
    refine ⟨hpos k sc hk hwt, ?_, ?_⟩
    · simp [TaskQueue.step, hlive, TaskQueue.waiterStep, hk, hwt]
    · intro c hcf hone hopen
      have hstep : t.step (.wgDone c) = some
          { t with wg := 0, consumers := t.consumers.set c .idle,
                   shutdowns := QueueShutdown.releaseAll 0 t.shutdowns } := by
        simp [TaskQueue.step, hlive, TaskQueue.wgDone, hcf, hone]
      have hk1 : (QueueShutdown.releaseAll 0 t.shutdowns)[k]?
          = some { sc with waiter := .released } := by
        rw [QueueShutdown.getElem?_releaseAll, hk]
        simp [QueueShutdown.release, hwt]
      refine ⟨⟨_, hstep, rfl, hlive, hk1⟩, ?_⟩
      obtain ⟨t2, hrun2, hP⟩ := TaskQueue.run_closedAfterTimeout l
        { t with wg := 0, consumers := t.consumers.set c .idle,
                 shutdowns := QueueShutdown.releaseAll 0 t.shutdowns }
        k { sc with waiter := .released } job
        (TaskQueue.Reachable.step_queue l (.wgDone c) t _ hreach hstep) hk1 hres rfl rfl
        hopen hlive
      refine ⟨t2, ?_, hP⟩
      simp only [runActions, hstep]
      exact hrun2
  · intro hz hopen
    exact TaskQueue.run_closedAfterTimeout l t k sc job hreach hk hres hw hz hopen hlive
  · intro hwt
    refine ⟨{ t.addBegin job with crashed := true }, ?_, rfl⟩
    simp [runActions, TaskQueue.step, hlive, TaskQueue.addBegin, TaskQueue.waiterStep, hk, hwt]

theorem TaskQueue.sampleTimedOutParked_reachable :
    TaskQueue.Reachable 1 TaskQueue.sampleTimedOutParked :=
  ⟨[.addBegin (some 7), .addSend 0, .recv 0, .shutdown false, .waiterStep 0, .ctxExpire 0,
    .selectCtx 0, .procReturn 0], by decide⟩

/-- Witness of C22 at the queue of size 1 whose Shutdown call timed out, with its waiter
parked, before its only job finished. -/
theorem TaskQueue.shutdown_timeout_waiter_pending_witness :
    TaskQueue.sampleTimedOutParked.wg ≠ 0 ∧
    TaskQueue.sampleTimedOutParked.step (.waiterStep 0) = none ∧
    ∀ c, TaskQueue.sampleTimedOutParked.consumers[c]? = some .finishing →
      TaskQueue.sampleTimedOutParked.wg = 1 →
      TaskQueue.sampleTimedOutParked.queue.closed = false →
      (∃ t1, TaskQueue.sampleTimedOutParked.step (.wgDone c) = some t1 ∧ t1.wg = 0 ∧
        t1.crashed = false ∧
        t1.shutdowns[0]? = some
          { (QueueShutdown.mk .parked (Chan.make Unit 1) true (some (some "timeout"))) with
              waiter := .released }) ∧
      ∃ t2, runActions TaskQueue.step (.wgDone c :: TaskQueue.waiterSchedule 1 0)
          TaskQueue.sampleTimedOutParked = some t2 ∧
        t2.ClosedAfterTimeout 1 0 (some 9) :=
  (TaskQueue.shutdown_timeout_waiter_pending 1 TaskQueue.sampleTimedOutParked 0
    ⟨.parked, Chan.make Unit 1, true, some (some "timeout")⟩ (some 9)
    TaskQueue.sampleTimedOutParked_reachable (by decide) (by decide) (by decide)
    (by decide)).2.2.1 (by decide)

/-! ## Workers after `Stop` -/

/-- Every step of the semantics is one of the listed state changes. -/
theorem Dispatcher.step_dispatcher_moves (a : DispatcherAction) (d d' : Dispatcher)
    (hs : d.step a = some d') : Dispatcher.Moves d a d' := by
  unfold Dispatcher.step at hs
  split at hs
  · cases hs
  · cases a with
    | dispatch job =>
      simp only [Dispatcher.dispatch] at hs
      split at hs
      · rename_i hpos
        cases hs
        exact .dispatch job hpos
      · cases hs
    | forward f =>
      simp only [Dispatcher.sendJobToWorker] at hs
      split at hs
      · rename_i hf
        cases hs
        exact .checkNil f hf
      · rename_i job hf
        cases hs
        exact .checkJob f job hf
      · rename_i job hf
        split at hs
        · rename_i w pool hrecv
          obtain ⟨rest, hb, rfl⟩ := Chan.recv_got _ _ _ hrecv
          cases hs
          exact .pull f job w rest hf hb
        · rename_i hrecv
          obtain ⟨hb, hcl⟩ := Chan.recv_zero _ hrecv
          cases hs
          exact .pullZero f job hf hb hcl
        · cases hs
      · cases hs
    | deliver f =>
      simp only [Dispatcher.deliver] at hs
      split at hs
      · rename_i w job hf
        split at hs
        · rename_i hw
          cases job with
          | none =>
            simp only [Worker.onJob] at hs
            cases hs
            exact .crash _
          | some j =>
            simp only [Worker.onJob] at hs
            cases hs
            exact .deliver f w j hf hw
        · cases hs
      · cases hs
    | register w =>
      simp only [Dispatcher.register] at hs
      split at hs
      · rename_i hw
        split at hs
        · rename_i pool hsend
          obtain ⟨h1, h2, rfl⟩ := Chan.send_sent _ _ _ hsend
          cases hs
          exact .register w hw h1 h2
        · cases hs
        · cases hs
          exact .crash _
      · cases hs
    | procReturn w =>
      simp only [Dispatcher.procReturn] at hs
      split at hs
      · rename_i ticket job hw
        cases hs
        exact .procReturn w ticket job hw
      · cases hs
    | procPanic w =>
      simp only [Dispatcher.procPanic] at hs
      split at hs
      · cases hs
        exact .crash _
      · cases hs
    | stop =>
      simp only [Dispatcher.Stop, Option.some.injEq] at hs
      split at hs
      · rename_i pool hclose
        obtain ⟨h1, rfl⟩ := Chan.close_some _ _ hclose
        cases hs
        exact .stop h1
      · rename_i hclose
        have hcl : d.workerPool.closed = true := by
          unfold Chan.close at hclose
          split at hclose
          · assumption
          · cases hclose
        cases hs
        exact .crashStop hcl
    | quit w =>
      simp only [Dispatcher.quit] at hs
      split at hs
      · rename_i hw
        split at hs
        · rename_i hq
          cases hs
          exact .quit w hw hq
        · cases hs
      · cases hs

/-- Once the registry is closed, a worker inside Process or at its registration stays there. -/
theorem Dispatcher.Moves.doomed (w : Nat) (a : DispatcherAction) (d d' : Dispatcher)
    (hm : Dispatcher.Moves d a d') (h : d.Doomed w) : d'.Doomed w := by
  obtain ⟨hcl, hw⟩ := h
  have hne : ∀ x st, d.workers[x]? = some .waiting →
      (d.workers.set x st)[w]? = d.workers[w]? := by
    intro x st hx
    have : x ≠ w := by
      intro e
      subst e
      rcases hw with ⟨ticket, job, hw⟩ | hw <;> rw [hw] at hx <;> cases hx
    exact List.getElem?_set_ne this
  cases hm with
  | dispatch job hpos => exact ⟨hcl, hw⟩
  | crash a => exact ⟨hcl, hw⟩
  | crashStop _ => exact ⟨hcl, hw⟩
  | checkNil f hf => exact ⟨hcl, hw⟩
  | checkJob f job hf => exact ⟨hcl, hw⟩
  | pull f job x rest hf hb => exact ⟨hcl, hw⟩
  | pullZero f job hf hb _ => exact ⟨hcl, hw⟩
  | deliver f x job hf hx =>
    refine ⟨hcl, ?_⟩
    show (∃ ticket j, (d.workers.set x (.busy f job))[w]? = some (.busy ticket j)) ∨
      (d.workers.set x (.busy f job))[w]? = some .registering
    rw [hne x _ hx]
    exact hw
  | register x hx hopen hlen =>
    rw [hcl] at hopen
    cases hopen
  | procReturn x ticket job hx =>
    refine ⟨hcl, ?_⟩
    show (∃ ticket j, (d.workers.set x .registering)[w]? = some (.busy ticket j)) ∨
      (d.workers.set x .registering)[w]? = some .registering
    by_cases e : x = w
    · subst e
      exact Or.inr (List.getElem?_set_self (lt_length_of_getElem?_some _ _ _ hx))
    · rw [List.getElem?_set_ne e]
      exact hw
  | stop hopen =>
    rw [hcl] at hopen
    cases hopen
  | quit x hx hq =>
    refine ⟨hcl, ?_⟩
    show (∃ ticket j, (d.workers.set x .stopped)[w]? = some (.busy ticket j)) ∨
      (d.workers.set x .stopped)[w]? = some .registering
    rw [hne x _ hx]
    exact hw

/-- A worker that is inside Process or at its registration when the registry is closed never
stops cleanly. -/
theorem Dispatcher.Doomed.neverStops (w : Nat) (d : Dispatcher) (h : d.Doomed w) :
    d.NeverStops w := by
  intro acts d' hrun
  obtain ⟨hcl, hw⟩ := runActions_preserves Dispatcher.step (Dispatcher.Doomed w)
    (fun a s s' hs hstep =>
      Dispatcher.Moves.doomed w a s s' (Dispatcher.step_dispatcher_moves a s s' hstep) hs)
    acts d d' h hrun
  refine ⟨hcl, ?_, ?_, ?_, ?_⟩
  · intro hst
    rcases hw with ⟨ticket, job, hw⟩ | hw <;> rw [hw] at hst <;> cases hst
  · intro hst
    rcases hw with ⟨ticket, job, hw⟩ | hw <;> rw [hw] at hst <;> cases hst
  · unfold Dispatcher.step
    split
    · rfl
    · simp only [Dispatcher.quit]
      rcases hw with ⟨ticket, job, hw⟩ | hw <;> rw [hw]
  · intro hreg hlive
    simp [Dispatcher.step, hlive, Dispatcher.register, hreg, Chan.send, hcl]

/-- C23: when the registry has been closed by Stop in a live process, (1) a worker that is
executing a job faults when Process returns: its re-registration sends on the closed registry
and terminates the process; (2) a worker at its select that receives a job (from a
sendJobToWorker goroutine holding its channel) instead of its pending quit signal, which it
could have taken to stop cleanly, does the same after that job; in both cases, however the
program goes on, the worker never stops cleanly and never stands at its select again. -/
theorem Dispatcher.register_after_stop_faults (d : Dispatcher) (w : Nat)
    (hclosed : d.workerPool.closed = true) (hlive : d.crashed = false) :
    (∀ ticket job, d.workers[w]? = some (.busy ticket job) →
      (∃ d2, runActions Dispatcher.step [.procReturn w, .register w] d = some d2 ∧
        d2.crashed = true) ∧
      d.NeverStops w) ∧
    (∀ f job, d.workers[w]? = some .waiting →
      d.forwarders[f]? = some (.sending (some w) (some job)) →
      (∃ d2, runActions Dispatcher.step [.deliver f, .procReturn w, .register w] d = some d2 ∧
        d2.crashed = true) ∧
      (w ∈ d.quitters →
        ∃ d3, d.step (.quit w) = some d3 ∧ d3.workers[w]? = some .stopped ∧
          d3.crashed = false) ∧
      ∃ d1, d.step (.deliver f) = some d1 ∧ d1.crashed = false ∧ d1.NeverStops w) := by
  constructor
  · intro ticket job hw
    have hlt := lt_length_of_getElem?_some _ _ _ hw
    refine ⟨⟨{ d with workers := d.workers.set w .registering, crashed := true }, ?_, rfl⟩,
      Dispatcher.Doomed.neverStops w d ⟨hclosed, Or.inl ⟨ticket, job, hw⟩⟩⟩
    simp [runActions, Dispatcher.step, hlive, Dispatcher.procReturn, hw, Dispatcher.register,
      List.getElem?_set_self hlt, Chan.send, hclosed]
  · intro f job hw hf
    have hlt := lt_length_of_getElem?_some _ _ _ hw
    refine ⟨⟨{ d with workers := (d.workers.set w (.busy f job)).set w .registering,
                      forwarders := d.forwarders.set f .finished,
                      forwards := d.forwards ++ [(f, w)],
                      processed := d.processed ++ [(w, f)], crashed := true }, ?_, rfl⟩,
      ?_, ?_⟩
    · simp [runActions, Dispatcher.step, hlive, Dispatcher.deliver, hf, hw, Worker.onJob,
        Dispatcher.procReturn, Dispatcher.register, List.getElem?_set_self, hlt, Chan.send,
        hclosed]
    · intro hq
      refine ⟨{ d with workers := d.workers.set w .stopped, quitters := d.quitters.erase w },
        ?_, List.getElem?_set_self hlt, hlive⟩
      simp [Dispatcher.step, hlive, Dispatcher.quit, hw, hq]
    · refine ⟨{ d with workers := d.workers.set w (.busy f job),
                       forwarders := d.forwarders.set f .finished,
                       forwards := d.forwards ++ [(f, w)],
                       processed := d.processed ++ [(w, f)] }, ?_, hlive, ?_⟩
      · simp [Dispatcher.step, hlive, Dispatcher.deliver, hf, hw, Worker.onJob]
      · exact Dispatcher.Doomed.neverStops w _
          ⟨hclosed, Or.inl ⟨f, job, List.getElem?_set_self hlt⟩⟩

/-- Witness of C23 at the dispatcher `sampleHalfBusy` after `Stop()`: worker 0 is inside
Process. -/
theorem Dispatcher.register_after_stop_faults_witness :
    Dispatcher.Reachable 2 Dispatcher.sampleHalfBusy.Stop ∧
    (∃ d2, runActions Dispatcher.step [.procReturn 0, .register 0]
        Dispatcher.sampleHalfBusy.Stop = some d2 ∧ d2.crashed = true) ∧
    Dispatcher.sampleHalfBusy.Stop.NeverStops 0 :=
  ⟨Dispatcher.Reachable.step_dispatcher 2 .stop Dispatcher.sampleHalfBusy _
      Dispatcher.sampleHalfBusy_reachable (by decide),
    (Dispatcher.register_after_stop_faults Dispatcher.sampleHalfBusy.Stop 0 (by decide)
      (by decide)).1 0 5 (by decide)⟩

/-! ## The channel of a worker that stopped -/

/-- A worker that has stopped stays stopped and calls Process no more. -/
theorem Dispatcher.Moves.retired (w : Nat) (p : List (Nat × Nat)) (a : DispatcherAction)
    (d d' : Dispatcher) (hm : Dispatcher.Moves d a d') (h : d.Retired w p) :
    d'.Retired w p := by
  obtain ⟨hw, hp⟩ := h
  have hne : ∀ x st st', d.workers[x]? = some st → st ≠ .stopped →
      (d.workers.set x st')[w]? = some .stopped := by
    intro x st st' hx hst
    refine getElem?_set_keep _ _ _ _ _ hw ?_
    rw [hx]
    intro c
    exact hst (Option.some.inj c)
  cases hm with
  | dispatch job hpos => exact ⟨hw, hp⟩
  | crash a => exact ⟨hw, hp⟩
  | crashStop _ => exact ⟨hw, hp⟩
  | checkNil f hf => exact ⟨hw, hp⟩
  | checkJob f job hf => exact ⟨hw, hp⟩
  | pull f job x rest hf hb => exact ⟨hw, hp⟩
  | pullZero f job hf hb _ => exact ⟨hw, hp⟩
  | deliver f x job hf hx =>
    refine ⟨hne x _ _ hx (by intro c; cases c), ?_⟩
    intro e he hew
    have he' : e ∈ d.processed ++ [(x, f)] := he
    rw [List.mem_append, List.mem_singleton] at he'
    rcases he' with he' | he'
    · exact hp e he' hew
    · subst he'
      simp only at hew
      subst hew
      rw [hw] at hx
      cases hx
  | register x hx hopen hlen => exact ⟨hne x _ _ hx (by intro c; cases c), hp⟩
  | procReturn x ticket job hx => exact ⟨hne x _ _ hx (by intro c; cases c), hp⟩
  | stop hopen => exact ⟨hw, hp⟩
  | quit x hx hq => exact ⟨hne x _ _ hx (by intro c; cases c), hp⟩

/-- A goroutine standing at its send on the channel of a stopped worker stays there. -/
theorem Dispatcher.Moves.stranded (f w : Nat) (job : Option Job) (a : DispatcherAction)
    (d d' : Dispatcher) (hm : Dispatcher.Moves d a d') (h : d.Stranded f w job) :
    d'.Stranded f w job := by
  obtain ⟨hw, hf⟩ := h
  have hflt := lt_length_of_getElem?_some _ _ _ hf
  have hne : ∀ x st st', d.workers[x]? = some st → st ≠ .stopped →
      (d.workers.set x st')[w]? = some .stopped := by
    intro x st st' hx hst
    refine getElem?_set_keep _ _ _ _ _ hw ?_
    rw [hx]
    intro c
    exact hst (Option.some.inj c)
  have hfne : ∀ g st st', d.forwarders[g]? = some st → st ≠ .sending (some w) job →
      (d.forwarders.set g st')[f]? = some (.sending (some w) job) := by
    intro g st st' hg hst
    refine getElem?_set_keep _ _ _ _ _ hf ?_
    rw [hg]
    intro c
    exact hst (Option.some.inj c)
  cases hm with
  | dispatch j hpos =>
    refine ⟨hw, ?_⟩
    show (d.forwarders ++ [Forwarder.checking j])[f]? = _
    rw [List.getElem?_append_left hflt]
    exact hf
  | crash a => exact ⟨hw, hf⟩
  | crashStop _ => exact ⟨hw, hf⟩
  | checkNil g hg => exact ⟨hw, hfne g _ _ hg (by intro c; cases c)⟩
  | checkJob g j hg => exact ⟨hw, hfne g _ _ hg (by intro c; cases c)⟩
  | pull g j x rest hg hb => exact ⟨hw, hfne g _ _ hg (by intro c; cases c)⟩
  | pullZero g j hg hb _ => exact ⟨hw, hfne g _ _ hg (by intro c; cases c)⟩
  | deliver g x j hg hx =>
    refine ⟨hne x _ _ hx (by intro c; cases c), hfne g _ _ hg ?_⟩
    intro c
    cases c
    rw [hw] at hx
    cases hx
  | register x hx hopen hlen => exact ⟨hne x _ _ hx (by intro c; cases c), hf⟩
  | procReturn x ticket j hx => exact ⟨hne x _ _ hx (by intro c; cases c), hf⟩
  | stop hopen => exact ⟨hw, hf⟩
  | quit x hx hq => exact ⟨hne x _ _ hx (by intro c; cases c), hf⟩

/-- The channel of a worker at its select is in the registry or was pulled from it. -/
theorem Dispatcher.Moves.listed (a : DispatcherAction) (d d' : Dispatcher)
    (hm : Dispatcher.Moves d a d') (h : d.Listed) : d'.Listed := by
  have keepF : ∀ (g : Nat) (st st' : Forwarder) (w : Nat), d.forwarders[g]? = some st →
      (∀ x j, st ≠ .sending (some x) j) →
      (∃ (f : Nat) (job : Option Job), d.forwarders[f]? = some (.sending (some w) job)) →
      ∃ (f : Nat) (job : Option Job),
        (d.forwarders.set g st')[f]? = some (.sending (some w) job) := by
    intro g st st' w hg hst ⟨f, job, hf⟩
    refine ⟨f, job, getElem?_set_keep _ _ _ _ _ hf ?_⟩
    rw [hg]
    intro c
    exact hst w job (Option.some.inj c)
  have other : ∀ (x : Nat) (st : WorkerState) (w : Nat), st ≠ .waiting →
      (d.workers.set x st)[w]? = some .waiting → d.workers[w]? = some .waiting := by
    intro x st w hst hw
    rcases getElem?_set_cases _ _ _ _ _ hw with ⟨_, e⟩ | ⟨_, hw⟩
    · exact absurd e.symm hst
    · exact hw
  cases hm with
  | dispatch j hpos =>
    intro w hw
    rcases h w hw with hb | ⟨f, job, hf⟩
    · exact Or.inl hb
    · refine Or.inr ⟨f, job, ?_⟩
      show (d.forwarders ++ [Forwarder.checking j])[f]? = _
      rw [List.getElem?_append_left (lt_length_of_getElem?_some _ _ _ hf)]
      exact hf
  | crash a => exact h
  | crashStop _ => exact h
  | checkNil g hg =>
    intro w hw
    rcases h w hw with hb | hheld
    · exact Or.inl hb
    · exact Or.inr (keepF g _ _ w hg (by intro x j c; cases c) hheld)
  | checkJob g j hg =>
    intro w hw
    rcases h w hw with hb | hheld
    · exact Or.inl hb
    · exact Or.inr (keepF g _ _ w hg (by intro x j c; cases c) hheld)
  | pull g j x rest hg hb =>
    intro w hw
    rcases h w hw with hmem | hheld
    · rw [hb, List.mem_cons] at hmem
      rcases hmem with e | hmem
      · subst e
        exact Or.inr ⟨g, j, List.getElem?_set_self (lt_length_of_getElem?_some _ _ _ hg)⟩
      · exact Or.inl hmem
    · exact Or.inr (keepF g _ _ w hg (by intro x j c; cases c) hheld)
  | pullZero g j hg hb _ =>
    intro w hw
    rcases h w hw with hmem | hheld
    · exact Or.inl hmem
    · exact Or.inr (keepF g _ _ w hg (by intro x j c; cases c) hheld)
  | deliver g x j hg hx =>
    intro w hw
    have hw' : (d.workers.set x (.busy g j))[w]? = some .waiting := hw
    rcases getElem?_set_cases _ _ _ _ _ hw' with ⟨_, e⟩ | ⟨hwx, hwold⟩
    · cases e
    · rcases h w hwold with hmem | ⟨f, job, hf⟩
      · exact Or.inl hmem
      · refine Or.inr ⟨f, job, getElem?_set_keep _ _ _ _ _ hf ?_⟩
        rw [hg]
        intro c
        cases c
        exact hwx rfl
  | register x hx hopen hlen =>
    intro w hw
    have hw' : (d.workers.set x .waiting)[w]? = some .waiting := hw
    show w ∈ d.workerPool.buf ++ [x] ∨ _
    rcases getElem?_set_cases _ _ _ _ _ hw' with ⟨e, _⟩ | ⟨_, hwold⟩
    · subst e
      exact Or.inl (by simp)
    · rcases h w hwold with hmem | hheld
      · exact Or.inl (List.mem_append_left _ hmem)
      · exact Or.inr hheld
  | procReturn x ticket j hx =>
    intro w hw
    exact h w (other x _ w (by intro c; cases c) hw)
  | stop hopen => exact h
  | quit x hx hq =>
    intro w hw
    exact h w (other x _ w (by intro c; cases c) hw)

theorem Dispatcher.reachable_listed (n : Nat) (d : Dispatcher)
    (h : Dispatcher.Reachable n d) : d.Listed := by
  obtain ⟨acts, hacts⟩ := h
  refine runActions_preserves Dispatcher.step Dispatcher.Listed
    (fun a s s' hs hstep =>
      Dispatcher.Moves.listed a s s' (Dispatcher.step_dispatcher_moves a s s' hstep) hs)
    acts _ d ?_ hacts
  intro w hw
  simp only [Dispatcher.Run, NewDispatcher, List.nil_append] at hw
  rw [List.getElem?_eq_some] at hw
  obtain ⟨_, hw⟩ := hw
  simp at hw

/-- C24: a worker that returns on its quit signal leaves the registry as it is: its channel,
registered before it waited, stays in the registry unless a sendJobToWorker goroutine has
pulled it already. However the program goes on, the worker stays stopped and calls Process no
more; a sendJobToWorker goroutine that finds the channel first in the registry pulls it; and a
goroutine standing at its send on that channel stays there for ever: its send never
completes, it has no other step, and its job is never processed. -/
theorem Dispatcher.quit_strands_channel (n : Nat) (d d1 : Dispatcher) (w : Nat)
    (hr : Dispatcher.Reachable n d) (hq : d.step (.quit w) = some d1) :
    d1.workers[w]? = some .stopped ∧ d1.crashed = false ∧ d1.workerPool = d.workerPool ∧
    (w ∈ d1.workerPool.buf ∨
      ∃ (f : Nat) (job : Option Job), d1.forwarders[f]? = some (.sending (some w) job)) ∧
    ∀ acts d', runActions Dispatcher.step acts d1 = some d' →
      d'.workers[w]? = some .stopped ∧
      (∀ e ∈ d'.processed, e.1 = w → e ∈ d1.processed) ∧
      (∀ (f : Nat) (job : Option Job) (rest : List Nat), d'.crashed = false →
        d'.forwarders[f]? = some (.pulling job) → d'.workerPool.buf = w :: rest →
        d'.step (.forward f) = some
          { d' with workerPool := { d'.workerPool with buf := rest },
                    forwarders := d'.forwarders.set f (.sending (some w) job) }) ∧
      ∀ (f : Nat) (job : Option Job), d'.forwarders[f]? = some (.sending (some w) job) →
        ∀ acts2 d'', runActions Dispatcher.step acts2 d' = some d'' →
          d''.forwarders[f]? = some (.sending (some w) job) ∧
          d''.step (.deliver f) = none ∧ d''.step (.forward f) = none ∧
          ∀ x, (x, f) ∉ d''.processed := by
  have hlisted := Dispatcher.reachable_listed n d hr
  have hr1 := Dispatcher.Reachable.step_dispatcher n (.quit w) d d1 hr hq
  have hmoves : ∀ (s s' : Dispatcher) (acts : List DispatcherAction),
      Dispatcher.Reachable n s → runActions Dispatcher.step acts s = some s' →
      Dispatcher.Reachable n s' := by
    intro s s' acts hs hrun
    obtain ⟨pre, hpre⟩ := hs
    exact ⟨pre ++ acts, runActions_append Dispatcher.step pre acts _ s s' hpre hrun⟩
  have hfacts : d.workers[w]? = some .waiting ∧ d.crashed = false ∧
      d1 = { d with workers := d.workers.set w .stopped, quitters := d.quitters.erase w } := by
    unfold Dispatcher.step at hq
    split at hq
    · cases hq
    · rename_i hlive
      simp only [Dispatcher.quit] at hq
      split at hq
      · rename_i hw
        split at hq
        · cases hq
          exact ⟨hw, by simpa using hlive, rfl⟩
        · cases hq
      · cases hq
  obtain ⟨hw, hlive, hd1⟩ := hfacts
  have hwlt := lt_length_of_getElem?_some _ _ _ hw
  have hstopped : d1.workers[w]? = some .stopped := by
    rw [hd1]
    exact List.getElem?_set_self hwlt
  have hpool : d1.workerPool = d.workerPool := by rw [hd1]
  have hfw : d1.forwarders = d.forwarders := by rw [hd1]
  refine ⟨hstopped, by rw [hd1]; exact hlive, hpool, by rw [hpool, hfw]; exact hlisted w hw, ?_⟩
  intro acts d' hrun
  have hr' := hmoves _ d' acts hr1 hrun
  obtain ⟨r1, r2⟩ := runActions_preserves Dispatcher.step
    (Dispatcher.Retired w d1.processed)
    (fun a s s' hs hstep =>
      Dispatcher.Moves.retired w _ a s s' (Dispatcher.step_dispatcher_moves a s s' hstep) hs)
    acts d1 d' ⟨hstopped, fun e he _ => he⟩ hrun
  refine ⟨r1, r2, ?_, ?_⟩
  · intro f job rest hlive' hf hb
    simp [Dispatcher.step, hlive', Dispatcher.sendJobToWorker, hf, Chan.recv, hb]
  · intro f job hf acts2 d'' hrun2
    have hr'' := hmoves _ d'' acts2 hr' hrun2
    obtain ⟨s1, s2⟩ := runActions_preserves Dispatcher.step
      (Dispatcher.Stranded f w job)
      (fun a s s' hs hstep =>
        Dispatcher.Moves.stranded f w job a s s' (Dispatcher.step_dispatcher_moves a s s' hstep) hs)
      acts2 d' d'' ⟨r1, hf⟩ hrun2
    have ht := Dispatcher.dispatcher_reachable_ticketed n d'' hr''
    refine ⟨s2, ?_, ?_, ?_⟩
    · unfold Dispatcher.step
      split
      · rfl
      · simp only [Dispatcher.deliver, s2, s1]
    · unfold Dispatcher.step
      split
      · rfl
      · simp only [Dispatcher.sendJobToWorker, s2]
    · intro x hx
      rw [ht.mirror, List.mem_map] at hx
      obtain ⟨e, he, hsw⟩ := hx
      have hfin := ht.done e he
      have e1 : e.1 = f := by
        have := congrArg Prod.snd hsw
        simpa using this
      rw [e1, s2] at hfin
      cases hfin

theorem Dispatcher.sampleQuitPending_reachable :
    Dispatcher.Reachable 1 Dispatcher.sampleQuitPending :=
  ⟨[.register 0, .stop, .dispatch (some 7)], by decide⟩

/-- Witness of C24 at the dispatcher `sampleQuitPending`: the worker takes its quit signal,
then the goroutine for job 7 pulls the worker's channel and stands at its send. -/
theorem Dispatcher.quit_strands_channel_witness :
    ({ Dispatcher.sampleQuitPending with
        workers := [.stopped], workerPool := ⟨1, [], true⟩, quitters := [],
        forwarders := [.sending (some 0) (some 7)] } : Dispatcher).step (.deliver 0) = none ∧
    ∀ x, (x, 0) ∉ ({ Dispatcher.sampleQuitPending with
        workers := [.stopped], workerPool := ⟨1, [], true⟩, quitters := [],
        forwarders := [.sending (some 0) (some 7)] } : Dispatcher).processed :=
  have h := ((Dispatcher.quit_strands_channel 1 Dispatcher.sampleQuitPending
    { Dispatcher.sampleQuitPending with workers := [.stopped], quitters := [] } 0
    Dispatcher.sampleQuitPending_reachable (by decide)).2.2.2.2
    [.forward 0, .forward 0]
    { Dispatcher.sampleQuitPending with
        workers := [.stopped], workerPool := ⟨1, [], true⟩, quitters := [],
        forwarders := [.sending (some 0) (some 7)] } (by decide)).2.2.2 0 (some 7) (by decide)
    [] _ rfl
  ⟨h.2.1, h.2.2.2⟩

/-! ## Absent jobs at a worker -/

/-- C11 (counterexample): the worker made by NewWorker and started registers; another
goroutine takes its channel from the pool and sends the absent job on it; the worker calls
Process on it, which panics: the process is terminated and the worker does not register
again. With a present job the same schedule has the worker call Process once and stand at its
registration again. -/
theorem Worker.nil_job_counterexample :
    runActions StartedWorker.step [.register] (NewWorker 0 (Chan.make Nat 1)).Start
      = some StartedWorker.sampleWaiting ∧
    (runActions StartedWorker.step [.register, .pull, .hand none]
        (NewWorker 0 (Chan.make Nat 1)).Start).map (fun s => (s.loop, s.processed, s.crashed))
      = some (.waiting, [], true) ∧
    runActions StartedWorker.step [.register, .pull, .hand none, .register]
        (NewWorker 0 (Chan.make Nat 1)).Start = none ∧
    (runActions StartedWorker.step [.register, .pull, .hand (some 5), .procReturn]
        (NewWorker 0 (Chan.make Nat 1)).Start).map (fun s => (s.loop, s.processed, s.crashed))
      = some (.registering, [5], false) ∧
    (runActions StartedWorker.step [.register, .pull, .hand (some 5), .procReturn, .register]
        (NewWorker 0 (Chan.make Nat 1)).Start).map (fun s => (s.loop, s.crashed))
      = some (.waiting, false) := by
  decide

/-- The nil check of sendJobToWorker keeps absent jobs away from the worker pool. -/
theorem Dispatcher.Moves.guarded (a : DispatcherAction) (d d' : Dispatcher)
    (hm : Dispatcher.Moves d a d') (h : d.Guarded) : d'.Guarded := by
  have hset : ∀ (g : Nat) (y : Forwarder), (y ≠ .pulling none ∧ ∀ w, y ≠ .sending w none) →
      ∀ (f : Nat) (x : Forwarder), (d.forwarders.set g y)[f]? = some x →
        x ≠ .pulling none ∧ ∀ w, x ≠ .sending w none := by
    intro g y hy f x hx
    rcases getElem?_set_cases _ _ _ _ _ hx with ⟨_, e⟩ | ⟨_, hx⟩
    · rw [e]
      exact hy
    · exact h f x hx
  cases hm with
  | dispatch job hpos =>
    intro f x hx
    rcases getElem?_concat_cases _ _ _ _ hx with hx | ⟨_, e⟩
    · exact h f x hx
    · rw [e]
      exact ⟨(by intro c; cases c), (by intro w c; cases c)⟩
  | crash a => exact h
  | crashStop _ => exact h
  | checkNil f hf => exact hset f _ ⟨(by intro c; cases c), (by intro w c; cases c)⟩
  | checkJob f job hf => exact hset f _ ⟨(by intro c; cases c), (by intro w c; cases c)⟩
  | pull f job w rest hf hb =>
    refine hset f _ ⟨(by intro c; cases c), ?_⟩
    intro w' c
    cases c
    exact (h f _ hf).1 rfl
  | pullZero f job hf hb _ =>
    refine hset f _ ⟨(by intro c; cases c), ?_⟩
    intro w' c
    cases c
    exact (h f _ hf).1 rfl
  | deliver f w job hf hw => exact hset f _ ⟨(by intro c; cases c), (by intro w c; cases c)⟩
  | register w hw hopen hlen => exact h
  | procReturn w ticket job hw => exact h
  | stop hopen => exact h
  | quit w hw hq => exact h

theorem Dispatcher.reachable_guarded (n : Nat) (d : Dispatcher)
    (h : Dispatcher.Reachable n d) : d.Guarded := by
  obtain ⟨acts, hacts⟩ := h
  refine runActions_preserves Dispatcher.step Dispatcher.Guarded
    (fun a s s' hs hstep =>
      Dispatcher.Moves.guarded a s s' (Dispatcher.step_dispatcher_moves a s s' hstep) hs)
    acts _ d ?_ hacts
  intro f x hx
  simp [Dispatcher.Run, NewDispatcher] at hx

/-- C11 (amended): for a started worker standing at its select in a live process, an absent
job received on its channel is a fault: the worker calls Process on it without a nil check
and the process terminates, nothing is executed and the worker does not register again,
whereas a present job is executed once. A worker started by a Dispatcher never receives an
absent job: in every state reachable from NewDispatcher(n).Run no sendJobToWorker goroutine
holds an absent job once past its nil check, and no hand-over of a job to a worker
terminates the process. -/
theorem Worker.nil_job_faults_unless_guarded (s : StartedWorker) (n : Nat) (d : Dispatcher)
    (hloop : s.loop = .waiting) (hlive : s.crashed = false)
    (hr : Dispatcher.Reachable n d) :
    s.step (.hand none) = some { s with crashed := true } ∧
    (s.step (.hand none)).bind (StartedWorker.step .register) = none ∧
    (∀ job : Job, s.step (.hand (some job)) = some
      { s with loop := .busy s.processed.length job, processed := s.processed ++ [job] }) ∧
    (∀ (f : Nat) (job : Option Job), d.forwarders[f]? = some (.pulling job) → job ≠ none) ∧
    (∀ (f : Nat) (w : Option Nat) (job : Option Job),
      d.forwarders[f]? = some (.sending w job) → job ≠ none) ∧
    (∀ (f : Nat) (d' : Dispatcher), d.step (.deliver f) = some d' → d'.crashed = false) := by
  have hg := Dispatcher.reachable_guarded n d hr
  refine ⟨?_, ?_, ?_, ?_, ?_, ?_⟩
  · simp [StartedWorker.step, hlive, StartedWorker.startWorker, hloop, Worker.onJob]
  · simp [StartedWorker.step, hlive, StartedWorker.startWorker, hloop, Worker.onJob]
  · intro job
    simp [StartedWorker.step, hlive, StartedWorker.startWorker, hloop, Worker.onJob]
  · intro f job hf e
    subst e
    exact (hg f _ hf).1 rfl
  · intro f w job hf e
    subst e
    exact (hg f _ hf).2 w rfl
  · intro f d' hs
    unfold Dispatcher.step at hs
    split at hs
    · cases hs
    · rename_i hlive'
      simp only [Dispatcher.deliver] at hs
      split at hs
      · rename_i w job hf
        split at hs
        · cases job with
          | none => exact absurd rfl ((hg f _ hf).2 (some w))
          | some j =>
            simp only [Worker.onJob] at hs
            cases hs
            simpa using hlive'
        · cases hs
      · cases hs

/-- Witness of the amended C11 at the worker `sampleWaiting` and the dispatcher
`sampleHalfBusy`. -/
theorem Worker.nil_job_faults_unless_guarded_witness :
    StartedWorker.sampleWaiting.step (.hand none)
      = some { StartedWorker.sampleWaiting with crashed := true } ∧
    (∀ (f : Nat) (w : Option Nat) (job : Option Job),
      Dispatcher.sampleHalfBusy.forwarders[f]? = some (.sending w job) → job ≠ none) :=
  ⟨(Worker.nil_job_faults_unless_guarded StartedWorker.sampleWaiting 2
      Dispatcher.sampleHalfBusy (by decide) (by decide) Dispatcher.sampleHalfBusy_reachable).1,
    (Worker.nil_job_faults_unless_guarded StartedWorker.sampleWaiting 2
      Dispatcher.sampleHalfBusy (by decide) (by decide)
      Dispatcher.sampleHalfBusy_reachable).2.2.2.2.1⟩

end Workerqueue
